import Mathlib

/-!
# Mython: lexer, runtime object model and AST evaluator

A shallow embedding of `src/mython/lexer.{h,cpp}`, `src/mython/runtime.cpp` and
`src/mython/statement.cpp` (namespaces `parse`, `runtime`, `ast` as in the
source), followed by theorems about the embedded functions.

Conventions of the embedding of the lexer

* `std::istream& input_` is the list of characters not yet read; `get` takes the
  head, `peek` looks at it, `putback` conses a character back on.  Each `Char`
  stands for one byte of the stream.
* A C++ exception is a failure value; nothing in the lexer catches one.
* `size_t` counters are natural numbers.  They are incremented at most once per
  character read, so the model does not bound them above; the decrement of a
  counter that holds `0` wraps to `2^64 - 1` as in the source (`size_dec`).
-/

namespace parse

/-! ## Tokens (`lexer.h`) -/

/-- The closed set of token variants `parse::Token` of `lexer.h`. -/
inductive Token where
  | Number (value : Int)
  | Id (value : String)
  | Char (value : Char)
  | String (value : String)
  | Class | Return | If | Else | Def | Newline | Print | Indent | Dedent
  | And | Or | Not | Eq | NotEq | LessOrEq | GreaterOrEq | None | True | False | Eof
  deriving DecidableEq, Repr

/-- What a token request can end in instead of a token. -/
inductive Failure where
  /-- `throw LexerError(what)`. -/
  | LexerError (what : String)
  /-- `std::out_of_range` thrown by `stoi` in `ParseNumber`. -/
  | out_of_range
  /-- `std::invalid_argument` thrown by `stoi` on an empty digit string. -/
  | invalid_argument
  /-- `ParseString` ran off the end of the stream: `get()` keeps returning
  `EOF`, the loop `while (true)` appends it for ever and never returns. -/
  | unterminated_string
  /-- The iteration bound of `ParseTokenLoop` was used up (never happens from
  `ParseToken`, see `ParseToken_ne_out_of_fuel`). -/
  | out_of_fuel
  deriving DecidableEq, Repr

/-- The private state of `class Lexer` (`lexer.h`, lines 142-150). -/
structure Lexer where
  current_token_ : Token
  input_ : List Char
  current_indent_ : Nat
  new_line_flag_ : Bool
  deriving DecidableEq, Repr

/-- Result of one of the `Parse...` member functions: the token returned and
the lexer state it leaves, or the exception thrown. -/
abbrev Result := Except Failure (Token × Lexer)

/-- `--n` on a `size_t`: wraps at zero. -/
def size_dec (n : Nat) : Nat := if n = 0 then 2 ^ 64 - 1 else n - 1

/-- `isalpha` in the "C" locale; a byte outside ASCII is in no character class. -/
def isalpha (c : Char) : Bool :=
  (65 ≤ c.toNat && c.toNat ≤ 90) || (97 ≤ c.toNat && c.toNat ≤ 122)

/-- `isdigit`. -/
def isdigit (c : Char) : Bool := 48 ≤ c.toNat && c.toNat ≤ 57

/-- `ispunct` in the "C" locale: printable, not a space, not alphanumeric. -/
def ispunct (c : Char) : Bool :=
  (33 ≤ c.toNat && c.toNat ≤ 47) || (58 ≤ c.toNat && c.toNat ≤ 64) ||
  (91 ≤ c.toNat && c.toNat ≤ 96) || (123 ≤ c.toNat && c.toNat ≤ 126)

/-- The set `key_words_` of `lexer.h`. -/
def key_words_ : List String :=
  ["class", "return", "if", "else", "def", "print", "and", "or", "not",
   "==", "!=", "<=", ">=", "None", "True", "False"]

/-- The set `chars_` of `lexer.h`. -/
def chars_ : List Char := ['=', '.', ',', '(', ')', '+', '-', '*', '/', '<', '>', ':']

/-- `Lexer::ParseDedent` (`lexer.cpp`, lines 342-345). -/
def ParseDedent (lx : Lexer) : Result :=
  .ok (Token.Dedent, { lx with current_indent_ := size_dec lx.current_indent_ })

/-- `Lexer::ParseNewLine` (lines 347-350). -/
def ParseNewLine (lx : Lexer) : Result :=
  .ok (Token.Newline, { lx with new_line_flag_ := true })

/-- `Lexer::ParseKeyWord` (lines 255-305). -/
def ParseKeyWord (lx : Lexer) (str : String) : Result :=
  if str = "class" then .ok (Token.Class, lx)
  else if str = "return" then .ok (Token.Return, lx)
  else if str = "if" then .ok (Token.If, lx)
  else if str = "else" then .ok (Token.Else, lx)
  else if str = "def" then .ok (Token.Def, lx)
  else if str = "print" then .ok (Token.Print, lx)
  else if str = "and" then .ok (Token.And, lx)
  else if str = "or" then .ok (Token.Or, lx)
  else if str = "not" then .ok (Token.Not, lx)
  else if str = "==" then .ok (Token.Eq, lx)
  else if str = "!=" then .ok (Token.NotEq, lx)
  else if str = "<=" then .ok (Token.LessOrEq, lx)
  else if str = ">=" then .ok (Token.GreaterOrEq, lx)
  else if str = "None" then .ok (Token.None, lx)
  else if str = "True" then .ok (Token.True, lx)
  else if str = "False" then .ok (Token.False, lx)
  else .error (Failure.LexerError "Invalid Key Word")

/-- The loop of `Lexer::ParseString` (lines 175-212): `str` is the text
collected so far, the list is the unread input. -/
def ParseStringLoop (open_quote : Char) : List Char → List Char → Option (List Char × List Char)
  | _, [] => none
  | str, c :: rest =>
    if c = '\\' then
      match rest with
      | [] => none
      | escaped_char :: rest2 =>
        if escaped_char = 'n' then ParseStringLoop open_quote (str ++ ['\n']) rest2
        else if escaped_char = 't' then ParseStringLoop open_quote (str ++ ['\t']) rest2
        else if escaped_char = 'r' then ParseStringLoop open_quote (str ++ ['\r']) rest2
        else if escaped_char = '"' then ParseStringLoop open_quote (str ++ ['"']) rest2
        else if escaped_char = '\'' then ParseStringLoop open_quote (str ++ ['\'']) rest2
        else if escaped_char = '\\' then ParseStringLoop open_quote (str ++ ['\\']) rest2
        else ParseStringLoop open_quote (str ++ [escaped_char]) rest2
    else if c = '"' ∨ c = '\'' then
      if c = open_quote then some (str, rest)
      else ParseStringLoop open_quote (str ++ [c]) rest
    else ParseStringLoop open_quote (str ++ [c]) rest

/-- `Lexer::ParseString` (lines 172-214). -/
def ParseString (lx : Lexer) : Result :=
  match lx.input_ with
  | [] => .error Failure.unterminated_string
  | open_quote :: rest =>
    match ParseStringLoop open_quote [] rest with
    | none => .error Failure.unterminated_string
    | some (str, rest2) => .ok (Token.String (String.mk str), { lx with input_ := rest2 })

/-- The loop of `Lexer::ParseNumber` (lines 218-220). -/
def ParseNumberLoop : List Char → List Char → List Char × List Char
  | parse_num, [] => (parse_num, [])
  | parse_num, c :: rest =>
    if isdigit c then ParseNumberLoop (parse_num ++ [c]) rest else (parse_num, c :: rest)

/-- The value of a string of decimal digits. -/
def digitsValue (ds : List Char) : Nat :=
  ds.foldl (fun acc d => 10 * acc + (d.toNat - 48)) 0

/-- `Lexer::ParseNumber` (lines 216-222); `stoi` yields an `int`. -/
def ParseNumber (lx : Lexer) : Result :=
  match ParseNumberLoop [] lx.input_ with
  | (parse_num, rest) =>
    if parse_num = [] then .error Failure.invalid_argument
    else if digitsValue parse_num > 2147483647 then .error Failure.out_of_range
    else .ok (Token.Number (digitsValue parse_num), { lx with input_ := rest })

/-- The loop of `Lexer::ParseId` (lines 226-228). -/
def ParseIdLoop : List Char → List Char → List Char × List Char
  | str, [] => (str, [])
  | str, c :: rest =>
    if isalpha c || isdigit c || c = '_' then ParseIdLoop (str ++ [c]) rest
    else (str, c :: rest)

/-- `Lexer::ParseId` (lines 224-235). -/
def ParseId (lx : Lexer) : Result :=
  match ParseIdLoop [] lx.input_ with
  | (str, rest) =>
    if String.mk str ∈ key_words_ then ParseKeyWord { lx with input_ := rest } (String.mk str)
    else .ok (Token.Id (String.mk str), { lx with input_ := rest })

/-- `Lexer::ParseChar` (lines 237-253). -/
def ParseChar (lx : Lexer) : Result :=
  match lx.input_ with
  | [] => .error (Failure.LexerError "Invalid char")
  | c :: rest =>
    if (c = '<' ∨ c = '>' ∨ c = '!' ∨ c = '=') ∧ rest.head? = some '=' then
      ParseKeyWord { lx with input_ := rest.tail } (String.mk [c, '='])
    else if c ∈ chars_ then .ok (Token.Char c, { lx with input_ := rest })
    else .error (Failure.LexerError "Invalid char")

/-- The loop of `Lexer::ParseIndent` (lines 310-339): `space_counter` spaces
have been read, the list is the unread input. -/
def ParseIndentLoop (lx : Lexer) : Nat → List Char → Result
  | _, [] => .ok (Token.None, { lx with input_ := [] })
  | space_counter, c :: rest =>
    if c = '\n' then .ok (Token.None, { lx with input_ := rest })
    else if c = ' ' then ParseIndentLoop lx (space_counter + 1) rest
    else
      if space_counter % 2 = 0 then
        if space_counter / 2 > lx.current_indent_ then
          .ok (Token.Indent,
            { lx with input_ := c :: rest, current_indent_ := lx.current_indent_ + 1 })
        else if space_counter / 2 < lx.current_indent_ then
          if space_counter / 2 < size_dec lx.current_indent_ then
            ParseDedent { lx with new_line_flag_ := true, input_ := ' ' :: ' ' :: c :: rest }
          else ParseDedent { lx with input_ := c :: rest }
        else .ok (Token.None, { lx with input_ := c :: rest })
      else .error (Failure.LexerError "Invalid number of spaces")

/-- `Lexer::ParseIndent` (lines 307-340). -/
def ParseIndent (lx : Lexer) : Result := ParseIndentLoop lx 0 lx.input_

/-- The loop of `Lexer::ParseComment` (lines 354-356): the input left after
the comment and the newline that ends it. -/
def ParseCommentLoop : List Char → List Char
  | [] => []
  | c :: rest => if c = '\n' then rest else ParseCommentLoop rest

/-- `Lexer::ParseComment` (lines 352-363). -/
def ParseComment (lx : Lexer) : Result :=
  if lx.new_line_flag_ then .ok (Token.None, { lx with input_ := ParseCommentLoop lx.input_ })
  else ParseNewLine { lx with input_ := ParseCommentLoop lx.input_ }

/-- The `while (input_.get(c))` loop of `Lexer::ParseToken` with the code that
follows it (lines 96-170).  The first argument bounds the number of
iterations. -/
def ParseTokenLoop : Nat → Lexer → Result
  | 0, _ => .error Failure.out_of_fuel
  | fuel + 1, lx =>
    match lx.input_ with
    | [] =>
      if lx.current_indent_ = 0 then
        if lx.new_line_flag_ then .ok (Token.Eof, lx) else ParseNewLine lx
      else ParseDedent lx
    | c :: rest =>
      if c = '\n' then
        if !lx.new_line_flag_ then ParseNewLine { lx with input_ := rest }
        else ParseTokenLoop fuel { lx with input_ := rest }
      else if c = ' ' then
        if lx.new_line_flag_ then
          match ParseIndent { lx with new_line_flag_ := false } with
          | .ok (token, lx2) =>
            if token = Token.None then ParseTokenLoop fuel lx2 else .ok (token, lx2)
          | .error e => .error e
        else ParseTokenLoop fuel { lx with input_ := rest }
      else if lx.new_line_flag_ && lx.current_indent_ != 0 then ParseDedent lx
      else if isalpha c || c = '_' then ParseId { lx with new_line_flag_ := false }
      else if isdigit c then ParseNumber { lx with new_line_flag_ := false }
      else if ispunct c then
        if c = '"' ∨ c = '\'' then ParseString { lx with new_line_flag_ := false }
        else if c = '#' then
          match ParseComment { lx with input_ := rest } with
          | .ok (token, lx2) =>
            if token = Token.None then ParseTokenLoop fuel lx2 else .ok (token, lx2)
          | .error e => .error e
        else ParseChar { lx with new_line_flag_ := false }
      else ParseTokenLoop fuel { lx with input_ := rest }

/-- `Lexer::ParseToken` (lines 96-170): every iteration of the loop reads at
least one character, so one more than the length of the input bounds it. -/
def ParseToken (lx : Lexer) : Result := ParseTokenLoop (lx.input_.length + 1) lx

/-- `Lexer::NextToken` (lines 90-94). -/
def NextToken (lx : Lexer) : Result :=
  match ParseToken lx with
  | .ok (token, lx2) => .ok (token, { lx2 with current_token_ := token })
  | .error e => .error e

/-- `Lexer::CurrentToken` (lines 85-88). -/
def CurrentToken (lx : Lexer) : Token := lx.current_token_

/-- The members as the constructor initialises them before its call of
`NextToken` (lines 78-81 and the default member initialisers of `lexer.h`). -/
def Lexer.init (input : List Char) : Lexer :=
  { current_token_ := Token.Number 0, input_ := input, current_indent_ := 0,
    new_line_flag_ := true }

/-- `Lexer::Lexer` (lines 78-83): the first token and the constructed lexer. -/
def Lexer.new (input : List Char) : Result := NextToken (Lexer.init input)

/-- The tokens of `n` further calls of `NextToken`, with the state they leave. -/
def NextTokens : Nat → Lexer → Except Failure (List Token × Lexer)
  | 0, lx => .ok ([], lx)
  | n + 1, lx =>
    match NextToken lx with
    | .error e => .error e
    | .ok (token, lx2) =>
      match NextTokens n lx2 with
      | .error e => .error e
      | .ok (tokens, lx3) => .ok (token :: tokens, lx3)

/-- The first `n` tokens a lexer constructed over `input` hands out: the one the
constructor primes, then those of `n - 1` calls of `NextToken`. -/
def Lexer.tokens (n : Nat) (input : List Char) : Except Failure (List Token × Lexer) :=
  NextTokens n (Lexer.init input)

/-- A token that is none of `Indent`, `Dedent`, `Eof`, returned without a change
of the depth counter. -/
def Plain (lx : Lexer) (t : Token) (lx2 : Lexer) : Prop :=
  t ≠ Token.Indent ∧ t ≠ Token.Dedent ∧ t ≠ Token.Eof ∧
    lx2.current_indent_ = lx.current_indent_

/-- How one token request relates the token to the depth counter. -/
def Step (lx : Lexer) (t : Token) (lx2 : Lexer) : Prop :=
  (t = Token.Indent ∧ lx2.current_indent_ = lx.current_indent_ + 1) ∨
  (t = Token.Dedent ∧ lx.current_indent_ ≠ 0 ∧ lx2.current_indent_ + 1 = lx.current_indent_) ∨
  (t = Token.Eof ∧ lx.current_indent_ = 0 ∧ lx2.current_indent_ = 0) ∨
  Plain lx t lx2

/-! ### Escaping a text for a string literal -/

/-- The spelling of one character inside a literal quoted by `q`: a newline, a
tab and a carriage return are written backslash-n, backslash-t and
backslash-r, a backslash and the quote `q` get a backslash in front, every
other character (the other kind of quote included) stands for itself. -/
def escapeChar (q c : Char) : List Char :=
  if c = '\n' then ['\\', 'n']
  else if c = '\t' then ['\\', 't']
  else if c = '\r' then ['\\', 'r']
  else if c = '\\' then ['\\', '\\']
  else if c = q then ['\\', q]
  else [c]

/-- The escaped spelling of a text inside a literal quoted by `q`. -/
def escape (q : Char) : List Char → List Char
  | [] => []
  | c :: s => escapeChar q c ++ escape q s

/-! ### Concrete inputs used below -/

/-- The text of scenario S3: hello, newline, tab, double quote, single quote,
backslash. -/
def S3_text : List Char := ['h', 'e', 'l', 'l', 'o', '\n', '\t', '"', '\'', '\\']

/-- The double-quoted literal of scenario S3, as it stands in the input. -/
def S3_input : List Char := "\"hello\\n\\t\\\"'\\\\\"".toList

/-- An input that ends in the middle of a line inside a block. -/
def midline_input : List Char := "if x:\n  print 1".toList

/-- The same input with the newline at its end. -/
def midline_input_nl : List Char := "if x:\n  print 1\n".toList

/-- The input of scenario S1. -/
def S1_input : List Char := "if x:\n  print 1\n  print 2\nprint 3\n".toList

/-- The token sequence scenario S1 expects. -/
def S1_tokens : List Token :=
  [Token.If, Token.Id "x", Token.Char ':', Token.Newline, Token.Indent, Token.Print,
   Token.Number 1, Token.Newline, Token.Print, Token.Number 2, Token.Newline, Token.Dedent,
   Token.Print, Token.Number 3, Token.Newline, Token.Eof]

/-- The lexer state once the input is used up at depth 0. -/
def S1_final : Lexer :=
  { current_token_ := Token.Eof, input_ := [], current_indent_ := 0, new_line_flag_ := true }

end parse

/-!
## Runtime object model (`runtime.cpp`) and AST nodes (`statement.cpp`)

* An `ObjectHolder` is the empty handle or a handle with its object.  `Number`,
  `String`, `Bool` and `Class` objects are never modified after construction, so
  the handle carries them by value; a `ClassInstance` has a mutable field table
  and an identity, so its handle carries the address of the instance in the
  store `Context.objects`.
* `Closure` (`std::unordered_map<std::string, ObjectHolder>`) is an association
  list; no code of the repository iterates over a closure.
* `Closure& closure` and `Context& context` are passed in and handed back.
  Besides the output stream, `Context` carries the store of the `ClassInstance`
  objects, which in the source is the C++ heap.
* `throw std::runtime_error(what)` is `Failure.runtime_error what`; the
  `throw` of an `ObjectHolder` by `Return` is the result `thrown`.
* `int` payloads are integers.  An arithmetic result outside the range of `int`
  is a signed overflow, undefined in the source; the model ends the evaluation
  there with `Failure.signed_overflow`.
-/

/-- The comparators of `runtime.cpp` a `Comparison` node can hold in `cmp_`. -/
inductive ast.Comparator where
  | Equal | NotEqual | Less | Greater | LessOrEqual | GreaterOrEqual
  deriving DecidableEq, Repr

mutual
/-- The AST nodes of `statement.cpp`, each with the data members of its class. -/
inductive ast.Statement where
  /-- Modelled from the spec: the integer literal (`statement.h` is not among
  the sources). -/
  | NumericConst (value : Int)
  /-- Modelled from the spec: the string literal. -/
  | StringConst (value : String)
  /-- Modelled from the spec: the literals `True` and `False`. -/
  | BoolConst (value : Bool)
  /-- Modelled from the spec: the literal `None`. -/
  | None
  | Assignment (var_ : String) (rv_ : ast.Statement)
  | VariableValue (ids_ : List String)
  | Print (args_ : List ast.Statement)
  | MethodCall (object_ : ast.Statement) (method_ : String) (args_ : List ast.Statement)
  | Stringify (arg_ : Option ast.Statement)
  | Add (lhs_ rhs_ : ast.Statement)
  | Sub (lhs_ rhs_ : ast.Statement)
  | Mult (lhs_ rhs_ : ast.Statement)
  | Div (lhs_ rhs_ : ast.Statement)
  | Compound (args_ : List ast.Statement)
  | Return (statement_ : ast.Statement)
  | ClassDefinition (cls_ : runtime.ObjectHolder)
  /-- The member `object_` is a `VariableValue` held by value: its `ids_`. -/
  | FieldAssignment (object_ : List String) (field_name_ : String) (rv_ : ast.Statement)
  | IfElse (condition_ if_body_ : ast.Statement) (else_body_ : Option ast.Statement)
  | Or (lhs_ rhs_ : ast.Statement)
  | And (lhs_ rhs_ : ast.Statement)
  | Not (arg_ : ast.Statement)
  | Comparison (cmp_ : ast.Comparator) (lhs_ rhs_ : ast.Statement)
  /-- The member `cls_inst_` is a `ClassInstance` object held by the node itself:
  the address of that object in the store. -/
  | NewInstance (cls_inst_ : Nat) (args_ : List ast.Statement)
  | MethodBody (body_ : ast.Statement)
/-- `runtime::ObjectHolder`. -/
inductive runtime.ObjectHolder where
  /-- The empty handle, `ObjectHolder::None()`. -/
  | None
  | Number (value : Int)
  | String (value : String)
  | Bool (value : Bool)
  | Class (cls : runtime.Class)
  /-- A handle of the `ClassInstance` stored at `addr`. -/
  | ClassInstance (addr : Nat)
/-- `runtime::Class`: `name_`, `methods_`, `parent_`. -/
inductive runtime.Class where
  | mk (name_ : String) (methods_ : List runtime.Method) (parent_ : Option runtime.Class)
/-- `runtime::Method`: `name`, `formal_params`, `body`. -/
inductive runtime.Method where
  | mk (name : String) (formal_params : List String) (body : ast.Statement)
end

namespace runtime

/-- The member `name` of a `Method`. -/
def Method.name : Method → String
  | .mk name _ _ => name

/-- The member `formal_params` of a `Method`. -/
def Method.formal_params : Method → List String
  | .mk _ formal_params _ => formal_params

/-- The member `body` of a `Method`. -/
def Method.body : Method → ast.Statement
  | .mk _ _ body => body

/-- The member `methods_` of a `Class`. -/
def Class.methods_ : Class → List Method
  | .mk _ methods_ _ => methods_

/-- The member `parent_` of a `Class` (`none` for `nullptr`). -/
def Class.parent_ : Class → Option Class
  | .mk _ _ parent_ => parent_

/-- `Class::GetName` (`runtime.cpp`, lines 125-127). -/
def Class.GetName : Class → String
  | .mk name_ _ _ => name_

/-- The loop of `Class::GetMethod` (lines 114-118) over `methods_`. -/
def findMethod (name : String) : List Method → Option Method
  | [] => none
  | i :: rest => if i.name = name then some i else findMethod name rest

/-- `Class::GetMethod` (lines 113-123); `none` is `nullptr`. -/
def Class.GetMethod : Class → String → Option Method
  | .mk _ methods_ none, name => findMethod name methods_
  | .mk _ methods_ (some parent), name =>
    match findMethod name methods_ with
    | some i => some i
    | none => parent.GetMethod name

/-- `runtime::Closure`. -/
abbrev Closure := List (String × ObjectHolder)

/-- `closure.find(key)`: the handle bound to `key`, if any. -/
def Closure.find : Closure → String → Option ObjectHolder
  | [], _ => none
  | (k, v) :: rest, key => if k = key then some v else Closure.find rest key

/-- `closure[key] = value`: rebinds `key` if it is bound, binds it otherwise. -/
def Closure.assign : Closure → String → ObjectHolder → Closure
  | [], key, value => [(key, value)]
  | (k, v) :: rest, key, value =>
    if k = key then (k, value) :: rest else (k, v) :: Closure.assign rest key value

/-- `runtime::ClassInstance`: `cls_` and `fields_`. -/
structure ClassInstance where
  cls_ : Class
  fields_ : Closure

/-- `runtime::Context` (its output stream), together with the store of the
`ClassInstance` objects: the object at address `a` is `objects[a]`. -/
structure Context where
  output : String
  objects : List ClassInstance

/-- `obj.TryAs<ClassInstance>()`: the instance a handle refers to. -/
def Context.instanceAt (context : Context) (addr : Nat) : Option ClassInstance :=
  context.objects[addr]?

/-- Writing `fields` back as the field table of the instance at `addr`. -/
def Context.setFields (context : Context) (addr : Nat) (fields : Closure) : Context :=
  match context.objects[addr]? with
  | some inst => { context with objects := context.objects.set addr { inst with fields_ := fields } }
  | none => context

/-- `os << text` on the stream of the context. -/
def Context.write (context : Context) (text : String) : Context :=
  { context with output := context.output ++ text }

/-- What an evaluation can end in instead of a value. -/
inductive Failure where
  /-- `throw std::runtime_error(what)`. -/
  | runtime_error (what : String)
  /-- A null pointer is dereferenced: `TryAs<T>()->...` on a handle that holds no
  `T`, `->` on an empty handle (`AssertIsValid`), or a handle of an instance that
  is not in the store. -/
  | null_dereference
  /-- The result of an `int` operation is outside the range of `int`: undefined
  behaviour in the source. -/
  | signed_overflow
  /-- The bound on the nesting of evaluations was used up. -/
  | out_of_fuel
  deriving DecidableEq, Repr

/-- `INT_MIN` and `INT_MAX` of a 32-bit `int`. -/
def INT_MIN : Int := -2147483648

def INT_MAX : Int := 2147483647

/-- Whether `value` is a value of the type `int`. -/
def fits_int (value : Int) : Bool :=
  decide (INT_MIN ≤ value) && decide (value ≤ INT_MAX)

/-- Result of `Statement::Execute`: the handle returned, or the `ObjectHolder`
thrown by a `Return`, or a failure; each with `closure` and `context` as the
evaluation left them. -/
inductive ExecResult where
  | ok (value : ObjectHolder) (closure : Closure) (context : Context)
  | thrown (value : ObjectHolder) (closure : Closure) (context : Context)
  | fail (error : Failure) (closure : Closure) (context : Context)

/-- Result of a function of `runtime.cpp` that gets `context` but no closure. -/
inductive Outcome (α : Type) where
  | ok (value : α) (context : Context)
  | thrown (value : ObjectHolder) (context : Context)
  | fail (error : Failure) (context : Context)

/-- Sequencing: go on with `k` after a normal return, let an exception pass. -/
def ExecResult.andThen (r : ExecResult) (k : ObjectHolder → Closure → Context → ExecResult) :
    ExecResult :=
  match r with
  | .ok value closure context => k value closure context
  | .thrown value closure context => .thrown value closure context
  | .fail error closure context => .fail error closure context

/-- An outcome of a callee, seen from a caller whose closure is `closure`. -/
def Outcome.within {α : Type} (r : Outcome α) (closure : Closure)
    (k : α → Context → ExecResult) : ExecResult :=
  match r with
  | .ok value context => k value context
  | .thrown value context => .thrown value closure context
  | .fail error context => .fail error closure context

/-- The type of `Statement::Execute`, as the functions of `runtime.cpp` see it
through `Executable`. -/
abbrev Exec := ast.Statement → Closure → Context → ExecResult

/-- `runtime::IsTrue` (lines 46-58). -/
def IsTrue : ObjectHolder → Bool
  | .Number value => value != 0
  | .Bool value => value
  | .String value => value != ""
  | _ => false

/-- `ClassInstance::HasMethod` (lines 70-76). -/
def ClassInstance.HasMethod (self : ClassInstance) (method : String) (argument_count : Nat) :
    Bool :=
  match self.cls_.GetMethod method with
  | some temp_method => temp_method.formal_params.length == argument_count
  | none => false

/-- The loop of `ClassInstance::Call` (lines 99-103) that binds the formal
parameters to the arguments; `formal_params` is what is left of the parameter
list from `args_counter` on.  After the check of `HasMethod` both lists have the
same length. -/
def bindArgs : Closure → List String → List ObjectHolder → Closure
  | closure, param :: formal_params, i :: actual_args =>
    bindArgs (closure.assign param i) formal_params actual_args
  | closure, _, _ => closure

/-- `ClassInstance::Call` (lines 90-105) on the instance at `self`. -/
def ClassInstance.Call (exec : Exec) (self : Nat) (method : String)
    (actual_args : List ObjectHolder) (context : Context) : Outcome ObjectHolder :=
  match context.instanceAt self with
  | none => .fail Failure.null_dereference context
  | some inst =>
    if !inst.HasMethod method actual_args.length then
      .fail (Failure.runtime_error "Cannot call method") context
    else
      match inst.cls_.GetMethod method with
      | none => .fail Failure.null_dereference context
      | some temp_method =>
        match exec temp_method.body
            (bindArgs (Closure.assign [] "self" (ObjectHolder.ClassInstance self))
              temp_method.formal_params actual_args) context with
        | .ok value _ context2 => .ok value context2
        | .thrown value _ context2 => .thrown value context2
        | .fail error _ context2 => .fail error context2

/-- The text `os << this` writes for the instance at `addr`. -/
def pointerText (addr : Nat) : String := "0x" ++ String.mk (Nat.toDigits 16 addr)

/-- The virtual `Object::Print(os, context)` (`Bool::Print` lines 133-135,
`Class::Print` lines 129-131, `ClassInstance::Print` lines 60-68; modelled from
the spec for `Number` and `String`, whose `Print` is in `runtime.h`: the decimal
form and the raw text).  Every override writes to `os` once, after a call of
`__str__` if there is one, so the function returns the text written and the
caller appends it to the stream.  The first argument bounds the chain of
`__str__` results that are instances again. -/
def Print (exec : Exec) : Nat → ObjectHolder → Context → Outcome String
  | _, .None, context => .fail Failure.null_dereference context
  | _, .Number value, context => .ok (toString value) context
  | _, .String value, context => .ok value context
  | _, .Bool value, context => .ok (if value then "True" else "False") context
  | _, .Class cls, context => .ok ("Class " ++ cls.GetName) context
  | 0, .ClassInstance _, context => .fail Failure.out_of_fuel context
  | fuel + 1, .ClassInstance addr, context =>
    match context.instanceAt addr with
    | none => .fail Failure.null_dereference context
    | some inst =>
      if inst.HasMethod "__str__" 0 then
        match ClassInstance.Call exec addr "__str__" [] context with
        | .ok res context2 => Print exec fuel res context2
        | .thrown value context2 => .thrown value context2
        | .fail error context2 => .fail error context2
      else .ok (pointerText addr) context

/-- `runtime::Equal` (lines 137-156). -/
def Equal (exec : Exec) (lhs rhs : ObjectHolder) (context : Context) : Outcome Bool :=
  match lhs, rhs with
  | .None, .None => .ok true context
  | .Number l, .Number r => .ok (l == r) context
  | .String l, .String r => .ok (l == r) context
  | .Bool l, .Bool r => .ok (l == r) context
  | .ClassInstance addr, _ =>
    match context.instanceAt addr with
    | none => .fail Failure.null_dereference context
    | some inst =>
      if inst.HasMethod "__eq__" 1 then
        match ClassInstance.Call exec addr "__eq__" [rhs] context with
        | .ok (.Bool value) context2 => .ok value context2
        | .ok _ context2 => .fail Failure.null_dereference context2
        | .thrown value context2 => .thrown value context2
        | .fail error context2 => .fail error context2
      else .fail (Failure.runtime_error "Cannot compare objects for equality") context
  | _, _ => .fail (Failure.runtime_error "Cannot compare objects for equality") context

/-- `runtime::Less` (lines 158-174); `false < true` on `bool`. -/
def Less (exec : Exec) (lhs rhs : ObjectHolder) (context : Context) : Outcome Bool :=
  match lhs, rhs with
  | .Number l, .Number r => .ok (decide (l < r)) context
  | .String l, .String r => .ok (decide (l < r)) context
  | .Bool l, .Bool r => .ok (!l && r) context
  | .ClassInstance addr, _ =>
    match context.instanceAt addr with
    | none => .fail Failure.null_dereference context
    | some inst =>
      if inst.HasMethod "__lt__" 1 then
        match ClassInstance.Call exec addr "__lt__" [rhs] context with
        | .ok (.Bool value) context2 => .ok value context2
        | .ok _ context2 => .fail Failure.null_dereference context2
        | .thrown value context2 => .thrown value context2
        | .fail error context2 => .fail error context2
      else .fail (Failure.runtime_error "Cannot compare objects for less") context
  | _, _ => .fail (Failure.runtime_error "Cannot compare objects for less") context

/-- `runtime::NotEqual` (lines 176-178). -/
def NotEqual (exec : Exec) (lhs rhs : ObjectHolder) (context : Context) : Outcome Bool :=
  match Equal exec lhs rhs context with
  | .ok value context2 => .ok (!value) context2
  | .thrown value context2 => .thrown value context2
  | .fail error context2 => .fail error context2

/-- `runtime::Greater` (lines 180-182); `&&` does not evaluate its right operand
when the left one is false. -/
def Greater (exec : Exec) (lhs rhs : ObjectHolder) (context : Context) : Outcome Bool :=
  match Less exec lhs rhs context with
  | .ok value context2 => if !value then NotEqual exec lhs rhs context2 else .ok false context2
  | .thrown value context2 => .thrown value context2
  | .fail error context2 => .fail error context2

/-- `runtime::LessOrEqual` (lines 184-186). -/
def LessOrEqual (exec : Exec) (lhs rhs : ObjectHolder) (context : Context) : Outcome Bool :=
  match Greater exec lhs rhs context with
  | .ok value context2 => .ok (!value) context2
  | .thrown value context2 => .thrown value context2
  | .fail error context2 => .fail error context2

/-- `runtime::GreaterOrEqual` (lines 188-190). -/
def GreaterOrEqual (exec : Exec) (lhs rhs : ObjectHolder) (context : Context) : Outcome Bool :=
  match Less exec lhs rhs context with
  | .ok value context2 => .ok (!value) context2
  | .thrown value context2 => .thrown value context2
  | .fail error context2 => .fail error context2

end runtime

namespace ast

open runtime

/-- The loop of `VariableValue::Execute` (`statement.cpp`, lines 41-51) over the
segments still to visit: `curr_closure` and `last_id` as it leaves them, or
`none` when a handle of an instance that is not in the store is followed. -/
def VariableValue.walk (context : Context) : List String → Closure → String →
    Option (Closure × String)
  | [], curr_closure, last_id => some (curr_closure, last_id)
  | id :: rest, curr_closure, last_id =>
    match curr_closure.find id with
    | some (ObjectHolder.ClassInstance addr) =>
      if rest ≠ [] then
        match context.instanceAt addr with
        | some inst => VariableValue.walk context rest inst.fields_ id
        | none => none
      else VariableValue.walk context rest curr_closure id
    | some _ => VariableValue.walk context rest curr_closure id
    | none => VariableValue.walk context rest curr_closure last_id

/-- `VariableValue::Execute` (lines 38-56). -/
def VariableValue.Execute (ids_ : List String) (closure : Closure) (context : Context) :
    ExecResult :=
  match VariableValue.walk context ids_ closure "" with
  | none => .fail Failure.null_dereference closure context
  | some (curr_closure, last_id) =>
    match curr_closure.find last_id with
    | some value => .ok value closure context
    | none => .fail (Failure.runtime_error "Wrong variable!") closure context

/-- The loops `for (const auto& arg : args_) fields.push_back(arg->Execute(...))`
of `MethodCall::Execute` and `NewInstance::Execute`: the handles collected, in
`thrown` and `fail` the exception of the argument that raised it. -/
def ExecuteArgs (exec : Exec) : List Statement → List ObjectHolder → Closure → Context →
    (List ObjectHolder → Closure → Context → ExecResult) → ExecResult
  | [], fields, closure, context, k => k fields closure context
  | arg :: rest, fields, closure, context, k =>
    (exec arg closure context).andThen fun value closure2 context2 =>
      ExecuteArgs exec rest (fields ++ [value]) closure2 context2 k

/-- The loop of `Print::Execute` (lines 74-86); `depth` bounds `Object::Print`. -/
def Print.loop (exec : Exec) (depth : Nat) : List Statement → Bool → Closure → Context →
    ExecResult
  | [], _, closure, context => .ok ObjectHolder.None closure (context.write "\n")
  | ptr :: rest, first_iter, closure, context =>
    (exec ptr closure context).andThen fun obj closure2 context2 =>
      let context3 := if !first_iter then context2.write " " else context2
      match obj with
      | ObjectHolder.None => Print.loop exec depth rest false closure2 (context3.write "None")
      | _ =>
        (runtime.Print exec depth obj context3).within closure2 fun text context4 =>
          Print.loop exec depth rest false closure2 (context4.write text)

/-- The loop of `Compound::Execute` (lines 177-179). -/
def Compound.loop (exec : Exec) : List Statement → Closure → Context → ExecResult
  | [], closure, context => .ok ObjectHolder.None closure context
  | arg :: rest, closure, context =>
    (exec arg closure context).andThen fun _ closure2 context2 =>
      Compound.loop exec rest closure2 context2

/-- The comparator a `Comparison` node holds. -/
def Comparator.apply (exec : Exec) : Comparator → ObjectHolder → ObjectHolder → Context →
    Outcome Bool
  | .Equal => runtime.Equal exec
  | .NotEqual => runtime.NotEqual exec
  | .Less => runtime.Less exec
  | .Greater => runtime.Greater exec
  | .LessOrEqual => runtime.LessOrEqual exec
  | .GreaterOrEqual => runtime.GreaterOrEqual exec

/-- `ObjectHolder::Own<runtime::Number>(value)` for the result `value` of an
operation on two `int`s. -/
def OwnNumber (value : Int) (closure : Closure) (context : Context) : ExecResult :=
  if fits_int value then .ok (ObjectHolder.Number value) closure context
  else .fail Failure.signed_overflow closure context

/-- One level of `Statement::Execute` (`statement.cpp`): the body of the
`Execute` of each node class, with `exec` for the `Execute` of the nodes it
holds and `depth` for the bound handed to `Object::Print`. -/
def ExecuteNode (exec : Exec) (depth : Nat) (stmt : Statement) (closure : Closure)
    (context : Context) : ExecResult :=
  match stmt with
  | .NumericConst value => .ok (ObjectHolder.Number value) closure context
  | .StringConst value => .ok (ObjectHolder.String value) closure context
  | .BoolConst value => .ok (ObjectHolder.Bool value) closure context
  | .None => .ok ObjectHolder.None closure context
  -- Assignment::Execute, lines 19-23
  | .Assignment var_ rv_ =>
    (exec rv_ closure context).andThen fun obj closure2 context2 =>
      .ok obj (closure2.assign var_ obj) context2
  -- VariableValue::Execute, lines 38-56
  | .VariableValue ids_ => VariableValue.Execute ids_ closure context
  -- Print::Execute, lines 71-89
  | .Print args_ => Print.loop exec depth args_ true closure context
  -- MethodCall::Execute, lines 98-108
  | .MethodCall object_ method_ args_ =>
    (exec object_ closure context).andThen fun obj closure2 context2 =>
      match obj with
      | ObjectHolder.ClassInstance addr =>
        match context2.instanceAt addr with
        | none => .fail Failure.null_dereference closure2 context2
        | some inst =>
          if inst.HasMethod method_ args_.length then
            ExecuteArgs exec args_ [] closure2 context2 fun fields closure3 context3 =>
              (ClassInstance.Call exec addr method_ fields context3).within closure3
                fun value context4 => .ok value closure3 context4
          else .ok ObjectHolder.None closure2 context2
      | _ => .fail Failure.null_dereference closure2 context2
  -- Stringify::Execute, lines 110-120
  | .Stringify arg_ =>
    match arg_ with
    | some arg =>
      (exec arg closure context).andThen fun obj closure2 context2 =>
        match obj with
        | ObjectHolder.None => .ok (ObjectHolder.String "None") closure2 context2
        | _ =>
          (runtime.Print exec depth obj context2).within closure2 fun text context3 =>
            .ok (ObjectHolder.String text) closure2 context3
    | none => .ok (ObjectHolder.String "None") closure context
  -- Add::Execute, lines 122-139
  | .Add lhs_ rhs_ =>
    (exec lhs_ closure context).andThen fun lhs closure2 context2 =>
      (exec rhs_ closure2 context2).andThen fun rhs closure3 context3 =>
        match lhs, rhs with
        | ObjectHolder.Number l, ObjectHolder.Number r =>
          OwnNumber (l + r) closure3 context3
        | ObjectHolder.String l, ObjectHolder.String r =>
          .ok (ObjectHolder.String (l ++ r)) closure3 context3
        | ObjectHolder.ClassInstance addr, _ =>
          match context3.instanceAt addr with
          | none => .fail Failure.null_dereference closure3 context3
          | some inst =>
            if inst.HasMethod "__add__" 1 then
              (ClassInstance.Call exec addr "__add__" [rhs] context3).within closure3
                fun value context4 => .ok value closure3 context4
            else .fail (Failure.runtime_error "Addition error") closure3 context3
        | _, _ => .fail (Failure.runtime_error "Addition error") closure3 context3
  -- Sub::Execute, lines 141-149
  | .Sub lhs_ rhs_ =>
    (exec lhs_ closure context).andThen fun lhs closure2 context2 =>
      (exec rhs_ closure2 context2).andThen fun rhs closure3 context3 =>
        match lhs, rhs with
        | ObjectHolder.Number l, ObjectHolder.Number r =>
          OwnNumber (l - r) closure3 context3
        | _, _ => .fail (Failure.runtime_error "Substraction error") closure3 context3
  -- Mult::Execute, lines 151-159
  | .Mult lhs_ rhs_ =>
    (exec lhs_ closure context).andThen fun lhs closure2 context2 =>
      (exec rhs_ closure2 context2).andThen fun rhs closure3 context3 =>
        match lhs, rhs with
        | ObjectHolder.Number l, ObjectHolder.Number r =>
          OwnNumber (l * r) closure3 context3
        | _, _ => .fail (Failure.runtime_error "Multiplication error") closure3 context3
  -- Div::Execute, lines 161-174
  | .Div lhs_ rhs_ =>
    (exec lhs_ closure context).andThen fun lhs closure2 context2 =>
      (exec rhs_ closure2 context2).andThen fun rhs closure3 context3 =>
        match lhs, rhs with
        | ObjectHolder.Number l, ObjectHolder.Number r =>
          if r ≠ 0 then OwnNumber (Int.tdiv l r) closure3 context3
          else .fail (Failure.runtime_error "Error. Division by zero") closure3 context3
        | _, _ => .fail (Failure.runtime_error "Division error") closure3 context3
  -- Compound::Execute, lines 176-181
  | .Compound args_ => Compound.loop exec args_ closure context
  -- Return::Execute, lines 183-185
  | .Return statement_ =>
    (exec statement_ closure context).andThen fun value closure2 context2 =>
      .thrown value closure2 context2
  -- ClassDefinition::Execute, lines 191-194
  | .ClassDefinition cls_ =>
    match cls_ with
    | ObjectHolder.Class cls => .ok ObjectHolder.None (closure.assign cls.GetName cls_) context
    | _ => .fail Failure.null_dereference closure context
  -- FieldAssignment::Execute, lines 203-208
  | .FieldAssignment object_ field_name_ rv_ =>
    (VariableValue.Execute object_ closure context).andThen fun obj closure2 context2 =>
      (exec rv_ closure2 context2).andThen fun statement closure3 context3 =>
        match obj with
        | ObjectHolder.ClassInstance addr =>
          match context3.instanceAt addr with
          | none => .fail Failure.null_dereference closure3 context3
          | some inst =>
            .ok statement closure3
              (context3.setFields addr (inst.fields_.assign field_name_ statement))
        | _ => .fail Failure.null_dereference closure3 context3
  -- IfElse::Execute, lines 217-237
  | .IfElse condition_ if_body_ else_body_ =>
    (exec condition_ closure context).andThen fun cond closure2 context2 =>
      if IsTrue cond then
        (exec if_body_ closure2 context2).andThen fun _ closure3 context3 =>
          .ok ObjectHolder.None closure3 context3
      else
        match else_body_ with
        | some else_body =>
          (exec else_body closure2 context2).andThen fun _ closure3 context3 =>
            .ok ObjectHolder.None closure3 context3
        | none => .ok ObjectHolder.None closure2 context2
  -- Or::Execute, lines 239-251
  | .Or lhs_ rhs_ =>
    (exec lhs_ closure context).andThen fun lhs closure2 context2 =>
      if IsTrue lhs then .ok (ObjectHolder.Bool true) closure2 context2
      else
        (exec rhs_ closure2 context2).andThen fun rhs closure3 context3 =>
          if IsTrue rhs then .ok (ObjectHolder.Bool true) closure3 context3
          else .ok (ObjectHolder.Bool false) closure3 context3
  -- And::Execute, lines 253-262
  | .And lhs_ rhs_ =>
    (exec lhs_ closure context).andThen fun lhs closure2 context2 =>
      if IsTrue lhs then
        (exec rhs_ closure2 context2).andThen fun rhs closure3 context3 =>
          if IsTrue rhs then .ok (ObjectHolder.Bool true) closure3 context3
          else .ok (ObjectHolder.Bool false) closure3 context3
      else .ok (ObjectHolder.Bool false) closure2 context2
  -- Not::Execute, lines 264-267
  | .Not arg_ =>
    (exec arg_ closure context).andThen fun obj closure2 context2 =>
      .ok (ObjectHolder.Bool (!IsTrue obj)) closure2 context2
  -- Comparison::Execute, lines 274-279
  | .Comparison cmp_ lhs_ rhs_ =>
    (exec lhs_ closure context).andThen fun lhs closure2 context2 =>
      (exec rhs_ closure2 context2).andThen fun rhs closure3 context3 =>
        (cmp_.apply exec lhs rhs context3).within closure3 fun result context4 =>
          .ok (ObjectHolder.Bool result) closure3 context4
  -- NewInstance::Execute, lines 290-299
  | .NewInstance cls_inst_ args_ =>
    match context.instanceAt cls_inst_ with
    | none => .fail Failure.null_dereference closure context
    | some inst =>
      if inst.HasMethod "__init__" args_.length then
        ExecuteArgs exec args_ [] closure context fun fields closure2 context2 =>
          (ClassInstance.Call exec cls_inst_ "__init__" fields context2).within closure2
            fun _ context3 => .ok (ObjectHolder.ClassInstance cls_inst_) closure2 context3
      else .ok (ObjectHolder.ClassInstance cls_inst_) closure context
  -- MethodBody::Execute, lines 305-313
  | .MethodBody body_ =>
    match exec body_ closure context with
    | .ok _ closure2 context2 => .ok ObjectHolder.None closure2 context2
    | .thrown obj closure2 context2 => .ok obj closure2 context2
    | .fail error closure2 context2 => .fail error closure2 context2

/-- `Statement::Execute`, with a bound on the nesting of evaluations: a node is
executed with `fuel + 1` when the nodes and method bodies it runs are executed
with `fuel`. -/
def Execute : Nat → Statement → Closure → Context → ExecResult
  | 0, _, closure, context => .fail Failure.out_of_fuel closure context
  | fuel + 1, stmt, closure, context => ExecuteNode (Execute fuel) fuel stmt closure context

/-- The constructor `NewInstance::NewInstance(class_, args)` (lines 281-284):
the node's own `ClassInstance` of `class_` is created in the store, with an
empty field table. -/
def NewInstance.new (class_ : runtime.Class) (args : List Statement) (context : Context) :
    Statement × Context :=
  (Statement.NewInstance context.objects.length args,
   { context with objects := context.objects ++ [{ cls_ := class_, fields_ := [] }] })

end ast

namespace runtime

/-! ### The class chain, in the words of the specification -/

/-- The class chain of a class: the class itself, then its parent, then the
parent of the parent, and so on. -/
def Class.chain : Class → List Class
  | .mk name_ methods_ none => [.mk name_ methods_ none]
  | .mk name_ methods_ (some parent) => .mk name_ methods_ (some parent) :: parent.chain

/-- A class defines `name` when its own method list has a method of that name. -/
def Class.defines (cls : Class) (name : String) : Prop :=
  ∃ i ∈ cls.methods_, i.name = name

/-- The first method named `name` in a method list. -/
def firstNamed (name : String) (methods : List Method) : Option Method :=
  methods.find? fun i => decide (i.name = name)

/-- Method resolution as the specification words it: the first method named
`name` in the method list of the nearest class of the chain that defines
`name`; none when no class of the chain defines it. -/
def resolve (name : String) : List Class → Option Method
  | [] => none
  | cls :: ancestors =>
    match firstNamed name cls.methods_ with
    | some i => some i
    | none => resolve name ancestors

/-! ### Concrete classes used below -/

/-- A class `B` with a method `m` of one parameter. -/
def shadow_B : Class := .mk "B" [.mk "m" ["a"] ast.Statement.None] none

/-- A class `C` extending `B` that redefines `m` with no parameter. -/
def shadow_C : Class := .mk "C" [.mk "m" [] ast.Statement.None] (some shadow_B)

/-- An instance of `C`. -/
def shadow_inst : ClassInstance := { cls_ := shadow_C, fields_ := [] }

/-- A context whose store holds the instance of `C` at address 0. -/
def shadow_context : Context := { output := "", objects := [shadow_inst] }

end runtime

namespace ast

open runtime

/-! ### Taking a `Return`, in the words of the specification -/

/-- `TakesReturn fuel body closure context value closure2 context2`: executed
from `closure` and `context`, `body` takes a `Return(e)` - `body` is that
`Return`, or the `Return` is nested in it inside `Compound` and `IfElse` nodes -
whose `e` evaluates to `value`, and `closure2`, `context2` are the scope and the
context (output stream, instances) as they are when the `Return` unwinds, that
is as the evaluation of `e` leaves them.
In a `Compound` the statements before the one that takes the `Return` return
normally; in an `IfElse` the condition selects the branch that takes it. -/
inductive TakesReturn : Nat → Statement → Closure → Context → ObjectHolder → Closure →
    Context → Prop where
  | direct {fuel : Nat} {e : Statement} {closure : Closure} {context : Context}
      {value : ObjectHolder} {closure2 : Closure} {context2 : Context} :
      Execute fuel e closure context = .ok value closure2 context2 →
      TakesReturn (fuel + 1) (.Return e) closure context value closure2 context2
  | compound_here {fuel : Nat} {s : Statement} {following : List Statement}
      {closure : Closure} {context : Context}
      {value : ObjectHolder} {closure2 : Closure} {context2 : Context} :
      TakesReturn fuel s closure context value closure2 context2 →
      TakesReturn (fuel + 1) (.Compound (s :: following)) closure context value closure2
        context2
  | compound_later {fuel : Nat} {s : Statement} {rest : List Statement}
      {closure : Closure} {context : Context} {w : ObjectHolder} {closure1 : Closure}
      {context1 : Context} {value : ObjectHolder} {closure2 : Closure} {context2 : Context} :
      Execute fuel s closure context = .ok w closure1 context1 →
      TakesReturn (fuel + 1) (.Compound rest) closure1 context1 value closure2 context2 →
      TakesReturn (fuel + 1) (.Compound (s :: rest)) closure context value closure2 context2
  | if_body {fuel : Nat} {condition if_body : Statement} {else_body : Option Statement}
      {closure : Closure} {context : Context} {cond : ObjectHolder} {closure1 : Closure}
      {context1 : Context} {value : ObjectHolder} {closure2 : Closure} {context2 : Context} :
      Execute fuel condition closure context = .ok cond closure1 context1 →
      IsTrue cond = true →
      TakesReturn fuel if_body closure1 context1 value closure2 context2 →
      TakesReturn (fuel + 1) (.IfElse condition if_body else_body) closure context value
        closure2 context2
  | else_body {fuel : Nat} {condition if_body else_body : Statement}
      {closure : Closure} {context : Context} {cond : ObjectHolder} {closure1 : Closure}
      {context1 : Context} {value : ObjectHolder} {closure2 : Closure} {context2 : Context} :
      Execute fuel condition closure context = .ok cond closure1 context1 →
      IsTrue cond = false →
      TakesReturn fuel else_body closure1 context1 value closure2 context2 →
      TakesReturn (fuel + 1) (.IfElse condition if_body (some else_body)) closure context
        value closure2 context2

/-! ### Concrete programs used below -/

/-- The empty context: nothing written, no instance. -/
def empty_context : Context := { output := "", objects := [] }

/-- A method body: `print 1`, then `if True:` with `return 5` followed by
`print 2`, then `print 3`. -/
def return_body : Statement :=
  .Compound [
    .Print [.NumericConst 1],
    .IfElse (.BoolConst true)
      (.Compound [.Return (.NumericConst 5), .Print [.NumericConst 2]]) none,
    .Print [.NumericConst 3]]

/-- A right operand with a visible side effect: it prints `side effect`. -/
def noisy_operand : Statement :=
  .Compound [.Print [.StringConst "side effect"]]

/-- The class `P`, without methods. -/
def fresh_P : runtime.Class := .mk "P" [] none

/-- The node of the expression `P()`, constructed first: its instance is at
address 0. -/
def fresh_new_P : Statement × Context := NewInstance.new fresh_P [] empty_context

/-- The class `F` with the method `make`, whose body is `return P()`. -/
def fresh_F : runtime.Class :=
  .mk "F" [.mk "make" [] (.MethodBody (.Return fresh_new_P.1))] none

/-- The node of the expression `F()`: its instance is at address 1. -/
def fresh_new_F : Statement × Context := NewInstance.new fresh_F [] fresh_new_P.2

/-- The program
`f = F()`, `a = f.make()`, `a.x = 1`, `b = f.make()`, `print b.x`. -/
def fresh_program : Statement :=
  .Compound [
    .Assignment "f" fresh_new_F.1,
    .Assignment "a" (.MethodCall (.VariableValue ["f"]) "make" []),
    .FieldAssignment ["a"] "x" (.NumericConst 1),
    .Assignment "b" (.MethodCall (.VariableValue ["f"]) "make" []),
    .Print [.VariableValue ["b", "x"]]]

/-- A scope in which `b` is bound and `a` is not. -/
def unbound_scope : Closure := [("b", ObjectHolder.Number 1)]

/-- A scope that binds `x` to the instance at address 0. -/
def field_scope : Closure := [("x", ObjectHolder.ClassInstance 0)]

/-- A context whose instance at address 0 has a field `x` and no field `y`. -/
def field_context : Context :=
  { output := "", objects := [{ cls_ := fresh_P, fields_ := [("x", ObjectHolder.Number 7)] }] }

end ast

namespace runtime

/-! ### Results cut short by the bound on the nesting of evaluations -/

/-- The result of an evaluation that was cut short by its bound. -/
def ExecResult.cut : ExecResult → Prop
  | .fail Failure.out_of_fuel _ _ => True
  | _ => False

/-- The outcome of a call that was cut short by its bound. -/
def Outcome.cut {α : Type} : Outcome α → Prop
  | .fail Failure.out_of_fuel _ => True
  | _ => False

/-- `exec2` agrees with `exec1` on every evaluation that `exec1` completes. -/
def Exec.le (exec1 exec2 : Exec) : Prop :=
  ∀ stmt closure context, ¬ (exec1 stmt closure context).cut →
    exec2 stmt closure context = exec1 stmt closure context

end runtime

namespace parse

/-! ### Reserved words and identifier runs, in the words of the specification -/

/-- The reserved words with the nullary token each one stands for. -/
def reserved_words : List (String × Token) :=
  [("class", Token.Class), ("return", Token.Return), ("if", Token.If), ("else", Token.Else),
   ("def", Token.Def), ("print", Token.Print), ("and", Token.And), ("or", Token.Or),
   ("not", Token.Not), ("None", Token.None), ("True", Token.True), ("False", Token.False)]

/-- The token a table of words gives a spelling, if the spelling is in it. -/
def lookupWord (spelling : String) : List (String × Token) → Option Token
  | [] => none
  | (word, token) :: rest => if word = spelling then some token else lookupWord spelling rest

/-- The token of a spelling: the nullary keyword token when the whole spelling
is a reserved word, `Id{spelling}` otherwise. -/
def wordToken (spelling : String) : Token :=
  match lookupWord spelling reserved_words with
  | some token => token
  | none => Token.Id spelling

/-- A character that continues an identifier: a letter, a digit or an
underscore. -/
def isIdChar (c : Char) : Bool := isalpha c || isdigit c || c = '_'

/-- A character that starts a token of its own: a letter, an underscore, a
digit, or a punctuation character other than the `#` of a comment. -/
def startsToken (c : Char) : Bool :=
  (isalpha c || c = '_' || isdigit c || ispunct c) && c != '#'

/-- Where the token of a request comes from: the end-of-input branch of
`ParseToken` (with the state it is taken in), a newline, an indentation change,
or one of `ParseId`, `ParseNumber`, `ParseString`, `ParseChar`. -/
def Source (t : Token) (lx2 : Lexer) : Prop :=
  (t = Token.Eof ∧ lx2.input_ = [] ∧ lx2.new_line_flag_ = true ∧ lx2.current_indent_ = 0) ∨
  t = Token.Newline ∨ t = Token.Dedent ∨ t = Token.Indent ∨
  (∃ lx1, ParseId lx1 = .ok (t, lx2)) ∨ (∃ lx1, ParseNumber lx1 = .ok (t, lx2)) ∨
  (∃ lx1, ParseString lx1 = .ok (t, lx2)) ∨ (∃ lx1, ParseChar lx1 = .ok (t, lx2))

/-! ### More concrete inputs -/

/-- The input of scenario S2: the second line starts with three spaces. -/
def S2_input : List Char := "if x:\n   print 1\n".toList

/-- The lexer state of scenario S2 after `If`, `Id{x}`, `Char{:}`, `Newline`. -/
def S2_state : Lexer :=
  { current_token_ := Token.Newline, input_ := "   print 1\n".toList, current_indent_ := 0,
    new_line_flag_ := true }

/-- The lexer state of scenario S1 after its last `Newline`. -/
def S1_before_eof : Lexer :=
  { current_token_ := Token.Newline, input_ := [], current_indent_ := 0, new_line_flag_ := true }

end parse

namespace runtime

/-! ### Primitive kinds, argument evaluation and call scopes, in the words of the
specification -/

/-- Two operands of the same primitive kind: two Numbers, two Strings or two
Bools. -/
def samePrimitiveKind : ObjectHolder → ObjectHolder → Bool
  | .Number _, .Number _ => true
  | .String _, .String _ => true
  | .Bool _, .Bool _ => true
  | _, _ => false

/-- What a caller without access to the local scope sees of the execution of a
method body: the handle returned, the `ObjectHolder` thrown or the failure, with
the context. -/
def ExecResult.toOutcome : ExecResult → Outcome ObjectHolder
  | .ok value _ context => .ok value context
  | .thrown value _ context => .thrown value context
  | .fail error _ context => .fail error context

/-- Evaluating argument expressions from left to right, each in the scope and
context the previous one left: the handles they evaluate to, and the scope and
context after the last one. -/
inductive EvalArgs (exec : Exec) : List ast.Statement → Closure → Context →
    List ObjectHolder → Closure → Context → Prop where
  | nil {closure : Closure} {context : Context} : EvalArgs exec [] closure context [] closure context
  | cons {arg : ast.Statement} {rest : List ast.Statement} {closure : Closure}
      {context : Context} {value : ObjectHolder} {closure1 : Closure} {context1 : Context}
      {values : List ObjectHolder} {closure2 : Closure} {context2 : Context} :
      exec arg closure context = .ok value closure1 context1 →
      EvalArgs exec rest closure1 context1 values closure2 context2 →
      EvalArgs exec (arg :: rest) closure context (value :: values) closure2 context2

/-- An executor that runs nothing and returns the empty handle. -/
def idle_exec : Exec := fun _ closure context => .ok ObjectHolder.None closure context

/-! ### Concrete classes for equality and calls -/

/-- A class `A` whose `__eq__(other)` is `return self.v == other.v`. -/
def eq_A : Class :=
  .mk "A" [.mk "__eq__" ["other"]
    (.MethodBody (.Return (.Comparison .Equal (.VariableValue ["self", "v"])
      (.VariableValue ["other", "v"]))))] none

/-- A class `B` extending `A` without redefining `__eq__`. -/
def eq_B : Class := .mk "B" [] (some eq_A)

/-- Three instances of `B`, with `v` equal to 1, 1 and 2. -/
def eq_context : Context :=
  { output := "",
    objects := [{ cls_ := eq_B, fields_ := [("v", ObjectHolder.Number 1)] },
                { cls_ := eq_B, fields_ := [("v", ObjectHolder.Number 1)] },
                { cls_ := eq_B, fields_ := [("v", ObjectHolder.Number 2)] }] }

/-- A class with a method `f(a, a)`, both parameters named `a`, whose body is
the expression `a`. -/
def dup_class : Class := .mk "D" [.mk "f" ["a", "a"] (.VariableValue ["a"])] none

/-- A context whose store holds one instance of that class, at address 0. -/
def dup_context : Context :=
  { output := "", objects := [{ cls_ := dup_class, fields_ := [] }] }

end runtime

/-! ## Further definitions in the words of the specification, and concrete inputs -/

namespace parse

/-- The start of a line with four leading spaces, after a block of depth 4. -/
def depth4_line : Lexer :=
  { current_token_ := Token.Newline, input_ := "    f\n".toList, current_indent_ := 4,
    new_line_flag_ := true }

/-- The start of a line with four leading spaces at depth 0. -/
def jump_line : Lexer :=
  { current_token_ := Token.Newline, input_ := "    b\n    c\n".toList, current_indent_ := 0,
    new_line_flag_ := true }

/-- A program whose blocks open down to depth 4, followed by a line with four
leading spaces. -/
def deep_block_input : List Char := "a\n  b\n    c\n      d\n        e\n    f\n".toList

/-- A line that jumps two levels, and a second line with the same indentation. -/
def two_level_jump_input : List Char := "a\n    b\n    c\n".toList

/-- The line that jumps two levels alone. -/
def two_level_jump_line : List Char := "a\n    b\n".toList

/-- A block followed by a line of two spaces and a line at depth 0. -/
def spaces_line_input : List Char := "if x:\n  y\n  \nz\n".toList

/-- The same input without the line of spaces. -/
def no_blank_line_input : List Char := "if x:\n  y\nz\n".toList

/-- The same input with an empty line instead of the line of spaces. -/
def empty_line_input : List Char := "if x:\n  y\n\nz\n".toList

/-- Two lines at depth 0 with a line of spaces and an empty line between them. -/
def spaces_then_empty_input : List Char := "x\n  \n\ny\n".toList

end parse

namespace runtime

/-- The scope an evaluation leaves to its caller. -/
def ExecResult.closure : ExecResult → Closure
  | .ok _ closure _ => closure
  | .thrown _ closure _ => closure
  | .fail _ closure _ => closure

end runtime

namespace ast

open runtime

/-- The expression `0 - 2147483647 - 1`, whose value is `INT_MIN`. -/
def overflow_lhs : Statement :=
  .Sub (.Sub (.NumericConst 0) (.NumericConst 2147483647)) (.NumericConst 1)

/-- The expression `0 - 1`. -/
def overflow_rhs : Statement := .Sub (.NumericConst 0) (.NumericConst 1)

/-- The expression `(0 - 2147483647 - 1) / (0 - 1)`: `INT_MIN / -1`. -/
def overflow_div : Statement := .Div overflow_lhs overflow_rhs

/-- The lookup of a dotted name as the specification words it: each segment is
looked up in the current mapping, starting with `closure`; a segment that is not
the last must be bound to a `ClassInstance`, whose field table is the mapping
for the next segment; the result is the handle bound to the last segment. -/
def VariableValue.descend (context : Context) : List String → Closure → Option ObjectHolder
  | [], _ => none
  | [id], closure => closure.find id
  | id :: id2 :: rest, closure =>
    match closure.find id with
    | some (ObjectHolder.ClassInstance addr) =>
      match context.instanceAt addr with
      | some inst => VariableValue.descend context (id2 :: rest) inst.fields_
      | none => none
    | _ => none

/-- A scope that binds `o` to the instance at address 1 and `n` to a number. -/
def path_scope : Closure := [("o", ObjectHolder.ClassInstance 1), ("n", ObjectHolder.Number 3)]

/-- A context in which the instance at address 1 has the instance at address 0
as its field `inner`, and that one has the field `v`. -/
def path_context : Context :=
  { output := "",
    objects := [{ cls_ := fresh_P, fields_ := [("v", ObjectHolder.Number 5)] },
                { cls_ := fresh_P, fields_ := [("inner", ObjectHolder.ClassInstance 0)] }] }

/-- A class `K` with the method `second(p, q)`, which returns `q`. -/
def call_K : runtime.Class :=
  .mk "K" [.mk "second" ["p", "q"] (.MethodBody (.Return (.VariableValue ["q"])))] none

/-- A context whose store holds one instance of `K`, at address 0. -/
def call_context : Context :=
  { output := "", objects := [{ cls_ := call_K, fields_ := [] }] }

/-- A caller's scope: `k` is the instance of `K`, `x` is 1. -/
def call_scope : Closure := [("k", ObjectHolder.ClassInstance 0), ("x", ObjectHolder.Number 1)]

/-- Two argument expressions with side effects: the first prints
`side effect`, the second is the assignment `y = 2`. -/
def call_args : List Statement := [noisy_operand, .Assignment "y" (.NumericConst 2)]

/-- The class `P` with `__init__(v)`, whose body is `self.v = v`. -/
def frame_P : runtime.Class :=
  .mk "P" [.mk "__init__" ["v"]
    (.MethodBody (.FieldAssignment ["self"] "v" (.VariableValue ["v"])))] none

/-- The node of the expression `P(v)`, constructed first: its instance is at
address 0. -/
def frame_new_P : Statement × Context :=
  NewInstance.new frame_P [.VariableValue ["v"]] empty_context

/-- The class `F` with the method `make(v)`, whose body is `return P(v)`. -/
def frame_F : runtime.Class :=
  .mk "F" [.mk "make" ["v"] (.MethodBody (.Return frame_new_P.1))] none

/-- The node of the expression `F()`: its instance is at address 1. -/
def frame_new_F : Statement × Context := NewInstance.new frame_F [] frame_new_P.2

/-- The program
`f = F()`, `a = f.make(1)`, `print a.v`, `b = f.make(2)`, `print a.v`. -/
def frame_program : Statement :=
  .Compound [
    .Assignment "f" frame_new_F.1,
    .Assignment "a" (.MethodCall (.VariableValue ["f"]) "make" [.NumericConst 1]),
    .Print [.VariableValue ["a", "v"]],
    .Assignment "b" (.MethodCall (.VariableValue ["f"]) "make" [.NumericConst 2]),
    .Print [.VariableValue ["a", "v"]]]

/-- The caller's scope of that program before the second call. -/
def frame_scope : Closure :=
  [("f", ObjectHolder.ClassInstance 1), ("a", ObjectHolder.ClassInstance 0)]

/-- The context of that program before the second call. -/
def frame_context : Context :=
  { output := "1\n",
    objects := [{ cls_ := frame_P, fields_ := [("v", ObjectHolder.Number 1)] },
                { cls_ := frame_F, fields_ := [] }] }

/-- A class whose method `local(p)` assigns `x = p` and returns `x`, and whose
method `peek()` returns `x`. -/
def scope_K : runtime.Class :=
  .mk "K" [.mk "local" ["p"] (.MethodBody (.Compound [
              .Assignment "x" (.VariableValue ["p"]), .Return (.VariableValue ["x"])])),
           .mk "peek" [] (.MethodBody (.Return (.VariableValue ["x"])))] none

/-- A context whose store holds one instance of that class, at address 0. -/
def scope_context : Context :=
  { output := "", objects := [{ cls_ := scope_K, fields_ := [] }] }

/-- The printed form of a handle, in the words of the specification: the
literal `None` for the empty handle, and for an object what its `Print` writes
(which may call `__str__`, hence the context). -/
def printedForm (exec : Exec) (depth : Nat) (value : ObjectHolder) (context : Context) :
    Outcome String :=
  match value with
  | ObjectHolder.None => .ok "None" context
  | _ => runtime.Print exec depth value context

/-- Texts joined by single spaces. -/
def joinedBySpaces : List String → String
  | [] => ""
  | [text] => text
  | text :: rest => text ++ " " ++ joinedBySpaces rest

/-- What a run of `Print` appends to the stream before the final newline, given
for each argument the text `written` by its evaluation, the text `written2` by
the computation of its printed form (a `__str__` that prints), and its printed
form: a single space goes before every printed form but the first. -/
def printedOutput : Bool → List (String × String × String) → String
  | _, [] => ""
  | first, (written, written2, text) :: rest =>
    written ++ (if first then "" else " ") ++ written2 ++ text ++ printedOutput false rest

/-- Printing argument expressions from left to right: each is evaluated in the
scope and context left by what came before it, a single space is written unless
it is the first, and its printed form is written.  The relation gives what the
evaluations and the printed forms were, and the scope and context after the
last printed form. -/
inductive PrintedArgs (exec : Exec) (depth : Nat) : Bool → List Statement → Closure → Context →
    List (String × String × String) → Closure → Context → Prop where
  | nil {first : Bool} {closure : Closure} {context : Context} :
      PrintedArgs exec depth first [] closure context [] closure context
  | cons {first : Bool} {arg : Statement} {rest : List Statement} {closure : Closure}
      {context : Context} {value : ObjectHolder} {closure1 : Closure} {context1 : Context}
      {written : String} {text : String} {context2 : Context} {written2 : String}
      {pieces : List (String × String × String)} {closure2 : Closure} {context3 : Context} :
      exec arg closure context = .ok value closure1 context1 →
      context1.output = context.output ++ written →
      printedForm exec depth value (if first then context1 else context1.write " ") =
        .ok text context2 →
      context2.output = (if first then context1 else context1.write " ").output ++ written2 →
      PrintedArgs exec depth false rest closure1 (context2.write text) pieces closure2 context3 →
      PrintedArgs exec depth first (arg :: rest) closure context
        ((written, written2, text) :: pieces) closure2 context3

/-- A class `S` whose `__str__` has the body `x = 1`, without a `return`. -/
def str_S : runtime.Class :=
  .mk "S" [.mk "__str__" [] (.MethodBody (.Compound [.Assignment "x" (.NumericConst 1)]))] none

/-- A class `T` whose `__str__` prints `hello` and returns `"x"`. -/
def str_T : runtime.Class :=
  .mk "T" [.mk "__str__" [] (.MethodBody (.Compound [
    .Print [.StringConst "hello"], .Return (.StringConst "x")]))] none

/-- A context whose store holds an instance of `S` at address 0 and an instance
of `T` at address 1. -/
def str_context : Context :=
  { output := "", objects := [{ cls_ := str_S, fields_ := [] }, { cls_ := str_T, fields_ := [] }] }

/-- A scope that binds `s` to the instance of `S` and `t` to the instance of `T`. -/
def str_scope : Closure := [("s", ObjectHolder.ClassInstance 0), ("t", ObjectHolder.ClassInstance 1)]

end ast
namespace parse

/-! ## The lexer: depth counter and token stream -/

theorem Plain_ite {lx : Lexer} {c : Prop} [Decidable c] {a b : Result}
    (ha : ∀ t lx2, a = .ok (t, lx2) → Plain lx t lx2)
    (hb : ∀ t lx2, b = .ok (t, lx2) → Plain lx t lx2) :
    ∀ t lx2, (if c then a else b) = .ok (t, lx2) → Plain lx t lx2 := by
  by_cases hc : c
  · rw [if_pos hc]; exact ha
  · rw [if_neg hc]; exact hb

theorem Plain_ok {lx : Lexer} {t0 : Token} (h1 : t0 ≠ Token.Indent) (h2 : t0 ≠ Token.Dedent)
    (h3 : t0 ≠ Token.Eof) :
    ∀ t lx2, (Except.ok (t0, lx) : Result) = .ok (t, lx2) → Plain lx t lx2 := by
  intro t lx2 h
  cases h
  exact ⟨h1, h2, h3, rfl⟩

theorem ParseKeyWord_plain_all (lx : Lexer) (str : String) :
    ∀ t lx2, ParseKeyWord lx str = .ok (t, lx2) → Plain lx t lx2 := by
  unfold ParseKeyWord
  repeat (first
    | exact Plain_ok (by decide) (by decide) (by decide)
    | refine Plain_ite ?_ ?_)
  intro t lx2 h
  cases h

theorem ParseKeyWord_plain {lx lx2 : Lexer} {str : String} {t : Token}
    (h : ParseKeyWord lx str = .ok (t, lx2)) : Plain lx t lx2 :=
  ParseKeyWord_plain_all lx str t lx2 h

theorem ParseNewLine_plain {lx lx2 : Lexer} {t : Token}
    (h : ParseNewLine lx = .ok (t, lx2)) : Plain lx t lx2 := by
  unfold ParseNewLine at h
  simp at h
  obtain ⟨rfl, rfl⟩ := h
  simp [Plain]

theorem ParseString_plain {lx lx2 : Lexer} {t : Token}
    (h : ParseString lx = .ok (t, lx2)) : Plain lx t lx2 := by
  unfold ParseString at h
  split at h
  · simp at h
  · split at h
    · simp at h
    · simp at h
      obtain ⟨rfl, rfl⟩ := h
      simp [Plain]

theorem ParseNumber_plain {lx lx2 : Lexer} {t : Token}
    (h : ParseNumber lx = .ok (t, lx2)) : Plain lx t lx2 := by
  unfold ParseNumber at h
  split at h
  split_ifs at h
  simp at h
  obtain ⟨rfl, rfl⟩ := h
  simp [Plain]

theorem ParseId_plain {lx lx2 : Lexer} {t : Token}
    (h : ParseId lx = .ok (t, lx2)) : Plain lx t lx2 := by
  unfold ParseId at h
  split at h
  split_ifs at h
  · simpa [Plain] using ParseKeyWord_plain h
  · simp at h
    obtain ⟨rfl, rfl⟩ := h
    simp [Plain]

theorem ParseChar_plain {lx lx2 : Lexer} {t : Token}
    (h : ParseChar lx = .ok (t, lx2)) : Plain lx t lx2 := by
  unfold ParseChar at h
  split at h
  · simp at h
  · split_ifs at h
    · simpa [Plain] using ParseKeyWord_plain h
    · simp at h
      obtain ⟨rfl, rfl⟩ := h
      simp [Plain]

theorem ParseComment_cases {lx lx2 : Lexer} {t : Token}
    (h : ParseComment lx = .ok (t, lx2)) :
    (t = Token.None ∨ t = Token.Newline) ∧ lx2.current_indent_ = lx.current_indent_ := by
  unfold ParseComment ParseNewLine at h
  split_ifs at h <;> simp at h <;> obtain ⟨rfl, rfl⟩ := h <;> simp

theorem ParseDedent_step {lx lx2 : Lexer} {t : Token} (hpos : lx.current_indent_ ≠ 0)
    (h : ParseDedent lx = .ok (t, lx2)) : Step lx t lx2 := by
  unfold ParseDedent at h
  simp at h
  obtain ⟨rfl, rfl⟩ := h
  refine Or.inr (Or.inl ⟨rfl, hpos, ?_⟩)
  simp [size_dec, hpos]
  omega

theorem ParseIndentLoop_cases (lx : Lexer) (n : Nat) (l : List Char) {lx2 : Lexer} {t : Token}
    (h : ParseIndentLoop lx n l = .ok (t, lx2)) :
    (t = Token.None ∧ lx2.current_indent_ = lx.current_indent_) ∨
    (t = Token.Indent ∧ lx2.current_indent_ = lx.current_indent_ + 1) ∨
    (t = Token.Dedent ∧ lx.current_indent_ ≠ 0 ∧
      lx2.current_indent_ + 1 = lx.current_indent_) := by
  induction l generalizing n with
  | nil =>
    simp [ParseIndentLoop] at h
    obtain ⟨rfl, rfl⟩ := h
    simp
  | cons c rest ih =>
    simp only [ParseIndentLoop] at h
    split_ifs at h with h1 h2 h3 h4 h5 h6
    · simp at h; obtain ⟨rfl, rfl⟩ := h; simp
    · exact ih _ h
    · simp at h; obtain ⟨rfl, rfl⟩ := h; simp
    · have hpos : lx.current_indent_ ≠ 0 := by omega
      simp only [ParseDedent, Except.ok.injEq, Prod.mk.injEq] at h
      obtain ⟨rfl, rfl⟩ := h
      refine Or.inr (Or.inr ⟨rfl, hpos, ?_⟩)
      simp only [size_dec, if_neg hpos]
      omega
    · have hpos : lx.current_indent_ ≠ 0 := by omega
      simp only [ParseDedent, Except.ok.injEq, Prod.mk.injEq] at h
      obtain ⟨rfl, rfl⟩ := h
      refine Or.inr (Or.inr ⟨rfl, hpos, ?_⟩)
      simp only [size_dec, if_neg hpos]
      omega
    · simp at h; obtain ⟨rfl, rfl⟩ := h; simp

theorem Step_of_plain {lx lx1 lx2 : Lexer} {t : Token} (h : Plain lx1 t lx2)
    (hd : lx1.current_indent_ = lx.current_indent_) : Step lx t lx2 := by
  obtain ⟨h1, h2, h3, h4⟩ := h
  exact Or.inr (Or.inr (Or.inr ⟨h1, h2, h3, by rw [h4, hd]⟩))

theorem Step_congr {lx lx1 lx2 : Lexer} {t : Token} (h : Step lx1 t lx2)
    (hd : lx1.current_indent_ = lx.current_indent_) : Step lx t lx2 := by
  unfold Step Plain at *
  rw [hd] at h
  exact h

theorem ParseTokenLoop_step (fuel : Nat) :
    ∀ (lx lx2 : Lexer) (t : Token), ParseTokenLoop fuel lx = .ok (t, lx2) → Step lx t lx2 := by
  induction fuel with
  | zero => intro lx lx2 t h; simp [ParseTokenLoop] at h
  | succ fuel ih =>
    intro lx lx2 t h
    rw [ParseTokenLoop] at h
    split at h
    · -- end of input
      split_ifs at h with h1 h2
      · cases h; exact Or.inr (Or.inr (Or.inl ⟨rfl, h1, h1⟩))
      · exact Step_of_plain (ParseNewLine_plain h) rfl
      · exact ParseDedent_step h1 h
    · rename_i c rest hin
      split_ifs at h with h1 h2 h3 h4 h5 h6 h7 h8 h9 h10
      · exact Step_of_plain (ParseNewLine_plain h) rfl
      · exact Step_congr (ih _ _ _ h) rfl
      · -- a space at the start of a line
        split at h
        · rename_i token lx3 hind
          have hc := ParseIndentLoop_cases _ _ _ hind
          split_ifs at h with h11
          · rcases hc with ⟨_, hd⟩ | ⟨rfl, _⟩ | ⟨rfl, _⟩
            · exact Step_congr (ih _ _ _ h) hd
            · cases h11
            · cases h11
          · cases h
            rcases hc with ⟨hn, _⟩ | ⟨rfl, hd⟩ | ⟨rfl, hp, hd⟩
            · exact absurd hn h11
            · exact Or.inl ⟨rfl, hd⟩
            · exact Or.inr (Or.inl ⟨rfl, hp, hd⟩)
        · cases h
      · exact Step_congr (ih _ _ _ h) rfl
      · have hp : lx.current_indent_ ≠ 0 := by
          have hf := ‹(lx.new_line_flag_ && lx.current_indent_ != 0) = true›
          simp at hf
          exact hf.2
        exact ParseDedent_step hp h
      · exact Step_of_plain (ParseId_plain h) rfl
      · exact Step_of_plain (ParseNumber_plain h) rfl
      · exact Step_of_plain (ParseString_plain h) rfl
      · -- a comment
        split at h
        · rename_i token lx3 hcom
          have hc := ParseComment_cases hcom
          split_ifs at h with h11
          · exact Step_congr (ih _ _ _ h) hc.2
          · cases h
            rcases hc with ⟨hn | rfl, hd⟩
            · exact absurd hn h11
            · exact Or.inr (Or.inr (Or.inr ⟨by decide, by decide, by decide, hd⟩))
        · cases h
      · exact Step_of_plain (ParseChar_plain h) rfl
      · exact Step_congr (ih _ _ _ h) rfl

theorem NextToken_step {lx lx2 : Lexer} {t : Token} (h : NextToken lx = .ok (t, lx2)) :
    Step lx t lx2 := by
  unfold NextToken ParseToken at h
  split at h
  · rename_i token lx3 hp
    cases h
    exact @Step_congr lx lx _ _ (by
      have := ParseTokenLoop_step _ _ _ _ hp
      unfold Step Plain at *
      exact this) rfl
  · cases h

/-- The depth counter is the number of `Indent` tokens less the number of
`Dedent` tokens handed out, and a stream ending in `Eof` ends at depth 0. -/
theorem NextTokens_depth (n : Nat) :
    ∀ (lx lx2 : Lexer) (tokens : List Token), NextTokens n lx = .ok (tokens, lx2) →
      lx.current_indent_ + tokens.count Token.Indent =
        lx2.current_indent_ + tokens.count Token.Dedent ∧
      (tokens.getLast? = some Token.Eof → lx2.current_indent_ = 0) := by
  induction n with
  | zero =>
    intro lx lx2 tokens h
    simp [NextTokens] at h
    obtain ⟨rfl, rfl⟩ := h
    simp
  | succ n ih =>
    intro lx lx2 tokens h
    rw [NextTokens] at h
    split at h
    · cases h
    · rename_i token lx3 hnext
      split at h
      · cases h
      · rename_i toks lx4 hrest
        cases h
        obtain ⟨hcount, hlast⟩ := ih _ _ _ hrest
        have hstep := NextToken_step hnext
        refine ⟨?_, ?_⟩
        · rcases hstep with ⟨rfl, hd⟩ | ⟨rfl, _, hd⟩ | ⟨rfl, h0, hd⟩ | ⟨h1, h2, _, hd⟩
          · simp [List.count_cons] at *; omega
          · simp [List.count_cons] at *; omega
          · simp [List.count_cons] at *; omega
          · have e1 : (token :: toks).count Token.Indent = toks.count Token.Indent :=
              List.count_cons_of_ne (Ne.symm h1) toks
            have e2 : (token :: toks).count Token.Dedent = toks.count Token.Dedent :=
              List.count_cons_of_ne (Ne.symm h2) toks
            rw [e1, e2]; omega
        · intro hl
          cases toks with
          | nil =>
            simp at hl
            subst hl
            cases n with
            | zero =>
              simp [NextTokens] at hrest
              rw [← hrest]
              rcases hstep with ⟨h, _⟩ | ⟨h, _⟩ | ⟨_, _, hd⟩ | ⟨_, _, h, _⟩
              · cases h
              · cases h
              · exact hd
              · exact absurd rfl h
            | succ m =>
              rw [NextTokens] at hrest
              split at hrest
              · cases hrest
              · split at hrest
                · cases hrest
                · cases hrest
          | cons t2 ts =>
            apply hlast
            simpa [List.getLast?_cons_cons] using hl

theorem NextTokens_take (n : Nat) :
    ∀ (k : Nat) (lx lx2 : Lexer) (tokens : List Token), NextTokens n lx = .ok (tokens, lx2) →
      ∃ lx3, NextTokens (min k n) lx = .ok (tokens.take k, lx3) := by
  induction n with
  | zero =>
    intro k lx lx2 tokens h
    simp [NextTokens] at h
    obtain ⟨rfl, rfl⟩ := h
    exact ⟨lx, by simp [NextTokens]⟩
  | succ n ih =>
    intro k lx lx2 tokens h
    cases k with
    | zero => exact ⟨lx, by simp [NextTokens]⟩
    | succ k =>
      rw [NextTokens] at h
      split at h
      · cases h
      · rename_i token lx3 hnext
        split at h
        · cases h
        · rename_i toks lx4 hrest
          cases h
          obtain ⟨lx5, h5⟩ := ih k _ _ _ hrest
          refine ⟨lx5, ?_⟩
          have : min (k + 1) (n + 1) = min k n + 1 := by omega
          rw [this, NextTokens, hnext]
          simp [h5]

/-! ### The loop of `ParseToken` always finishes -/

theorem NoFuel_ite {c : Prop} [Decidable c] {a b : Result}
    (ha : a ≠ .error Failure.out_of_fuel) (hb : b ≠ .error Failure.out_of_fuel) :
    (if c then a else b) ≠ .error Failure.out_of_fuel := by
  by_cases hc : c
  · rw [if_pos hc]; exact ha
  · rw [if_neg hc]; exact hb

theorem ParseKeyWord_ne_out_of_fuel (lx : Lexer) (str : String) :
    ParseKeyWord lx str ≠ .error Failure.out_of_fuel := by
  unfold ParseKeyWord
  repeat (first
    | exact (fun h => by cases h)
    | refine NoFuel_ite ?_ ?_)

theorem ParseId_ne_out_of_fuel (lx : Lexer) : ParseId lx ≠ .error Failure.out_of_fuel := by
  unfold ParseId
  split
  exact NoFuel_ite (ParseKeyWord_ne_out_of_fuel _ _) (fun h => by cases h)

theorem ParseNumber_ne_out_of_fuel (lx : Lexer) :
    ParseNumber lx ≠ .error Failure.out_of_fuel := by
  unfold ParseNumber
  split
  exact NoFuel_ite (fun h => by cases h) (NoFuel_ite (fun h => by cases h) (fun h => by cases h))

theorem ParseString_ne_out_of_fuel (lx : Lexer) :
    ParseString lx ≠ .error Failure.out_of_fuel := by
  unfold ParseString
  split
  · intro h; cases h
  · split
    · intro h; cases h
    · intro h; cases h

theorem ParseChar_ne_out_of_fuel (lx : Lexer) : ParseChar lx ≠ .error Failure.out_of_fuel := by
  unfold ParseChar
  split
  · intro h; cases h
  · exact NoFuel_ite (ParseKeyWord_ne_out_of_fuel _ _)
      (NoFuel_ite (fun h => by cases h) (fun h => by cases h))

theorem ParseIndentLoop_ne_out_of_fuel (lx : Lexer) (n : Nat) (l : List Char) :
    ParseIndentLoop lx n l ≠ .error Failure.out_of_fuel := by
  induction l generalizing n with
  | nil => simp [ParseIndentLoop]
  | cons c rest ih =>
    rw [ParseIndentLoop]
    refine NoFuel_ite (fun h => by cases h) (NoFuel_ite (ih _) (NoFuel_ite (NoFuel_ite
      (fun h => by cases h) (NoFuel_ite (NoFuel_ite ?_ ?_) (fun h => by cases h)))
      (fun h => by cases h)))
    · simp [ParseDedent]
    · simp [ParseDedent]

theorem ParseIndentLoop_none_length (lx : Lexer) (n : Nat) (l : List Char) {lx2 : Lexer}
    (h : ParseIndentLoop lx n l = .ok (Token.None, lx2)) : lx2.input_.length ≤ l.length := by
  induction l generalizing n with
  | nil =>
    simp [ParseIndentLoop] at h
    subst h
    simp
  | cons c rest ih =>
    rw [ParseIndentLoop] at h
    split_ifs at h
    · cases h; simp
    · have := ih _ h
      simp
      omega
    · cases h
    · simp [ParseDedent] at h
    · simp [ParseDedent] at h
    · cases h; simp

theorem ParseCommentLoop_length (l : List Char) : (ParseCommentLoop l).length ≤ l.length := by
  induction l with
  | nil => simp [ParseCommentLoop]
  | cons c rest ih =>
    rw [ParseCommentLoop]
    split_ifs
    · simp
    · simp; omega

theorem ParseTokenLoop_ne_out_of_fuel (fuel : Nat) :
    ∀ lx : Lexer, lx.input_.length < fuel →
      ParseTokenLoop fuel lx ≠ .error Failure.out_of_fuel := by
  induction fuel with
  | zero => intro lx h; omega
  | succ fuel ih =>
    intro lx hlen
    rw [ParseTokenLoop]
    split
    · refine NoFuel_ite (NoFuel_ite (fun h => by cases h) ?_) ?_
      · simp [ParseNewLine]
      · simp [ParseDedent]
    · rename_i c rest hin
      have hrest : rest.length < fuel := by rw [hin] at hlen; simp at hlen; omega
      have hcont : ParseTokenLoop fuel { lx with input_ := rest } ≠
          .error Failure.out_of_fuel := ih _ hrest
      refine NoFuel_ite (NoFuel_ite ?_ hcont) ?_
      · simp [ParseNewLine]
      by_cases hsp : c = ' '
      · rw [if_pos hsp]
        refine NoFuel_ite ?_ hcont
        split
        · rename_i token lx3 hind
          by_cases htok : token = Token.None
          · rw [if_pos htok]
            subst htok
            apply ih
            unfold ParseIndent at hind
            simp only [hin, hsp] at hind
            rw [ParseIndentLoop] at hind
            simp at hind
            have := ParseIndentLoop_none_length _ _ _ hind
            omega
          · rw [if_neg htok]
            intro h
            cases h
        · rename_i e hind
          intro h
          cases h
          exact ParseIndentLoop_ne_out_of_fuel _ _ _ hind
      · rw [if_neg hsp]
        refine NoFuel_ite ?_ (NoFuel_ite (ParseId_ne_out_of_fuel _) (NoFuel_ite
          (ParseNumber_ne_out_of_fuel _) (NoFuel_ite (NoFuel_ite (ParseString_ne_out_of_fuel _)
          (NoFuel_ite ?_ (ParseChar_ne_out_of_fuel _))) hcont)))
        · simp [ParseDedent]
        · split
          · rename_i token lx3 hcom
            by_cases htok : token = Token.None
            · rw [if_pos htok]
              apply ih
              unfold ParseComment ParseNewLine at hcom
              have := ParseCommentLoop_length rest
              split_ifs at hcom <;> cases hcom <;> simpa using (by omega)
            · rw [if_neg htok]
              intro h
              cases h
          · rename_i e hcom
            unfold ParseComment ParseNewLine at hcom
            split_ifs at hcom

/-- The loop of `ParseToken` is never cut short by its iteration bound. -/
theorem ParseToken_ne_out_of_fuel (lx : Lexer) : ParseToken lx ≠ .error Failure.out_of_fuel :=
  ParseTokenLoop_ne_out_of_fuel _ lx (Nat.lt_succ_self _)

/-- C1: whenever the lexer constructed over `input` hands out `n` tokens without
raising an error and the last of them is `Eof`, these tokens hold as many
`Dedent` as `Indent` tokens, no prefix of them holds more `Dedent` than `Indent`
tokens, `Eof` was produced at depth 0, and after every `k` of them the depth
counter `current_indent_` is the number of `Indent` less the number of `Dedent`
tokens handed out so far (so it was never decremented at 0). -/
theorem C1_indent_dedent_balanced (input : List Char) (n : Nat) (tokens : List Token)
    (lx : Lexer) (hrun : Lexer.tokens n input = .ok (tokens, lx))
    (heof : tokens.getLast? = some Token.Eof) :
    tokens.count Token.Dedent = tokens.count Token.Indent ∧
    (∀ k, (tokens.take k).count Token.Dedent ≤ (tokens.take k).count Token.Indent) ∧
    lx.current_indent_ = 0 ∧
    (∀ k lxk, Lexer.tokens k input = .ok (tokens.take k, lxk) →
      lxk.current_indent_ + (tokens.take k).count Token.Dedent =
        (tokens.take k).count Token.Indent) := by
  have hd := NextTokens_depth n _ _ _ hrun
  have h0 : lx.current_indent_ = 0 := hd.2 heof
  have hk : ∀ k lxk, Lexer.tokens k input = .ok (tokens.take k, lxk) →
      lxk.current_indent_ + (tokens.take k).count Token.Dedent =
        (tokens.take k).count Token.Indent := by
    intro k lxk h
    have := (NextTokens_depth k _ _ _ h).1
    simp [Lexer.init] at this
    omega
  refine ⟨?_, ?_, h0, hk⟩
  · have := hd.1
    simp [Lexer.init, h0] at this
    omega
  · intro k
    obtain ⟨lx3, h3⟩ := NextTokens_take n k _ _ _ hrun
    have := (NextTokens_depth _ _ _ _ h3).1
    simp [Lexer.init] at this
    omega

/-- C1 at the input of scenario S1. -/
theorem C1_indent_dedent_balanced_witness :
    Lexer.tokens 16 S1_input = .ok (S1_tokens, S1_final) ∧
    S1_tokens.getLast? = some Token.Eof ∧
    S1_tokens.count Token.Dedent = S1_tokens.count Token.Indent :=
  ⟨rfl, rfl, (C1_indent_dedent_balanced S1_input 16 S1_tokens S1_final rfl rfl).1⟩

/-- C4 (the code at the failing input): on an input that ends in the middle of a
line inside a block, the end-of-input branch of `ParseToken` hands out the
pending `Dedent` before the synthetic `Newline`, whereas the same input with
its final newline gives `Newline`, `Dedent`, `Eof`. -/
theorem C4_midline_end_dedent_before_newline :
    Lexer.tokens 10 midline_input =
      .ok ([Token.If, Token.Id "x", Token.Char ':', Token.Newline, Token.Indent, Token.Print,
        Token.Number 1, Token.Dedent, Token.Newline, Token.Eof], S1_final) ∧
    Lexer.tokens 10 midline_input_nl =
      .ok ([Token.If, Token.Id "x", Token.Char ':', Token.Newline, Token.Indent, Token.Print,
        Token.Number 1, Token.Newline, Token.Dedent, Token.Eof], S1_final) :=
  ⟨rfl, rfl⟩

/-! ### String literals -/

theorem ParseStringLoop_escape (q : Char) (hq : q = '"' ∨ q = '\'') (s : List Char) :
    ∀ (str rest : List Char),
      ParseStringLoop q str (escape q s ++ q :: rest) = some (str ++ s, rest) := by
  induction s with
  | nil =>
    intro str rest
    rcases hq with rfl | rfl <;> (simp only [escape, List.nil_append]; unfold ParseStringLoop; simp)
  | cons c s ih =>
    intro str rest
    have happ : str ++ c :: s = (str ++ [c]) ++ s := by simp
    rw [happ, ← ih (str ++ [c]) rest]
    simp only [escape, escapeChar]
    split_ifs with h1 h2 h3 h4 h5
    · subst h1; simp [ParseStringLoop]
    · subst h2; simp [ParseStringLoop]
    · subst h3; simp [ParseStringLoop]
    · subst h4; simp [ParseStringLoop]
    · subst h5
      rcases hq with rfl | rfl <;> simp [ParseStringLoop]
    · simp only [List.singleton_append, List.cons_append, List.nil_append]
      conv_lhs => unfold ParseStringLoop
      simp only [if_neg h4]
      rcases hq with rfl | rfl
      · simp only [if_neg h5]
        split_ifs <;> rfl
      · simp only [if_neg h5]
        split_ifs <;> rfl

/-- C10: for a quote character `q` (double or single) and every text `s`, a
token request on the literal `q ++ escape q s ++ q` (from a state in which a
token may start: mid-line, or at depth 0) returns the single token
`String{s}` and leaves exactly the input that follows the closing quote. -/
theorem C10_string_literal_unescapes (q : Char) (hq : q = '"' ∨ q = '\'') (s rest : List Char)
    (lx : Lexer) (hstart : lx.new_line_flag_ = false ∨ lx.current_indent_ = 0) :
    ParseToken { lx with input_ := q :: (escape q s ++ q :: rest) } =
      .ok (Token.String (String.mk s),
        { lx with input_ := rest, new_line_flag_ := false }) := by
  have hloop := ParseStringLoop_escape q hq s [] rest
  have hguard : (lx.new_line_flag_ && lx.current_indent_ != 0) = false := by
    rcases hstart with h | h <;> simp [h]
  rcases hq with rfl | rfl
  · simp [ParseToken, ParseTokenLoop, ParseString, hloop, hguard, isalpha, isdigit, ispunct]
  · simp [ParseToken, ParseTokenLoop, ParseString, hloop, hguard, isalpha, isdigit, ispunct]

/-- C10 at the literal of scenario S3. -/
theorem C10_string_literal_unescapes_witness :
    S3_input = '"' :: (escape '"' S3_text ++ '"' :: []) ∧
    ParseToken (Lexer.init S3_input) =
      .ok (Token.String "hello\n\t\"'\\",
        { current_token_ := Token.Number 0, input_ := [], current_indent_ := 0,
          new_line_flag_ := false }) :=
  ⟨by decide, C10_string_literal_unescapes '"' (Or.inl rfl) S3_text [] (Lexer.init [])
    (Or.inr rfl)⟩

end parse

namespace parse

/-! ## Indentation at the start of a line -/

theorem ParseIndentLoop_spaces (lx : Lexer) (c : Char) (rest : List Char) (k : Nat) :
    ∀ n, ParseIndentLoop lx n (List.replicate k ' ' ++ c :: rest) =
      ParseIndentLoop lx (n + k) (c :: rest) := by
  induction k with
  | zero => intro n; rfl
  | succ k ih =>
    intro n
    rw [List.replicate_succ, List.cons_append, ParseIndentLoop]
    simp only [show (' ' : Char) ≠ '\n' by decide, if_false, if_true]
    rw [ih (n + 1)]
    congr 1
    omega

theorem ParseTokenLoop_space_at_line_start (fuel : Nat) (lx : Lexer) (rest : List Char)
    (hflag : lx.new_line_flag_ = true) (hin : lx.input_ = ' ' :: rest) :
    ParseTokenLoop (fuel + 1) lx =
      match ParseIndentLoop { lx with new_line_flag_ := false } 1 rest with
      | .ok (token, lx2) =>
        if token = Token.None then ParseTokenLoop fuel lx2 else .ok (token, lx2)
      | .error e => .error e := by
  rw [ParseTokenLoop]
  simp only [hin, show (' ' : Char) ≠ '\n' by decide, if_false, if_true, hflag, ParseIndent]
  rw [ParseIndentLoop]
  simp only [show (' ' : Char) ≠ '\n' by decide, if_false, if_true, Nat.zero_add]
  try rfl

/-- C12: from a lexer state at the start of a line (whatever the open depth),
when the next characters are an odd number of spaces followed by a character
that is neither a space nor a newline, the token request fails with
`LexerError("Invalid number of spaces")`: `ParseToken` and `NextToken` return the
error and no token. -/
theorem C12_odd_indent_is_an_error (lx : Lexer) (k : Nat) (c : Char) (rest : List Char)
    (hflag : lx.new_line_flag_ = true)
    (hin : lx.input_ = List.replicate (2 * k + 1) ' ' ++ c :: rest)
    (hsp : c ≠ ' ') (hnl : c ≠ '\n') :
    ParseToken lx = .error (Failure.LexerError "Invalid number of spaces") ∧
    NextToken lx = .error (Failure.LexerError "Invalid number of spaces") := by
  have hin2 : lx.input_ = ' ' :: (List.replicate (2 * k) ' ' ++ c :: rest) := by
    rw [hin, List.replicate_succ, List.cons_append]
  have h1 : ParseToken lx = .error (Failure.LexerError "Invalid number of spaces") := by
    unfold ParseToken
    rw [ParseTokenLoop_space_at_line_start _ lx _ hflag hin2, ParseIndentLoop_spaces,
      ParseIndentLoop]
    simp only [if_neg hnl, if_neg hsp]
    have hodd : ¬ (1 + 2 * k) % 2 = 0 := by omega
    simp only [if_neg hodd]
  exact ⟨h1, by simp only [NextToken, h1]⟩

/-- C12 at scenario S2: after `If`, `Id{x}`, `Char{:}`, `Newline` the lexer is at
the start of the line with three spaces, and the next request fails. -/
theorem C12_odd_indent_is_an_error_witness :
    Lexer.tokens 4 S2_input =
      .ok ([Token.If, Token.Id "x", Token.Char ':', Token.Newline], S2_state) ∧
    NextToken S2_state = .error (Failure.LexerError "Invalid number of spaces") ∧
    Lexer.tokens 5 S2_input = .error (Failure.LexerError "Invalid number of spaces") :=
  ⟨rfl,
   (C12_odd_indent_is_an_error S2_state 1 'p' "rint 1\n".toList rfl rfl (by decide)
      (by decide)).2,
   rfl⟩

/-! ## Where tokens come from -/

theorem ParseTokenLoop_source (fuel : Nat) :
    ∀ (lx lx2 : Lexer) (t : Token), ParseTokenLoop fuel lx = .ok (t, lx2) → Source t lx2 := by
  induction fuel with
  | zero => intro lx lx2 t h; simp [ParseTokenLoop] at h
  | succ fuel ih =>
    intro lx lx2 t h
    rw [ParseTokenLoop] at h
    split at h
    · rename_i hin
      split_ifs at h with h1 h2
      · cases h; exact Or.inl ⟨rfl, hin, h2, h1⟩
      · simp only [ParseNewLine, Except.ok.injEq, Prod.mk.injEq] at h
        exact Or.inr (Or.inl h.1.symm)
      · simp only [ParseDedent, Except.ok.injEq, Prod.mk.injEq] at h
        exact Or.inr (Or.inr (Or.inl h.1.symm))
    · rename_i c rest hin
      split_ifs at h
      · simp only [ParseNewLine, Except.ok.injEq, Prod.mk.injEq] at h
        exact Or.inr (Or.inl h.1.symm)
      · exact ih _ _ _ h
      · split at h
        · rename_i token lx3 hind
          have hc := ParseIndentLoop_cases _ _ _ hind
          split_ifs at h with h11
          · exact ih _ _ _ h
          · cases h
            rcases hc with ⟨hn, _⟩ | ⟨rfl, _⟩ | ⟨rfl, _⟩
            · exact absurd hn h11
            · exact Or.inr (Or.inr (Or.inr (Or.inl rfl)))
            · exact Or.inr (Or.inr (Or.inl rfl))
        · cases h
      · exact ih _ _ _ h
      · simp only [ParseDedent, Except.ok.injEq, Prod.mk.injEq] at h
        exact Or.inr (Or.inr (Or.inl h.1.symm))
      · exact Or.inr (Or.inr (Or.inr (Or.inr (Or.inl ⟨_, h⟩))))
      · exact Or.inr (Or.inr (Or.inr (Or.inr (Or.inr (Or.inl ⟨_, h⟩)))))
      · exact Or.inr (Or.inr (Or.inr (Or.inr (Or.inr (Or.inr (Or.inl ⟨_, h⟩))))))
      · split at h
        · rename_i token lx3 hcom
          have hc := ParseComment_cases hcom
          split_ifs at h with h11
          · exact ih _ _ _ h
          · cases h
            rcases hc with ⟨hn | rfl, _⟩
            · exact absurd hn h11
            · exact Or.inr (Or.inl rfl)
        · cases h
      · exact Or.inr (Or.inr (Or.inr (Or.inr (Or.inr (Or.inr (Or.inr ⟨_, h⟩))))))
      · exact ih _ _ _ h

theorem ParseTokenLoop_eof {fuel : Nat} {lx lx2 : Lexer}
    (h : ParseTokenLoop fuel lx = .ok (Token.Eof, lx2)) :
    lx2.input_ = [] ∧ lx2.new_line_flag_ = true ∧ lx2.current_indent_ = 0 := by
  rcases ParseTokenLoop_source fuel lx lx2 _ h with
    ⟨_, h1⟩ | h1 | h1 | h1 | ⟨lx1, h1⟩ | ⟨lx1, h1⟩ | ⟨lx1, h1⟩ | ⟨lx1, h1⟩
  · exact h1
  · cases h1
  · cases h1
  · cases h1
  · exact absurd rfl (ParseId_plain h1).2.2.1
  · exact absurd rfl (ParseNumber_plain h1).2.2.1
  · exact absurd rfl (ParseString_plain h1).2.2.1
  · exact absurd rfl (ParseChar_plain h1).2.2.1

theorem NextToken_at_end (lx : Lexer) (hin : lx.input_ = []) (hflag : lx.new_line_flag_ = true)
    (hdepth : lx.current_indent_ = 0) (htok : lx.current_token_ = Token.Eof) :
    NextToken lx = .ok (Token.Eof, lx) := by
  cases lx with
  | mk tok inp ind flag =>
    simp only at hin hflag hdepth htok
    subst hin hflag hdepth htok
    rfl

/-- C14: once a token request (`NextToken`, which is also the constructor's
priming request) has returned `Eof`, the lexer is at depth 0 with the line-start
flag set and the input used up, `CurrentToken` is `Eof`, and any number of
further calls of `NextToken` return `Eof` each and leave that state as it is. -/
theorem C14_eof_is_permanent (lx lx2 : Lexer) (h : NextToken lx = .ok (Token.Eof, lx2)) :
    lx2.current_indent_ = 0 ∧ lx2.new_line_flag_ = true ∧ lx2.input_ = [] ∧
    CurrentToken lx2 = Token.Eof ∧
    NextToken lx2 = .ok (Token.Eof, lx2) ∧
    ∀ n, NextTokens n lx2 = .ok (List.replicate n Token.Eof, lx2) := by
  have hstate : lx2.input_ = [] ∧ lx2.new_line_flag_ = true ∧ lx2.current_indent_ = 0 ∧
      lx2.current_token_ = Token.Eof := by
    unfold NextToken ParseToken at h
    split at h
    · rename_i token lx3 hp
      simp only [Except.ok.injEq, Prod.mk.injEq] at h
      obtain ⟨rfl, rfl⟩ := h
      have := ParseTokenLoop_eof hp
      exact ⟨this.1, this.2.1, this.2.2, rfl⟩
    · cases h
  obtain ⟨hin, hflag, hdepth, htok⟩ := hstate
  have hnext := NextToken_at_end lx2 hin hflag hdepth htok
  refine ⟨hdepth, hflag, hin, htok, hnext, ?_⟩
  intro n
  induction n with
  | zero => rfl
  | succ n ih => simp only [NextTokens, hnext, ih, List.replicate_succ]

/-- C14 at scenario S1: the request after the last `Newline` returns `Eof`, and
so do three more requests, in the same state. -/
theorem C14_eof_is_permanent_witness :
    NextToken S1_before_eof = .ok (Token.Eof, S1_final) ∧
    NextTokens 3 S1_final = .ok ([Token.Eof, Token.Eof, Token.Eof], S1_final) :=
  ⟨rfl, (C14_eof_is_permanent S1_before_eof S1_final rfl).2.2.2.2.2 3⟩

/-! ## One line, one level -/

theorem startsToken_ne {c : Char} (h : startsToken c = true) : c ≠ '\n' ∧ c ≠ ' ' ∧ c ≠ '#' := by
  refine ⟨?_, ?_, ?_⟩ <;> (intro hc; subst hc; revert h; decide)

theorem ParseTokenLoop_token_start (fuel : Nat) (lx : Lexer) (c : Char) (rest : List Char)
    (hin : lx.input_ = c :: rest) (hc : startsToken c = true)
    (hmid : lx.new_line_flag_ = false ∨ lx.current_indent_ = 0) :
    ∀ t lx2, ParseTokenLoop (fuel + 1) lx = .ok (t, lx2) → Plain lx t lx2 := by
  intro t lx2 h
  obtain ⟨hnl, hsp, hcom⟩ := startsToken_ne hc
  have hguard : (lx.new_line_flag_ && lx.current_indent_ != 0) = false := by
    rcases hmid with h0 | h0 <;> simp [h0]
  rw [ParseTokenLoop] at h
  simp only [hin, if_neg hnl, if_neg hsp, hguard, Bool.false_eq_true, if_false,
    if_neg hcom] at h
  by_cases h1 : (isalpha c || decide (c = '_')) = true
  · rw [if_pos h1] at h
    have := ParseId_plain h
    exact ⟨this.1, this.2.1, this.2.2.1, this.2.2.2⟩
  · rw [if_neg h1] at h
    by_cases h2 : isdigit c = true
    · rw [if_pos h2] at h
      have := ParseNumber_plain h
      exact ⟨this.1, this.2.1, this.2.2.1, this.2.2.2⟩
    · rw [if_neg h2] at h
      have h3 : ispunct c = true := by
        unfold startsToken at hc
        simp only [Bool.and_eq_true, Bool.or_eq_true] at hc
        rcases hc.1 with (ha | ha) | ha
        · exact absurd (by simpa using ha) h1
        · exact absurd ha h2
        · exact ha
      rw [if_pos h3] at h
      split_ifs at h
      · have := ParseString_plain h
        exact ⟨this.1, this.2.1, this.2.2.1, this.2.2.2⟩
      · have := ParseChar_plain h
        exact ⟨this.1, this.2.1, this.2.2.1, this.2.2.2⟩

theorem ParseToken_deeper (lx : Lexer) (d : Nat) (c : Char) (rest : List Char)
    (hflag : lx.new_line_flag_ = true) (hdepth : lx.current_indent_ = d)
    (hin : lx.input_ = List.replicate (2 * (d + 1)) ' ' ++ c :: rest)
    (hsp : c ≠ ' ') (hnl : c ≠ '\n') :
    ParseToken lx = .ok (Token.Indent,
      { lx with input_ := c :: rest, current_indent_ := d + 1, new_line_flag_ := false }) := by
  have hin2 : lx.input_ = ' ' :: (List.replicate (2 * d + 1) ' ' ++ c :: rest) := by
    rw [hin, show 2 * (d + 1) = (2 * d + 1) + 1 by ring, List.replicate_succ, List.cons_append]
  unfold ParseToken
  rw [ParseTokenLoop_space_at_line_start _ lx _ hflag hin2, ParseIndentLoop_spaces,
    ParseIndentLoop]
  simp only [if_neg hnl, if_neg hsp, hdepth]
  have h1 : (1 + (2 * d + 1)) % 2 = 0 := by omega
  have h2 : (1 + (2 * d + 1)) / 2 > d := by omega
  simp only [h1, h2, if_true]
  simp

theorem ParseToken_shallower (lx : Lexer) (t : Nat) (c : Char) (rest : List Char)
    (hflag : lx.new_line_flag_ = true) (hdepth : lx.current_indent_ = t + 2)
    (hin : lx.input_ = List.replicate (2 * (t + 1)) ' ' ++ c :: rest)
    (hsp : c ≠ ' ') (hnl : c ≠ '\n') :
    ParseToken lx = .ok (Token.Dedent,
      { lx with input_ := c :: rest, current_indent_ := t + 1, new_line_flag_ := false }) := by
  have hin2 : lx.input_ = ' ' :: (List.replicate (2 * t + 1) ' ' ++ c :: rest) := by
    rw [hin, show 2 * (t + 1) = (2 * t + 1) + 1 by ring, List.replicate_succ, List.cons_append]
  unfold ParseToken
  rw [ParseTokenLoop_space_at_line_start _ lx _ hflag hin2, ParseIndentLoop_spaces,
    ParseIndentLoop]
  simp only [if_neg hnl, if_neg hsp, hdepth]
  have h1 : (1 + (2 * t + 1)) % 2 = 0 := by omega
  have h2 : ¬ (1 + (2 * t + 1)) / 2 > t + 2 := by omega
  have h3 : (1 + (2 * t + 1)) / 2 < t + 2 := by omega
  have hs : size_dec (t + 2) = t + 1 := by simp [size_dec]
  have h4 : ¬ (1 + (2 * t + 1)) / 2 < t + 1 := by omega
  simp only [h1, h2, h3, hs, h4, if_true, if_false, ParseDedent]
  simp

theorem ParseToken_to_depth_zero (lx : Lexer) (c : Char) (rest : List Char)
    (hflag : lx.new_line_flag_ = true) (hdepth : lx.current_indent_ = 1)
    (hin : lx.input_ = c :: rest) (hsp : c ≠ ' ') (hnl : c ≠ '\n') :
    ParseToken lx = .ok (Token.Dedent, { lx with current_indent_ := 0 }) := by
  unfold ParseToken
  rw [ParseTokenLoop]
  simp only [hin, if_neg hnl, if_neg hsp, hflag, hdepth, ParseDedent, size_dec]
  simp

theorem ParseToken_same_level (lx : Lexer) (d : Nat) (c : Char) (rest : List Char)
    (hflag : lx.new_line_flag_ = true) (hdepth : lx.current_indent_ = d)
    (hin : lx.input_ = List.replicate (2 * d) ' ' ++ c :: rest) (hc : startsToken c = true) :
    ∀ t lx2, ParseToken lx = .ok (t, lx2) →
      t ≠ Token.Indent ∧ t ≠ Token.Dedent ∧ lx2.current_indent_ = d := by
  intro t lx2 h
  obtain ⟨hnl, hsp, _⟩ := startsToken_ne hc
  cases d with
  | zero =>
    simp only [Nat.mul_zero, List.replicate_zero, List.nil_append] at hin
    have := ParseTokenLoop_token_start _ lx c rest hin hc (Or.inr hdepth) t lx2 h
    exact ⟨this.1, this.2.1, this.2.2.2.trans hdepth⟩
  | succ d =>
    have hin2 : lx.input_ = ' ' :: (List.replicate (2 * d + 1) ' ' ++ c :: rest) := by
      rw [hin, show 2 * (d + 1) = (2 * d + 1) + 1 by ring, List.replicate_succ,
        List.cons_append]
    unfold ParseToken at h
    rw [ParseTokenLoop_space_at_line_start _ lx _ hflag hin2, ParseIndentLoop_spaces,
      ParseIndentLoop] at h
    simp only [if_neg hnl, if_neg hsp, hdepth] at h
    have h1 : (1 + (2 * d + 1)) % 2 = 0 := by omega
    have h2 : ¬ (1 + (2 * d + 1)) / 2 > d + 1 := by omega
    have h3 : ¬ (1 + (2 * d + 1)) / 2 < d + 1 := by omega
    simp only [h1, h2, h3, if_true, if_false] at h
    have hlen : lx.input_.length = (2 * d + 2 + rest.length) + 1 := by
      rw [hin2]
      simp only [List.length_cons, List.length_append, List.length_replicate]
      omega
    rw [hlen] at h
    have := ParseTokenLoop_token_start _ _ c rest rfl hc (Or.inl rfl) t lx2 h
    exact ⟨this.1, this.2.1, this.2.2.2⟩

/-- C13: lexing the input of scenario S1 yields exactly the expected sixteen
tokens.  In general, from the start of a line at open depth `d` and with a
token-starting character `c` after the leading spaces: a line with `2 * (d + 1)`
spaces gives exactly one `Indent` (the request after it returns neither `Indent`
nor `Dedent`); a line with `2 * d` spaces gives neither `Indent` nor `Dedent`
and keeps the depth; and at depth `d + 1` a line with `2 * d` spaces gives
exactly one `Dedent` and leaves depth `d`. -/
theorem C13_scenario_S1_token_sequence :
    Lexer.tokens 16 S1_input = .ok (S1_tokens, S1_final) ∧
    (∀ (lx : Lexer) (d : Nat) (c : Char) (rest : List Char),
      lx.new_line_flag_ = true → lx.current_indent_ = d →
      lx.input_ = List.replicate (2 * (d + 1)) ' ' ++ c :: rest → startsToken c = true →
      ∃ lx1, ParseToken lx = .ok (Token.Indent, lx1) ∧ lx1.current_indent_ = d + 1 ∧
        ∀ t lx2, ParseToken lx1 = .ok (t, lx2) → t ≠ Token.Indent ∧ t ≠ Token.Dedent) ∧
    (∀ (lx : Lexer) (d : Nat) (c : Char) (rest : List Char),
      lx.new_line_flag_ = true → lx.current_indent_ = d →
      lx.input_ = List.replicate (2 * d) ' ' ++ c :: rest → startsToken c = true →
      ∀ t lx2, ParseToken lx = .ok (t, lx2) →
        t ≠ Token.Indent ∧ t ≠ Token.Dedent ∧ lx2.current_indent_ = d) ∧
    (∀ (lx : Lexer) (d : Nat) (c : Char) (rest : List Char),
      lx.new_line_flag_ = true → lx.current_indent_ = d + 1 →
      lx.input_ = List.replicate (2 * d) ' ' ++ c :: rest → startsToken c = true →
      ∃ lx1, ParseToken lx = .ok (Token.Dedent, lx1) ∧ lx1.current_indent_ = d ∧
        ∀ t lx2, ParseToken lx1 = .ok (t, lx2) → t ≠ Token.Indent ∧ t ≠ Token.Dedent) := by
  refine ⟨rfl, ?_, ?_, ?_⟩
  · intro lx d c rest hflag hdepth hin hc
    obtain ⟨hnl, hsp, _⟩ := startsToken_ne hc
    refine ⟨_, ParseToken_deeper lx d c rest hflag hdepth hin hsp hnl, rfl, ?_⟩
    intro t lx2 h
    have := ParseTokenLoop_token_start _ _ c rest rfl hc (Or.inl rfl) t lx2 h
    exact ⟨this.1, this.2.1⟩
  · intro lx d c rest hflag hdepth hin hc
    exact ParseToken_same_level lx d c rest hflag hdepth hin hc
  · intro lx d c rest hflag hdepth hin hc
    obtain ⟨hnl, hsp, _⟩ := startsToken_ne hc
    cases d with
    | zero =>
      simp only [Nat.mul_zero, List.replicate_zero, List.nil_append] at hin
      refine ⟨_, ParseToken_to_depth_zero lx c rest hflag hdepth hin hsp hnl, rfl, ?_⟩
      intro t lx2 h
      have := ParseTokenLoop_token_start _ { lx with current_indent_ := 0 } c rest hin hc
        (Or.inr rfl) t lx2 h
      exact ⟨this.1, this.2.1⟩
    | succ d =>
      refine ⟨_, ParseToken_shallower lx d c rest hflag hdepth hin hsp hnl, rfl, ?_⟩
      intro t lx2 h
      have := ParseTokenLoop_token_start _ _ c rest rfl hc (Or.inl rfl) t lx2 h
      exact ⟨this.1, this.2.1⟩

/-! ## Identifiers and reserved words -/

theorem lookupWord_some_mem {spelling : String} {token : Token} :
    ∀ table : List (String × Token), lookupWord spelling table = some token →
      (spelling, token) ∈ table := by
  intro table
  induction table with
  | nil => intro h; cases h
  | cons p rest ih =>
    intro h
    obtain ⟨word, tok⟩ := p
    rw [lookupWord] at h
    split_ifs at h with hw
    · cases h
      subst hw
      exact List.mem_cons_self _ _
    · exact List.mem_cons_of_mem _ (ih h)

theorem lookupWord_none {spelling : String} :
    ∀ table : List (String × Token), lookupWord spelling table = none →
      ∀ p ∈ table, p.1 ≠ spelling := by
  intro table
  induction table with
  | nil => intro _ p hp; cases hp
  | cons q rest ih =>
    intro h p hp
    obtain ⟨word, tok⟩ := q
    rw [lookupWord] at h
    split_ifs at h with hw
    rcases List.mem_cons.1 hp with rfl | hp2
    · exact hw
    · exact ih h p hp2

theorem reserved_words_spec : ∀ p ∈ reserved_words,
    p.1 ∈ key_words_ ∧ ∀ lx : Lexer, ParseKeyWord lx p.1 = .ok (p.2, lx) := by
  intro p hp
  simp only [reserved_words, List.mem_cons, List.mem_singleton, List.not_mem_nil,
    or_false] at hp
  rcases hp with rfl | rfl | rfl | rfl | rfl | rfl | rfl | rfl | rfl | rfl | rfl | rfl <;>
    exact ⟨by decide, fun _ => rfl⟩

theorem Token_ite {P : Token → Prop} {c : Prop} [Decidable c] {a b : Result}
    (ha : ∀ t lx2, a = .ok (t, lx2) → P t) (hb : ∀ t lx2, b = .ok (t, lx2) → P t) :
    ∀ t lx2, (if c then a else b) = .ok (t, lx2) → P t := by
  by_cases hc : c
  · rw [if_pos hc]; exact ha
  · rw [if_neg hc]; exact hb

theorem ParseKeyWord_not_id (lx : Lexer) (str : String) :
    ∀ t lx2, ParseKeyWord lx str = .ok (t, lx2) → ∀ w, t ≠ Token.Id w := by
  unfold ParseKeyWord
  repeat (first
    | exact (fun t lx2 h w => by cases h; exact fun hc => by cases hc)
    | refine Token_ite ?_ ?_)
  intro t lx2 h
  cases h

theorem ParseId_not_reserved {lx lx2 : Lexer} {t : Token} (h : ParseId lx = .ok (t, lx2)) :
    ∀ w, w ∈ key_words_ → t ≠ Token.Id w := by
  intro w hw
  unfold ParseId at h
  split at h
  split_ifs at h with hk
  · exact ParseKeyWord_not_id _ _ t lx2 h w
  · cases h
    intro hc
    cases hc
    exact hk hw

theorem ParseChar_not_id {lx lx2 : Lexer} {t : Token} (h : ParseChar lx = .ok (t, lx2)) :
    ∀ w, t ≠ Token.Id w := by
  intro w
  unfold ParseChar at h
  split at h
  · cases h
  · split_ifs at h
    · exact ParseKeyWord_not_id _ _ t lx2 h w
    · cases h
      exact fun hc => by cases hc

theorem NextToken_not_reserved_id {lx lx2 : Lexer} {t : Token}
    (h : NextToken lx = .ok (t, lx2)) : ∀ w, w ∈ key_words_ → t ≠ Token.Id w := by
  intro w hw
  unfold NextToken ParseToken at h
  split at h
  · rename_i token lx3 hp
    simp only [Except.ok.injEq, Prod.mk.injEq] at h
    obtain ⟨rfl, _⟩ := h
    rcases ParseTokenLoop_source _ _ _ _ hp with
      ⟨h1, _⟩ | h1 | h1 | h1 | ⟨lx1, h1⟩ | ⟨lx1, h1⟩ | ⟨lx1, h1⟩ | ⟨lx1, h1⟩
    · rw [h1]; exact fun hc => by cases hc
    · rw [h1]; exact fun hc => by cases hc
    · rw [h1]; exact fun hc => by cases hc
    · rw [h1]; exact fun hc => by cases hc
    · exact ParseId_not_reserved h1 w hw
    · unfold ParseNumber at h1
      split at h1
      split_ifs at h1
      cases h1
      exact fun hc => by cases hc
    · unfold ParseString at h1
      split at h1
      · cases h1
      · split at h1
        · cases h1
        · cases h1
          exact fun hc => by cases hc
    · exact ParseChar_not_id h1 w
  · cases h

theorem NextTokens_not_reserved_id (n : Nat) :
    ∀ (lx lx2 : Lexer) (tokens : List Token), NextTokens n lx = .ok (tokens, lx2) →
      ∀ t ∈ tokens, ∀ w, w ∈ key_words_ → t ≠ Token.Id w := by
  induction n with
  | zero =>
    intro lx lx2 tokens h t ht
    simp only [NextTokens, Except.ok.injEq, Prod.mk.injEq] at h
    rw [← h.1] at ht
    cases ht
  | succ n ih =>
    intro lx lx2 tokens h t ht
    rw [NextTokens] at h
    split at h
    · cases h
    · rename_i token lx3 hnext
      split at h
      · cases h
      · rename_i toks lx4 hrest
        cases h
        rcases List.mem_cons.1 ht with rfl | ht2
        · exact NextToken_not_reserved_id hnext
        · exact ih _ _ _ hrest t ht2

theorem ParseIdLoop_run (rest : List Char)
    (hrest : ∀ c, rest.head? = some c → isIdChar c = false) (run : List Char) :
    ∀ acc, (∀ c ∈ run, isIdChar c = true) → ParseIdLoop acc (run ++ rest) = (acc ++ run, rest) := by
  induction run with
  | nil =>
    intro acc _
    cases rest with
    | nil => simp [ParseIdLoop]
    | cons c r =>
      have hc : isIdChar c = false := hrest c rfl
      unfold isIdChar at hc
      simp only [List.nil_append, ParseIdLoop, hc, List.append_nil]
      simp
  | cons c run ih =>
    intro acc hall
    have hc : isIdChar c = true := hall c (List.mem_cons_self _ _)
    unfold isIdChar at hc
    rw [List.cons_append, ParseIdLoop]
    simp only [hc, if_true]
    rw [ih (acc ++ [c]) (fun x hx => hall x (List.mem_cons_of_mem _ hx))]
    simp

theorem key_word_of_id_chars {run : List Char} (hall : ∀ c ∈ run, isIdChar c = true)
    (hk : String.mk run ∈ key_words_) : lookupWord (String.mk run) reserved_words ≠ none := by
  intro hnone
  have hno := lookupWord_none reserved_words hnone
  have hop : ∀ op : List Char, '=' ∈ op → String.mk run ≠ String.mk op := by
    intro op hmem heq
    have hrun : run = op := by
      have := congrArg String.data heq
      exact this
    rw [← hrun] at hmem
    have := hall '=' hmem
    revert this
    decide
  simp only [key_words_, List.mem_cons, List.mem_singleton, List.not_mem_nil, or_false] at hk
  rcases hk with h | h | h | h | h | h | h | h | h | h | h | h | h | h | h | h
  · exact hno ("class", Token.Class) (by simp [reserved_words]) h.symm
  · exact hno ("return", Token.Return) (by simp [reserved_words]) h.symm
  · exact hno ("if", Token.If) (by simp [reserved_words]) h.symm
  · exact hno ("else", Token.Else) (by simp [reserved_words]) h.symm
  · exact hno ("def", Token.Def) (by simp [reserved_words]) h.symm
  · exact hno ("print", Token.Print) (by simp [reserved_words]) h.symm
  · exact hno ("and", Token.And) (by simp [reserved_words]) h.symm
  · exact hno ("or", Token.Or) (by simp [reserved_words]) h.symm
  · exact hno ("not", Token.Not) (by simp [reserved_words]) h.symm
  · exact hop ['=', '='] (by simp) h
  · exact hop ['!', '='] (by simp) h
  · exact hop ['<', '='] (by simp) h
  · exact hop ['>', '='] (by simp) h
  · exact hno ("None", Token.None) (by simp [reserved_words]) h.symm
  · exact hno ("True", Token.True) (by simp [reserved_words]) h.symm
  · exact hno ("False", Token.False) (by simp [reserved_words]) h.symm

theorem ParseId_run (lx : Lexer) (run rest : List Char)
    (hall : ∀ c ∈ run, isIdChar c = true)
    (hrest : ∀ c, rest.head? = some c → isIdChar c = false) :
    ParseId { lx with input_ := run ++ rest } =
      .ok (wordToken (String.mk run), { lx with input_ := rest }) := by
  unfold ParseId
  simp only [ParseIdLoop_run rest hrest run [] hall, List.nil_append]
  unfold wordToken
  cases hl : lookupWord (String.mk run) reserved_words with
  | some token =>
    have hmem := lookupWord_some_mem reserved_words hl
    have hspec := reserved_words_spec _ hmem
    simp only [if_pos hspec.1, hspec.2]
  | none =>
    have hk : ¬ String.mk run ∈ key_words_ := fun hk => key_word_of_id_chars hall hk hl
    simp only [if_neg hk]

theorem lookupWord_eq_none {spelling : String} :
    ∀ table : List (String × Token), (∀ p ∈ table, p.1 ≠ spelling) →
      lookupWord spelling table = none := by
  intro table
  induction table with
  | nil => intro _; rfl
  | cons q rest ih =>
    intro h
    obtain ⟨word, tok⟩ := q
    rw [lookupWord, if_neg (h (word, tok) (List.mem_cons_self _ _))]
    exact ih fun p hp => h p (List.mem_cons_of_mem _ hp)

/-- C11: no token the lexer hands out for any input is `Id{w}` with `w` a
reserved word; an identifier run - a letter or underscore `c0` followed by the
maximal run of letters, digits and underscores - yields, in one request that
consumes exactly the run, the token `wordToken` of its spelling; and `wordToken`
is the nullary keyword token of a reserved word and `Id{spelling}` for every
other spelling (so for a longer word such as `classes` or `print1`). -/
theorem C11_reserved_words_are_never_ids :
    (∀ (input : List Char) (n : Nat) (tokens : List Token) (lx : Lexer),
      Lexer.tokens n input = .ok (tokens, lx) →
      ∀ p ∈ reserved_words, Token.Id p.1 ∉ tokens) ∧
    (∀ (lx : Lexer) (c0 : Char) (run rest : List Char),
      (lx.new_line_flag_ = false ∨ lx.current_indent_ = 0) →
      (isalpha c0 = true ∨ c0 = '_') →
      (∀ c ∈ run, isIdChar c = true) →
      (∀ c, rest.head? = some c → isIdChar c = false) →
      ParseToken { lx with input_ := c0 :: run ++ rest } =
        .ok (wordToken (String.mk (c0 :: run)),
          { lx with input_ := rest, new_line_flag_ := false })) ∧
    (∀ p ∈ reserved_words, wordToken p.1 = p.2) ∧
    (∀ spelling, (∀ p ∈ reserved_words, p.1 ≠ spelling) →
      wordToken spelling = Token.Id spelling) := by
  refine ⟨?_, ?_, ?_, ?_⟩
  · intro input n tokens lx h p hp hmem
    exact NextTokens_not_reserved_id n _ _ _ h _ hmem p.1 (reserved_words_spec p hp).1 rfl
  · intro lx c0 run rest hstart hc0 hall hrest
    have hid0 : isIdChar c0 = true := by
      unfold isIdChar
      rcases hc0 with h | h <;> simp [h]
    have hnl : c0 ≠ '\n' := by
      intro hc; subst hc; revert hid0; decide
    have hsp : c0 ≠ ' ' := by
      intro hc; subst hc; revert hid0; decide
    have hguard : (lx.new_line_flag_ && lx.current_indent_ != 0) = false := by
      rcases hstart with h | h <;> simp [h]
    have hfirst : (isalpha c0 || decide (c0 = '_')) = true := by
      rcases hc0 with h | h <;> simp [h]
    have hall2 : ∀ c ∈ c0 :: run, isIdChar c = true := by
      intro c hc
      rcases List.mem_cons.1 hc with rfl | hc
      · exact hid0
      · exact hall c hc
    have hparse := ParseId_run { lx with new_line_flag_ := false } (c0 :: run) rest hall2 hrest
    unfold ParseToken
    rw [ParseTokenLoop]
    simp only [List.cons_append, if_neg hnl, if_neg hsp, hguard, Bool.false_eq_true, if_false,
      hfirst, if_true]
    exact hparse
  · intro p hp
    simp only [reserved_words, List.mem_cons, List.mem_singleton, List.not_mem_nil,
      or_false] at hp
    rcases hp with rfl | rfl | rfl | rfl | rfl | rfl | rfl | rfl | rfl | rfl | rfl | rfl <;> rfl
  · intro spelling h
    unfold wordToken
    rw [lookupWord_eq_none reserved_words h]

/-- C11 at three runs: `class` is the keyword token, `classes` and `print1`
are identifiers with the full run as payload. -/
theorem C11_reserved_words_are_never_ids_witness :
    ParseToken (Lexer.init "class A".toList) =
      .ok (Token.Class, { Lexer.init " A".toList with new_line_flag_ := false }) ∧
    ParseToken (Lexer.init "classes A".toList) =
      .ok (Token.Id "classes", { Lexer.init " A".toList with new_line_flag_ := false }) ∧
    ParseToken (Lexer.init "print1".toList) =
      .ok (Token.Id "print1", { Lexer.init [] with new_line_flag_ := false }) :=
  ⟨C11_reserved_words_are_never_ids.2.1 (Lexer.init []) 'c' "lass".toList " A".toList
      (Or.inr rfl) (Or.inl rfl) (by decide) (by decide),
   C11_reserved_words_are_never_ids.2.1 (Lexer.init []) 'c' "lasses".toList " A".toList
      (Or.inr rfl) (Or.inl rfl) (by decide) (by decide),
   C11_reserved_words_are_never_ids.2.1 (Lexer.init []) 'p' "rint1".toList []
      (Or.inr rfl) (Or.inl rfl) (by decide) (by decide)⟩

end parse

namespace runtime

/-! ## Method resolution -/

theorem findMethod_eq_firstNamed (name : String) (methods : List Method) :
    findMethod name methods = firstNamed name methods := by
  induction methods with
  | nil => rfl
  | cons i rest ih =>
    unfold findMethod firstNamed
    by_cases h : i.name = name
    · simp [h, List.find?]
    · simp only [if_neg h, List.find?, decide_eq_false h]
      exact ih

theorem firstNamed_eq_none_iff (name : String) (methods : List Method) :
    firstNamed name methods = none ↔ ∀ i ∈ methods, i.name ≠ name := by
  unfold firstNamed
  simp [List.find?_eq_none]

theorem firstNamed_some_name {name : String} {methods : List Method} {i : Method}
    (h : firstNamed name methods = some i) : i ∈ methods ∧ i.name = name := by
  unfold firstNamed at h
  have h1 := List.find?_some h
  have h2 := List.mem_of_find?_eq_some h
  exact ⟨h2, by simpa using h1⟩

theorem GetMethod_eq_resolve : ∀ (cls : Class) (name : String),
    cls.GetMethod name = resolve name cls.chain
  | .mk _ methods_ none, name => by
    simp only [Class.GetMethod, Class.chain, resolve, Class.methods_,
      findMethod_eq_firstNamed]
    cases firstNamed name methods_ <;> rfl
  | .mk _ methods_ (some parent), name => by
    simp only [Class.GetMethod, Class.chain, resolve, Class.methods_,
      findMethod_eq_firstNamed]
    cases firstNamed name methods_ with
    | none => exact GetMethod_eq_resolve parent name
    | some i => rfl

theorem resolve_eq_none_iff (name : String) (chain : List Class) :
    resolve name chain = none ↔ ∀ cls ∈ chain, ¬ cls.defines name := by
  induction chain with
  | nil => simp [resolve]
  | cons cls ancestors ih =>
    unfold resolve
    cases h : firstNamed name cls.methods_ with
    | none =>
      have hno : ¬ cls.defines name := by
        rintro ⟨i, hi, hn⟩
        exact (firstNamed_eq_none_iff name _).1 h i hi hn
      simp [ih, hno]
    | some i =>
      have hyes : cls.defines name := ⟨i, (firstNamed_some_name h).1, (firstNamed_some_name h).2⟩
      simp [hyes]

theorem resolve_append_of_not_defined (name : String) (pre : List Class) (rest : List Class)
    (hpre : ∀ cls ∈ pre, ¬ cls.defines name) : resolve name (pre ++ rest) = resolve name rest := by
  induction pre with
  | nil => rfl
  | cons cls pre ih =>
    have h1 : firstNamed name cls.methods_ = none := by
      rw [firstNamed_eq_none_iff]
      intro i hi hn
      exact hpre cls (List.mem_cons_self _ _) ⟨i, hi, hn⟩
    simp only [List.cons_append, resolve, h1]
    exact ih fun c hc => hpre c (List.mem_cons_of_mem _ hc)

/-- C5: `Class::GetMethod` returns the first method named `name` in the method
list of the nearest class of the chain that defines `name` (`resolve` over the
chain); it returns none exactly when no class of the chain defines `name`; and
for `C` extending `B` extending `A` the result is the first method of that name
of `C` if there is one, else that of `B`, else that of `A`, else none. -/
theorem C5_GetMethod_nearest_definition (cls : Class) (name : String) :
    cls.GetMethod name = resolve name cls.chain ∧
    (cls.GetMethod name = none ↔ ∀ k ∈ cls.chain, ¬ k.defines name) ∧
    (∀ (nC nB nA : String) (mC mB mA : List Method),
      (Class.mk nC mC (some (Class.mk nB mB (some (Class.mk nA mA none))))).GetMethod name =
        match firstNamed name mC with
        | some i => some i
        | none =>
          match firstNamed name mB with
          | some i => some i
          | none => firstNamed name mA) := by
  refine ⟨GetMethod_eq_resolve cls name, ?_, ?_⟩
  · rw [GetMethod_eq_resolve]
    exact resolve_eq_none_iff name cls.chain
  · intro nC nB nA mC mB mA
    simp only [Class.GetMethod, findMethod_eq_firstNamed]

/-- C6, as stated, fails: the instance of `C` (which redefines `m` without
parameters) has no method `m` of one parameter, although its ancestor `B` has a
method named `m` with exactly one formal parameter. -/
theorem C6_HasMethod_any_class_counterexample :
    ¬ (shadow_inst.HasMethod "m" 1 = true ↔
        ∃ k ∈ shadow_inst.cls_.chain, ∃ i ∈ k.methods_,
          i.name = "m" ∧ i.formal_params.length = 1) := by
  intro h
  have hfalse : shadow_inst.HasMethod "m" 1 = false := by decide
  have hex : ∃ k ∈ shadow_inst.cls_.chain, ∃ i ∈ k.methods_,
      i.name = "m" ∧ i.formal_params.length = 1 :=
    ⟨shadow_B, by simp [shadow_inst, shadow_C, Class.chain, shadow_B],
      Method.mk "m" ["a"] ast.Statement.None, by simp [shadow_B, Class.methods_], rfl, rfl⟩
  rw [h.2 hex] at hfalse
  cases hfalse

/-- C6, amended: `HasMethod(name, argc)` is true exactly when the method the
class chain resolves `name` to - the first method of that name in the nearest
class of the chain that defines the name - has exactly `argc` formal
parameters. -/
theorem C6_HasMethod_resolved_arity (inst : ClassInstance) (name : String) (argc : Nat) :
    inst.HasMethod name argc = true ↔
      ∃ i, resolve name inst.cls_.chain = some i ∧ i.formal_params.length = argc := by
  unfold ClassInstance.HasMethod
  rw [GetMethod_eq_resolve]
  cases resolve name inst.cls_.chain with
  | none => simp
  | some i => simp

/-- C7: when the nearest class `D` of the chain of an instance that defines a
method named `m` gives it `k` formal parameters (no class before `D` in the
chain defines `m`, and the first method named `m` of `D` has `k` parameters),
`HasMethod(m, k)` is true, and for every other `argc`, whatever the ancestors
after `D` define, `HasMethod(m, argc)` is false and `Call(m, args)` with `argc`
arguments fails with "Cannot call method", the context unchanged. -/
theorem C7_shadowing_by_name_alone (exec : Exec) (context : Context) (self : Nat)
    (inst : ClassInstance) (hinst : context.instanceAt self = some inst) (m : String)
    (pre : List Class) (D : Class) (post : List Class)
    (hchain : inst.cls_.chain = pre ++ D :: post)
    (hpre : ∀ k ∈ pre, ¬ k.defines m)
    (meth : Method) (hD : firstNamed m D.methods_ = some meth) :
    inst.HasMethod m meth.formal_params.length = true ∧
    ∀ argc, argc ≠ meth.formal_params.length →
      inst.HasMethod m argc = false ∧
      ∀ actual_args : List ObjectHolder, actual_args.length = argc →
        ClassInstance.Call exec self m actual_args context =
          .fail (Failure.runtime_error "Cannot call method") context := by
  have hres : inst.cls_.GetMethod m = some meth := by
    rw [GetMethod_eq_resolve, hchain, resolve_append_of_not_defined m pre _ hpre]
    simp only [resolve, hD]
  have hhas : ∀ argc, inst.HasMethod m argc = (meth.formal_params.length == argc) := by
    intro argc
    simp only [ClassInstance.HasMethod, hres]
  refine ⟨by simp [hhas], ?_⟩
  intro argc hne
  have hno : inst.HasMethod m argc = false := by
    rw [hhas]
    simpa using fun h => hne h.symm
  refine ⟨hno, ?_⟩
  intro actual_args hlen
  simp [ClassInstance.Call, hinst, hlen, hno]

/-- C7 at the instance of `C`, whose ancestor `B` defines `m` with one
parameter: `m` is callable without arguments only. -/
theorem C7_shadowing_by_name_alone_witness :
    shadow_inst.HasMethod "m" 0 = true ∧
    shadow_inst.HasMethod "m" 1 = false ∧
    ClassInstance.Call (fun _ closure context => ExecResult.ok ObjectHolder.None closure context)
      0 "m" [ObjectHolder.Number 5] shadow_context =
        .fail (Failure.runtime_error "Cannot call method") shadow_context := by
  have h := C7_shadowing_by_name_alone
    (fun _ closure context => ExecResult.ok ObjectHolder.None closure context)
    shadow_context 0 shadow_inst rfl "m" [] shadow_C [shadow_B] rfl
    (by simp) (Method.mk "m" [] ast.Statement.None) rfl
  exact ⟨h.1, (h.2 1 (by decide)).1, (h.2 1 (by decide)).2 [ObjectHolder.Number 5] rfl⟩

end runtime

namespace runtime

/-! ## More fuel does not change a completed evaluation -/

theorem andThen_le {r r2 : ExecResult} {k k2 : ObjectHolder → Closure → Context → ExecResult}
    (hr : ¬ r.cut → r2 = r)
    (hk : ∀ v c x, ¬ (k v c x).cut → k2 v c x = k v c x)
    (h : ¬ (r.andThen k).cut) : r2.andThen k2 = r.andThen k := by
  cases r with
  | ok v c x =>
    rw [hr (by simp [ExecResult.cut])]
    exact hk v c x h
  | thrown v c x => rw [hr (by simp [ExecResult.cut])]; rfl
  | fail e c x =>
    have hne : ¬ (ExecResult.fail e c x).cut := h
    rw [hr hne]; rfl

theorem within_le {α : Type} {r r2 : Outcome α} {closure : Closure}
    {k k2 : α → Context → ExecResult}
    (hr : ¬ r.cut → r2 = r)
    (hk : ∀ v x, ¬ (k v x).cut → k2 v x = k v x)
    (h : ¬ (r.within closure k).cut) : r2.within closure k2 = r.within closure k := by
  cases r with
  | ok v x =>
    rw [hr (by simp [Outcome.cut])]
    exact hk v x h
  | thrown v x => rw [hr (by simp [Outcome.cut])]; rfl
  | fail e x =>
    have hne : ¬ (Outcome.fail e x : Outcome α).cut := by
      intro hc
      apply h
      cases e <;> simp_all [Outcome.cut, Outcome.within, ExecResult.cut]
    rw [hr hne]; rfl

theorem Call_le {exec1 exec2 : Exec} (hle : Exec.le exec1 exec2) (self : Nat) (method : String)
    (actual_args : List ObjectHolder) (context : Context)
    (h : ¬ (ClassInstance.Call exec1 self method actual_args context).cut) :
    ClassInstance.Call exec2 self method actual_args context =
      ClassInstance.Call exec1 self method actual_args context := by
  unfold ClassInstance.Call at h ⊢
  cases hi : context.instanceAt self with
  | none => rfl
  | some inst =>
    simp only [hi] at h ⊢
    split
    · rfl
    · rename_i hhas
      simp only [hhas, if_false] at h
      cases hg : inst.cls_.GetMethod method with
      | none => rfl
      | some temp_method =>
        simp only [hg] at h ⊢
        have hbody := hle temp_method.body
          (bindArgs (Closure.assign [] "self" (ObjectHolder.ClassInstance self))
            temp_method.formal_params actual_args) context
        revert h hbody
        cases exec1 temp_method.body
          (bindArgs (Closure.assign [] "self" (ObjectHolder.ClassInstance self))
            temp_method.formal_params actual_args) context with
        | ok v c x => intro h hbody; rw [hbody (by simp [ExecResult.cut])]
        | thrown v c x => intro h hbody; rw [hbody (by simp [ExecResult.cut])]
        | fail e c x =>
          intro h hbody
          have hne : ¬ (ExecResult.fail e c x).cut := by
            intro hc
            apply h
            cases e <;> simp_all [Outcome.cut, ExecResult.cut]
          rw [hbody hne]

theorem Print_le {exec1 exec2 : Exec} (hle : Exec.le exec1 exec2) (depth : Nat) :
    ∀ (depth2 : Nat) (obj : ObjectHolder) (context : Context), depth ≤ depth2 →
      ¬ (Print exec1 depth obj context).cut →
      Print exec2 depth2 obj context = Print exec1 depth obj context := by
  induction depth with
  | zero =>
    intro depth2 obj context _ h
    cases obj <;> cases depth2 <;> first | rfl | (exfalso; apply h; simp [Print, Outcome.cut])
  | succ depth ih =>
    intro depth2 obj context hd h
    cases depth2 with
    | zero => omega
    | succ depth2 =>
      cases obj with
      | ClassInstance addr =>
        simp only [Print] at h ⊢
        cases hi : context.instanceAt addr with
        | none => rfl
        | some inst =>
          simp only [hi] at h ⊢
          split
          · rename_i hstr
            simp only [hstr, if_true] at h
            have hcall := Call_le hle addr "__str__" [] context
            revert h hcall
            cases ClassInstance.Call exec1 addr "__str__" [] context with
            | ok res x =>
              intro h hcall
              rw [hcall (by simp [Outcome.cut])]
              exact ih depth2 res x (by omega) h
            | thrown v x => intro h hcall; rw [hcall (by simp [Outcome.cut])]
            | fail e x =>
              intro h hcall
              have hne : ¬ (Outcome.fail e x : Outcome ObjectHolder).cut := by
                intro hc
                apply h
                cases e <;> simp_all [Outcome.cut]
              rw [hcall hne]
          · rfl
      | _ => rfl

theorem Equal_le {exec1 exec2 : Exec} (hle : Exec.le exec1 exec2) (lhs rhs : ObjectHolder)
    (context : Context) (h : ¬ (Equal exec1 lhs rhs context).cut) :
    Equal exec2 lhs rhs context = Equal exec1 lhs rhs context := by
  cases lhs with
  | ClassInstance addr =>
    unfold Equal at h ⊢
    simp only at h ⊢
    cases hi : context.instanceAt addr with
    | none => rfl
    | some inst =>
      simp only [hi] at h ⊢
      split
      · rename_i hhas
        simp only [hhas, if_true] at h
        have hcall := Call_le hle addr "__eq__" [rhs] context
        revert h hcall
        cases ClassInstance.Call exec1 addr "__eq__" [rhs] context with
        | ok res x => intro h hcall; rw [hcall (by simp [Outcome.cut])]
        | thrown v x => intro h hcall; rw [hcall (by simp [Outcome.cut])]
        | fail e x =>
          intro h hcall
          have hne : ¬ (Outcome.fail e x : Outcome ObjectHolder).cut := by
            intro hc
            apply h
            cases e <;> simp_all [Outcome.cut]
          rw [hcall hne]
      · rfl
  | _ => cases rhs <;> rfl

theorem Less_le {exec1 exec2 : Exec} (hle : Exec.le exec1 exec2) (lhs rhs : ObjectHolder)
    (context : Context) (h : ¬ (Less exec1 lhs rhs context).cut) :
    Less exec2 lhs rhs context = Less exec1 lhs rhs context := by
  cases lhs with
  | ClassInstance addr =>
    unfold Less at h ⊢
    simp only at h ⊢
    cases hi : context.instanceAt addr with
    | none => rfl
    | some inst =>
      simp only [hi] at h ⊢
      split
      · rename_i hhas
        simp only [hhas, if_true] at h
        have hcall := Call_le hle addr "__lt__" [rhs] context
        revert h hcall
        cases ClassInstance.Call exec1 addr "__lt__" [rhs] context with
        | ok res x => intro h hcall; rw [hcall (by simp [Outcome.cut])]
        | thrown v x => intro h hcall; rw [hcall (by simp [Outcome.cut])]
        | fail e x =>
          intro h hcall
          have hne : ¬ (Outcome.fail e x : Outcome ObjectHolder).cut := by
            intro hc
            apply h
            cases e <;> simp_all [Outcome.cut]
          rw [hcall hne]
      · rfl
  | _ => cases rhs <;> rfl

theorem Outcome_cut_elim {α : Type} {r : Outcome α} (hc : r.cut) :
    ∃ x, r = .fail Failure.out_of_fuel x := by
  cases r with
  | ok v x => simp [Outcome.cut] at hc
  | thrown v x => simp [Outcome.cut] at hc
  | fail e x =>
    cases e <;> simp [Outcome.cut] at hc
    exact ⟨x, rfl⟩

theorem NotEqual_le {exec1 exec2 : Exec} (hle : Exec.le exec1 exec2) (lhs rhs : ObjectHolder)
    (context : Context) (h : ¬ (NotEqual exec1 lhs rhs context).cut) :
    NotEqual exec2 lhs rhs context = NotEqual exec1 lhs rhs context := by
  unfold NotEqual at h ⊢
  have hne : ¬ (Equal exec1 lhs rhs context).cut := by
    intro hc
    obtain ⟨x, hx⟩ := Outcome_cut_elim hc
    apply h
    rw [hx]
    simp [Outcome.cut]
  rw [Equal_le hle lhs rhs context hne]

theorem Greater_le {exec1 exec2 : Exec} (hle : Exec.le exec1 exec2) (lhs rhs : ObjectHolder)
    (context : Context) (h : ¬ (Greater exec1 lhs rhs context).cut) :
    Greater exec2 lhs rhs context = Greater exec1 lhs rhs context := by
  unfold Greater at h ⊢
  have hne : ¬ (Less exec1 lhs rhs context).cut := by
    intro hc
    obtain ⟨x, hx⟩ := Outcome_cut_elim hc
    apply h
    rw [hx]
    simp [Outcome.cut]
  rw [Less_le hle lhs rhs context hne]
  cases hl : Less exec1 lhs rhs context with
  | ok value x =>
    simp only [hl] at h ⊢
    cases value with
    | false => simpa using NotEqual_le hle lhs rhs x (by simpa using h)
    | true => rfl
  | thrown v x => rfl
  | fail e x => rfl

theorem LessOrEqual_le {exec1 exec2 : Exec} (hle : Exec.le exec1 exec2)
    (lhs rhs : ObjectHolder) (context : Context)
    (h : ¬ (LessOrEqual exec1 lhs rhs context).cut) :
    LessOrEqual exec2 lhs rhs context = LessOrEqual exec1 lhs rhs context := by
  unfold LessOrEqual at h ⊢
  have hne : ¬ (Greater exec1 lhs rhs context).cut := by
    intro hc
    obtain ⟨x, hx⟩ := Outcome_cut_elim hc
    apply h
    rw [hx]
    simp [Outcome.cut]
  rw [Greater_le hle lhs rhs context hne]

theorem GreaterOrEqual_le {exec1 exec2 : Exec} (hle : Exec.le exec1 exec2)
    (lhs rhs : ObjectHolder) (context : Context)
    (h : ¬ (GreaterOrEqual exec1 lhs rhs context).cut) :
    GreaterOrEqual exec2 lhs rhs context = GreaterOrEqual exec1 lhs rhs context := by
  unfold GreaterOrEqual at h ⊢
  have hne : ¬ (Less exec1 lhs rhs context).cut := by
    intro hc
    obtain ⟨x, hx⟩ := Outcome_cut_elim hc
    apply h
    rw [hx]
    simp [Outcome.cut]
  rw [Less_le hle lhs rhs context hne]

end runtime

namespace ast

open runtime

theorem Comparator_apply_le {exec1 exec2 : Exec} (hle : Exec.le exec1 exec2) (cmp : Comparator)
    (lhs rhs : ObjectHolder) (context : Context)
    (h : ¬ (cmp.apply exec1 lhs rhs context).cut) :
    cmp.apply exec2 lhs rhs context = cmp.apply exec1 lhs rhs context := by
  cases cmp
  · exact Equal_le hle lhs rhs context h
  · exact NotEqual_le hle lhs rhs context h
  · exact Less_le hle lhs rhs context h
  · exact Greater_le hle lhs rhs context h
  · exact LessOrEqual_le hle lhs rhs context h
  · exact GreaterOrEqual_le hle lhs rhs context h

theorem ExecuteArgs_le {exec1 exec2 : Exec} (hle : Exec.le exec1 exec2) (args : List Statement) :
    ∀ (fields : List ObjectHolder) (closure : Closure) (context : Context)
      (k k2 : List ObjectHolder → Closure → Context → ExecResult),
      (∀ f c x, ¬ (k f c x).cut → k2 f c x = k f c x) →
      ¬ (ExecuteArgs exec1 args fields closure context k).cut →
      ExecuteArgs exec2 args fields closure context k2 =
        ExecuteArgs exec1 args fields closure context k := by
  induction args with
  | nil =>
    intro fields closure context k k2 hk h
    exact hk _ _ _ h
  | cons arg rest ih =>
    intro fields closure context k k2 hk h
    simp only [ExecuteArgs] at h ⊢
    exact andThen_le (hle arg closure context) (fun v c x hc => ih _ c x k k2 hk hc) h

theorem Compound_loop_le {exec1 exec2 : Exec} (hle : Exec.le exec1 exec2)
    (args : List Statement) :
    ∀ (closure : Closure) (context : Context),
      ¬ (Compound.loop exec1 args closure context).cut →
      Compound.loop exec2 args closure context = Compound.loop exec1 args closure context := by
  induction args with
  | nil => intro closure context _; rfl
  | cons arg rest ih =>
    intro closure context h
    simp only [Compound.loop] at h ⊢
    exact andThen_le (hle arg closure context) (fun _ c x hc => ih c x hc) h

theorem Print_loop_le {exec1 exec2 : Exec} (hle : Exec.le exec1 exec2) (depth depth2 : Nat)
    (hd : depth ≤ depth2) (args : List Statement) :
    ∀ (first_iter : Bool) (closure : Closure) (context : Context),
      ¬ (Print.loop exec1 depth args first_iter closure context).cut →
      Print.loop exec2 depth2 args first_iter closure context =
        Print.loop exec1 depth args first_iter closure context := by
  induction args with
  | nil => intro first_iter closure context _; rfl
  | cons ptr rest ih =>
    intro first_iter closure context h
    simp only [Print.loop] at h ⊢
    refine andThen_le (hle ptr closure context) ?_ h
    intro obj c x hc
    cases obj with
    | None => exact ih _ _ _ hc
    | _ =>
      exact within_le (Print_le hle depth depth2 _ _ hd) (fun text x2 hc2 => ih _ _ _ hc2) hc

theorem ExecuteNode_le {exec1 exec2 : Exec} (hle : Exec.le exec1 exec2) (depth depth2 : Nat)
    (hd : depth ≤ depth2) (stmt : Statement) (closure : Closure) (context : Context)
    (h : ¬ (ExecuteNode exec1 depth stmt closure context).cut) :
    ExecuteNode exec2 depth2 stmt closure context =
      ExecuteNode exec1 depth stmt closure context := by
  cases stmt with
  | NumericConst value => rfl
  | StringConst value => rfl
  | BoolConst value => rfl
  | None => rfl
  | Assignment var_ rv_ =>
    exact andThen_le (hle rv_ closure context) (fun _ _ _ _ => rfl) h
  | VariableValue ids_ => rfl
  | Print args_ => exact Print_loop_le hle depth depth2 hd args_ true closure context h
  | MethodCall object_ method_ args_ =>
    refine andThen_le (hle object_ closure context) ?_ h
    intro obj c x hc
    cases obj with
    | ClassInstance addr =>
      simp only at hc ⊢
      cases hi : x.instanceAt addr with
      | none => rfl
      | some inst =>
        simp only [hi] at hc ⊢
        split
        · rename_i hhas
          simp only [hhas, if_true] at hc
          refine ExecuteArgs_le hle args_ [] c x _ _ ?_ hc
          intro f c3 x3 hc3
          exact within_le (Call_le hle addr method_ f x3) (fun _ _ _ => rfl) hc3
        · rfl
    | _ => rfl
  | Stringify arg_ =>
    cases arg_ with
    | none => rfl
    | some arg =>
      refine andThen_le (hle arg closure context) ?_ h
      intro obj c x hc
      cases obj with
      | None => rfl
      | _ => exact within_le (Print_le hle depth depth2 _ _ hd) (fun _ _ _ => rfl) hc
  | Add lhs_ rhs_ =>
    refine andThen_le (hle lhs_ closure context) ?_ h
    intro lhs c x hc
    refine andThen_le (hle rhs_ c x) ?_ hc
    intro rhs c3 x3 hc3
    cases lhs with
    | ClassInstance addr =>
      simp only at hc3 ⊢
      cases hi : x3.instanceAt addr with
      | none => rfl
      | some inst =>
        simp only [hi] at hc3 ⊢
        split
        · rename_i hhas
          simp only [hhas, if_true] at hc3
          exact within_le (Call_le hle addr "__add__" [rhs] x3) (fun _ _ _ => rfl) hc3
        · rfl
    | _ => cases rhs <;> rfl
  | Sub lhs_ rhs_ =>
    refine andThen_le (hle lhs_ closure context) ?_ h
    intro lhs c x hc
    exact andThen_le (hle rhs_ c x) (fun _ _ _ _ => rfl) hc
  | Mult lhs_ rhs_ =>
    refine andThen_le (hle lhs_ closure context) ?_ h
    intro lhs c x hc
    exact andThen_le (hle rhs_ c x) (fun _ _ _ _ => rfl) hc
  | Div lhs_ rhs_ =>
    refine andThen_le (hle lhs_ closure context) ?_ h
    intro lhs c x hc
    exact andThen_le (hle rhs_ c x) (fun _ _ _ _ => rfl) hc
  | Compound args_ => exact Compound_loop_le hle args_ closure context h
  | Return statement_ =>
    exact andThen_le (hle statement_ closure context) (fun _ _ _ _ => rfl) h
  | ClassDefinition cls_ => rfl
  | FieldAssignment object_ field_name_ rv_ =>
    refine andThen_le (fun _ => rfl) ?_ h
    intro obj c x hc
    exact andThen_le (hle rv_ c x) (fun _ _ _ _ => rfl) hc
  | IfElse condition_ if_body_ else_body_ =>
    refine andThen_le (hle condition_ closure context) ?_ h
    intro cond c x hc
    simp only at hc ⊢
    split
    · rename_i ht
      simp only [ht, if_true] at hc
      exact andThen_le (hle if_body_ c x) (fun _ _ _ _ => rfl) hc
    · rename_i hf
      simp only [hf] at hc
      cases else_body_ with
      | none => rfl
      | some else_body =>
        exact andThen_le (hle else_body c x) (fun _ _ _ _ => rfl) (by simpa using hc)
  | Or lhs_ rhs_ =>
    refine andThen_le (hle lhs_ closure context) ?_ h
    intro lhs c x hc
    simp only at hc ⊢
    split
    · rfl
    · rename_i hf
      simp only [hf] at hc
      exact andThen_le (hle rhs_ c x) (fun _ _ _ _ => rfl) (by simpa using hc)
  | And lhs_ rhs_ =>
    refine andThen_le (hle lhs_ closure context) ?_ h
    intro lhs c x hc
    simp only at hc ⊢
    split
    · rename_i ht
      simp only [ht, if_true] at hc
      exact andThen_le (hle rhs_ c x) (fun _ _ _ _ => rfl) hc
    · rfl
  | Not arg_ =>
    exact andThen_le (hle arg_ closure context) (fun _ _ _ _ => rfl) h
  | Comparison cmp_ lhs_ rhs_ =>
    refine andThen_le (hle lhs_ closure context) ?_ h
    intro lhs c x hc
    refine andThen_le (hle rhs_ c x) ?_ hc
    intro rhs c3 x3 hc3
    exact within_le (Comparator_apply_le hle cmp_ lhs rhs x3) (fun _ _ _ => rfl) hc3
  | NewInstance cls_inst_ args_ =>
    simp only [ExecuteNode] at h ⊢
    cases hi : context.instanceAt cls_inst_ with
    | none => rfl
    | some inst =>
      simp only [hi] at h ⊢
      split
      · rename_i hhas
        simp only [hhas, if_true] at h
        refine ExecuteArgs_le hle args_ [] closure context _ _ ?_ h
        intro f c3 x3 hc3
        exact within_le (Call_le hle cls_inst_ "__init__" f x3) (fun _ _ _ => rfl) hc3
      · rfl
  | MethodBody body_ =>
    simp only [ExecuteNode] at h ⊢
    have hb := hle body_ closure context
    revert h hb
    cases exec1 body_ closure context with
    | ok v c x => intro h hb; rw [hb (by simp [ExecResult.cut])]
    | thrown v c x => intro h hb; rw [hb (by simp [ExecResult.cut])]
    | fail e c x =>
      intro h hb
      have hne : ¬ (ExecResult.fail e c x).cut := h
      rw [hb hne]

theorem Execute_le_succ (fuel : Nat) : Exec.le (Execute fuel) (Execute (fuel + 1)) := by
  induction fuel with
  | zero =>
    intro stmt closure context h
    exact absurd (by simp [Execute, ExecResult.cut]) h
  | succ fuel ih =>
    intro stmt closure context h
    exact ExecuteNode_le ih fuel (fuel + 1) (Nat.le_succ fuel) stmt closure context h

/-- An evaluation that is completed with `fuel` gives the same result with any
larger bound: the bound only decides whether the evaluation is cut short. -/
theorem Execute_mono {fuel fuel2 : Nat} (hle : fuel ≤ fuel2) (stmt : Statement)
    (closure : Closure) (context : Context)
    (h : ¬ (Execute fuel stmt closure context).cut) :
    Execute fuel2 stmt closure context = Execute fuel stmt closure context := by
  induction fuel2 with
  | zero =>
    have : fuel = 0 := by omega
    subst this
    rfl
  | succ fuel2 ih =>
    by_cases heq : fuel = fuel2 + 1
    · subst heq; rfl
    · have h2 := ih (by omega)
      rw [← h2] at h ⊢
      exact Execute_le_succ fuel2 stmt closure context h

end ast

namespace ast

open runtime

/-! ## `Return` and `MethodBody` -/

theorem Execute_succ (fuel : Nat) (stmt : Statement) (closure : Closure) (context : Context) :
    Execute (fuel + 1) stmt closure context =
      ExecuteNode (Execute fuel) fuel stmt closure context := rfl

theorem TakesReturn_thrown {fuel : Nat} {body : Statement} {closure : Closure}
    {context : Context} {value : ObjectHolder} {closure2 : Closure} {context2 : Context}
    (h : TakesReturn fuel body closure context value closure2 context2) :
    Execute fuel body closure context = .thrown value closure2 context2 := by
  induction h with
  | direct he =>
    simp only [Execute_succ, ExecuteNode, he, ExecResult.andThen]
  | compound_here _ ih =>
    simp only [Execute_succ, ExecuteNode, Compound.loop, ih, ExecResult.andThen]
  | compound_later hs _ ih =>
    simp only [Execute_succ, ExecuteNode, Compound.loop, hs, ExecResult.andThen] at ih ⊢
    exact ih
  | if_body hc ht _ ih =>
    simp only [Execute_succ, ExecuteNode, hc, ExecResult.andThen, ht, if_true, ih]
  | else_body hc hf _ ih =>
    simp only [Execute_succ, ExecuteNode, hc, ExecResult.andThen, hf, ih]
    simp

/-- C2: when the body of a `MethodBody` takes a `Return(e)` - directly or nested
at any depth inside `Compound` and `IfElse` nodes - `MethodBody::Execute` returns
the handle `e` evaluated to, with the scope and the context (output stream
included) exactly as they were when the `Return` unwound, whatever statements
follow the `Return`; when the body returns normally, `MethodBody::Execute`
returns the empty handle.  Both hold for every bound `fuel2` above the one
within which the body was evaluated. -/
theorem C2_return_unwinds_to_method_body (fuel : Nat) (body : Statement) (closure : Closure)
    (context : Context) :
    (∀ value closure2 context2,
      TakesReturn fuel body closure context value closure2 context2 →
      ∀ fuel2, fuel < fuel2 →
        Execute fuel2 (.MethodBody body) closure context = .ok value closure2 context2) ∧
    (∀ w closure2 context2,
      Execute fuel body closure context = .ok w closure2 context2 →
      ∀ fuel2, fuel < fuel2 →
        Execute fuel2 (.MethodBody body) closure context =
          .ok ObjectHolder.None closure2 context2) := by
  constructor
  · intro value closure2 context2 h fuel2 hlt
    have h1 : Execute (fuel + 1) (.MethodBody body) closure context =
        .ok value closure2 context2 := by
      simp only [Execute_succ, ExecuteNode, TakesReturn_thrown h]
    rw [Execute_mono hlt _ _ _ (by simp [h1, ExecResult.cut]), h1]
  · intro w closure2 context2 h fuel2 hlt
    have h1 : Execute (fuel + 1) (.MethodBody body) closure context =
        .ok ObjectHolder.None closure2 context2 := by
      simp only [Execute_succ, ExecuteNode, h]
    rw [Execute_mono hlt _ _ _ (by simp [h1, ExecResult.cut]), h1]

/-- C2 at `return_body`: the `return 5` inside the `if` ends the method with 5
after `print 1` alone; neither `print 2` nor `print 3` runs. -/
theorem C2_return_unwinds_to_method_body_witness :
    TakesReturn 5 return_body [] empty_context (ObjectHolder.Number 5) []
      { output := "1\n", objects := [] } ∧
    Execute 6 (.MethodBody return_body) [] empty_context =
      .ok (ObjectHolder.Number 5) [] { output := "1\n", objects := [] } := by
  have ht : TakesReturn 5 return_body [] empty_context (ObjectHolder.Number 5) []
      { output := "1\n", objects := [] } :=
    TakesReturn.compound_later
      (show Execute 4 (.Print [.NumericConst 1]) [] empty_context =
        .ok ObjectHolder.None [] { output := "1\n", objects := [] } from rfl)
      (TakesReturn.compound_here
        (TakesReturn.if_body
          (show Execute 3 (.BoolConst true) [] { output := "1\n", objects := [] } =
            .ok (ObjectHolder.Bool true) [] { output := "1\n", objects := [] } from rfl) rfl
          (TakesReturn.compound_here (TakesReturn.direct rfl))))
  exact ⟨ht, (C2_return_unwinds_to_method_body 5 return_body [] empty_context).1 _ _ _ ht 6
    (by decide)⟩

/-! ## `And` and `Or` -/

/-- C9: let the left operand evaluate to `v`.  `And(l, r)`: if `v` is falsy
the result is `Bool(false)` with scope and context as `l` left them, whatever
`r` is (it is not executed); otherwise the result is `Bool(IsTrue w)` for the
value `w` of `r`.  `Or(l, r)`: if `v` is truthy the result is `Bool(true)` with
scope and context as `l` left them, whatever `r` is; otherwise the result is
`Bool(IsTrue w)` for the value `w` of `r`.  Each holds for every bound `fuel2`
above the one within which the operands were evaluated. -/
theorem C9_and_or_short_circuit (fuel : Nat) (l r : Statement) (closure : Closure)
    (context : Context) (v : ObjectHolder) (closure1 : Closure) (context1 : Context)
    (hl : Execute fuel l closure context = .ok v closure1 context1) :
    (IsTrue v = false → ∀ fuel2, fuel < fuel2 →
      Execute fuel2 (.And l r) closure context =
        .ok (ObjectHolder.Bool false) closure1 context1) ∧
    (IsTrue v = true → ∀ w closure2 context2,
      Execute fuel r closure1 context1 = .ok w closure2 context2 →
      ∀ fuel2, fuel < fuel2 →
        Execute fuel2 (.And l r) closure context =
          .ok (ObjectHolder.Bool (IsTrue w)) closure2 context2) ∧
    (IsTrue v = true → ∀ fuel2, fuel < fuel2 →
      Execute fuel2 (.Or l r) closure context =
        .ok (ObjectHolder.Bool true) closure1 context1) ∧
    (IsTrue v = false → ∀ w closure2 context2,
      Execute fuel r closure1 context1 = .ok w closure2 context2 →
      ∀ fuel2, fuel < fuel2 →
        Execute fuel2 (.Or l r) closure context =
          .ok (ObjectHolder.Bool (IsTrue w)) closure2 context2) := by
  have lift : ∀ (stmt : Statement) (res : ObjectHolder) (c : Closure) (x : Context),
      Execute (fuel + 1) stmt closure context = .ok res c x →
      ∀ fuel2, fuel < fuel2 → Execute fuel2 stmt closure context = .ok res c x := by
    intro stmt res c x h1 fuel2 hlt
    rw [Execute_mono hlt _ _ _ (by simp [h1, ExecResult.cut]), h1]
  refine ⟨?_, ?_, ?_, ?_⟩
  · intro hv
    apply lift
    simp [Execute_succ, ExecuteNode, hl, ExecResult.andThen, hv]
  · intro hv w closure2 context2 hr
    apply lift
    cases hw : IsTrue w <;>
      simp [Execute_succ, ExecuteNode, hl, ExecResult.andThen, hv, hr, hw]
  · intro hv
    apply lift
    simp [Execute_succ, ExecuteNode, hl, ExecResult.andThen, hv]
  · intro hv w closure2 context2 hr
    apply lift
    cases hw : IsTrue w <;>
      simp [Execute_succ, ExecuteNode, hl, ExecResult.andThen, hv, hr, hw]

/-- C9 at a falsy left operand of `And` and a truthy left operand of `Or`: the
right operand, which would print, leaves no trace in the output. -/
theorem C9_and_or_short_circuit_witness :
    Execute 1 (.NumericConst 0) [] empty_context = .ok (ObjectHolder.Number 0) [] empty_context ∧
    Execute 2 (.And (.NumericConst 0) noisy_operand) [] empty_context =
      .ok (ObjectHolder.Bool false) [] empty_context ∧
    Execute 2 (.Or (.StringConst "x") noisy_operand) [] empty_context =
      .ok (ObjectHolder.Bool true) [] empty_context :=
  ⟨rfl,
   (C9_and_or_short_circuit 1 (.NumericConst 0) noisy_operand [] empty_context
      (ObjectHolder.Number 0) [] empty_context rfl).1 rfl 2 (by decide),
   (C9_and_or_short_circuit 1 (.StringConst "x") noisy_operand [] empty_context
      (ObjectHolder.String "x") [] empty_context rfl).2.2.1 rfl 2 (by decide)⟩

/-! ## `VariableValue` -/

/-- C3 (the code at the failing inputs, for every bound on the evaluation): a
segment that is not bound is skipped instead of raising an error.  `a.b`, with
`a` unbound and `b` bound in the scope, evaluates to the handle bound to `b`;
`x.y`, with `x` an instance that has a field `x` and no field `y`, evaluates to
the field `x` of the instance. -/
theorem C3_unbound_segment_is_skipped (fuel : Nat) :
    Execute (fuel + 1) (.VariableValue ["a", "b"]) unbound_scope empty_context =
      .ok (ObjectHolder.Number 1) unbound_scope empty_context ∧
    Execute (fuel + 1) (.VariableValue ["x", "y"]) field_scope field_context =
      .ok (ObjectHolder.Number 7) field_scope field_context :=
  ⟨rfl, rfl⟩

/-! ## `NewInstance` -/

/-- C8 (the code at the failing input, for every bound of at least 8): the two
calls of `make` execute the same `NewInstance` node and both return the instance
the node holds (address 0), so `a` and `b` are one object and the field `x`
assigned through `a` is printed through `b`. -/
theorem C8_new_instance_returns_the_nodes_instance (fuel : Nat) :
    Execute (fuel + 8) fresh_program [] fresh_new_F.2 =
      .ok ObjectHolder.None
        [("f", ObjectHolder.ClassInstance 1), ("a", ObjectHolder.ClassInstance 0),
         ("b", ObjectHolder.ClassInstance 0)]
        { output := "1\n",
          objects := [{ cls_ := fresh_P, fields_ := [("x", ObjectHolder.Number 1)] },
                      { cls_ := fresh_F, fields_ := [] }] } := by
  have h8 : Execute 8 fresh_program [] fresh_new_F.2 =
      .ok ObjectHolder.None
        [("f", ObjectHolder.ClassInstance 1), ("a", ObjectHolder.ClassInstance 0),
         ("b", ObjectHolder.ClassInstance 0)]
        { output := "1\n",
          objects := [{ cls_ := fresh_P, fields_ := [("x", ObjectHolder.Number 1)] },
                      { cls_ := fresh_F, fields_ := [] }] } := rfl
  rw [Execute_mono (Nat.le_add_left 8 fuel) _ _ _ (by simp [h8, ExecResult.cut]), h8]

end ast

namespace runtime

/-! ## Truthiness and comparisons -/

/-- C20: `IsTrue` is a total function to `bool`: for a Number it is true iff the
value is not zero, for a Bool it is the value, for a String it is true iff the
text is not empty, and for every other handle - the empty handle, a Class, a
ClassInstance whatever its class defines - it is false. -/
theorem C20_IsTrue_by_kind :
    (∀ value : Int, IsTrue (ObjectHolder.Number value) = decide (value ≠ 0)) ∧
    (∀ value : Bool, IsTrue (ObjectHolder.Bool value) = value) ∧
    (∀ value : String, IsTrue (ObjectHolder.String value) = decide (value ≠ "")) ∧
    IsTrue ObjectHolder.None = false ∧
    (∀ cls : Class, IsTrue (ObjectHolder.Class cls) = false) ∧
    (∀ addr : Nat, IsTrue (ObjectHolder.ClassInstance addr) = false) := by
  refine ⟨?_, ?_, ?_, rfl, fun _ => rfl, fun _ => rfl⟩
  · intro value
    by_cases h : value = 0 <;> simp [IsTrue, h]
  · intro value
    rfl
  · intro value
    by_cases h : value = "" <;> simp [IsTrue, h]

/-- C17: `Equal` returns true for two empty handles; for two Numbers, two
Strings or two Bools it returns whether the payloads are equal; and for every
other pair whose `lhs` is not a ClassInstance with a one-parameter `__eq__` it
fails with "Cannot compare objects for equality"; in each case the context is
unchanged and nothing is executed. -/
theorem C17_Equal_on_handles (exec : Exec) (context : Context) :
    Equal exec ObjectHolder.None ObjectHolder.None context = .ok true context ∧
    (∀ l r : Int, Equal exec (ObjectHolder.Number l) (ObjectHolder.Number r) context =
      .ok (decide (l = r)) context) ∧
    (∀ l r : String, Equal exec (ObjectHolder.String l) (ObjectHolder.String r) context =
      .ok (decide (l = r)) context) ∧
    (∀ l r : Bool, Equal exec (ObjectHolder.Bool l) (ObjectHolder.Bool r) context =
      .ok (decide (l = r)) context) ∧
    (∀ lhs rhs : ObjectHolder,
      ¬ (lhs = ObjectHolder.None ∧ rhs = ObjectHolder.None) →
      samePrimitiveKind lhs rhs = false →
      (∀ addr, lhs = ObjectHolder.ClassInstance addr →
        ∃ inst, context.instanceAt addr = some inst ∧ inst.HasMethod "__eq__" 1 = false) →
      Equal exec lhs rhs context =
        .fail (Failure.runtime_error "Cannot compare objects for equality") context) := by
  refine ⟨rfl, ?_, ?_, ?_, ?_⟩
  · intro l r; by_cases h : l = r <;> simp [Equal, h]
  · intro l r; by_cases h : l = r <;> simp [Equal, h]
  · intro l r; by_cases h : l = r <;> simp [Equal, h]
  · intro lhs rhs hnone hkind hinst
    cases lhs with
    | ClassInstance addr =>
      obtain ⟨inst, hi, hno⟩ := hinst addr rfl
      simp [Equal, hi, hno]
    | None => cases rhs <;> first | rfl | exact absurd ⟨rfl, rfl⟩ hnone
    | Number l => cases rhs <;> first | rfl | exact absurd hkind (by simp [samePrimitiveKind])
    | String l => cases rhs <;> first | rfl | exact absurd hkind (by simp [samePrimitiveKind])
    | Bool l => cases rhs <;> first | rfl | exact absurd hkind (by simp [samePrimitiveKind])
    | Class cls => cases rhs <;> rfl

/-- C17 at three pairs: a Number and a Bool, the empty handle and a Number, and
two Class objects cannot be compared; two equal Strings are equal. -/
theorem C17_Equal_on_handles_witness :
    Equal idle_exec (ObjectHolder.Number 1) (ObjectHolder.Bool true) shadow_context =
      .fail (Failure.runtime_error "Cannot compare objects for equality") shadow_context ∧
    Equal idle_exec ObjectHolder.None (ObjectHolder.Number 0) shadow_context =
      .fail (Failure.runtime_error "Cannot compare objects for equality") shadow_context ∧
    Equal idle_exec (ObjectHolder.Class shadow_B) (ObjectHolder.Class shadow_B) shadow_context =
      .fail (Failure.runtime_error "Cannot compare objects for equality") shadow_context ∧
    Equal idle_exec (ObjectHolder.ClassInstance 0) (ObjectHolder.ClassInstance 0)
        shadow_context =
      .fail (Failure.runtime_error "Cannot compare objects for equality") shadow_context :=
  ⟨(C17_Equal_on_handles idle_exec shadow_context).2.2.2.2 _ _ (by simp) rfl (by simp),
   (C17_Equal_on_handles idle_exec shadow_context).2.2.2.2 _ _ (by simp) rfl (by simp),
   (C17_Equal_on_handles idle_exec shadow_context).2.2.2.2 _ _ (by simp) rfl (by simp),
   (C17_Equal_on_handles idle_exec shadow_context).2.2.2.2 _ _ (by simp) rfl
     (fun addr h => ⟨shadow_inst, by cases h; rfl, by decide⟩)⟩

/-- C18: when `lhs` is a ClassInstance whose class chain resolves `__eq__` - in
its own class or in an ancestor - to a method of one parameter, and the call of
that method with `rhs` returns `Bool b`, then `Equal(lhs, rhs, ctx)` returns `b`
(with the context the call left), whatever `rhs` is. -/
theorem C18_Equal_delegates_to_eq_method (exec : Exec) (context : Context) (addr : Nat)
    (inst : ClassInstance) (rhs : ObjectHolder) (meth : Method) (b : Bool) (context2 : Context)
    (hinst : context.instanceAt addr = some inst)
    (hres : resolve "__eq__" inst.cls_.chain = some meth)
    (harity : meth.formal_params.length = 1)
    (hcall : ClassInstance.Call exec addr "__eq__" [rhs] context =
      .ok (ObjectHolder.Bool b) context2) :
    Equal exec (ObjectHolder.ClassInstance addr) rhs context = .ok b context2 := by
  have hhas : inst.HasMethod "__eq__" 1 = true := by
    simp only [ClassInstance.HasMethod, GetMethod_eq_resolve, hres, harity, beq_self_eq_true]
  unfold Equal
  simp only [hinst, hhas, if_true, hcall]

/-- C18 at scenario S6: two instances of `B`, which inherits `__eq__` from `A`,
compare through the inherited method: equal fields give true, different fields
give false. -/
theorem C18_Equal_delegates_to_eq_method_witness :
    Equal (ast.Execute 4) (ObjectHolder.ClassInstance 0) (ObjectHolder.ClassInstance 1)
      eq_context = .ok true eq_context ∧
    Equal (ast.Execute 4) (ObjectHolder.ClassInstance 0) (ObjectHolder.ClassInstance 2)
      eq_context = .ok false eq_context :=
  ⟨C18_Equal_delegates_to_eq_method (ast.Execute 4) eq_context 0
      { cls_ := eq_B, fields_ := [("v", ObjectHolder.Number 1)] } (ObjectHolder.ClassInstance 1)
      (.mk "__eq__" ["other"]
        (.MethodBody (.Return (.Comparison .Equal (.VariableValue ["self", "v"])
          (.VariableValue ["other", "v"])))))
      true eq_context rfl rfl rfl rfl,
   C18_Equal_delegates_to_eq_method (ast.Execute 4) eq_context 0
      { cls_ := eq_B, fields_ := [("v", ObjectHolder.Number 1)] } (ObjectHolder.ClassInstance 2)
      (.mk "__eq__" ["other"]
        (.MethodBody (.Return (.Comparison .Equal (.VariableValue ["self", "v"])
          (.VariableValue ["other", "v"])))))
      false eq_context rfl rfl rfl rfl⟩

end runtime

namespace ast

open runtime

/-! ## `MethodCall` -/

theorem ExecuteArgs_of_EvalArgs {exec : Exec} {args : List Statement} {closure : Closure}
    {context : Context} {values : List ObjectHolder} {closure2 : Closure} {context2 : Context}
    (h : EvalArgs exec args closure context values closure2 context2) :
    ∀ (fields : List ObjectHolder) (k : List ObjectHolder → Closure → Context → ExecResult),
      ExecuteArgs exec args fields closure context k = k (fields ++ values) closure2 context2 := by
  induction h with
  | nil => intro fields k; simp [ExecuteArgs]
  | cons harg _ ih =>
    intro fields k
    simp only [ExecuteArgs, harg, ExecResult.andThen, ih]
    simp

/-- C16: let `obj` evaluate to a ClassInstance.  If the instance has method `m`
with as many formal parameters as there are args, the node evaluates the args
and returns what `Call(m, evaluated args)` returns (and passes on what it
throws); otherwise the node returns the empty handle, raises no error and
leaves scope and context as the evaluation of `obj` left them. -/
theorem C16_MethodCall_on_instance (fuel : Nat) (object_ : Statement) (method_ : String)
    (args_ : List Statement) (closure : Closure) (context : Context) (addr : Nat)
    (closure1 : Closure) (context1 : Context) (inst : ClassInstance)
    (hobj : Execute fuel object_ closure context =
      .ok (ObjectHolder.ClassInstance addr) closure1 context1)
    (hinst : context1.instanceAt addr = some inst) :
    (inst.HasMethod method_ args_.length = true →
      ∀ values closure2 context2,
        EvalArgs (Execute fuel) args_ closure1 context1 values closure2 context2 →
        Execute (fuel + 1) (.MethodCall object_ method_ args_) closure context =
          (ClassInstance.Call (Execute fuel) addr method_ values context2).within closure2
            (fun value context3 => .ok value closure2 context3) ∧
        ∀ value context3,
          ClassInstance.Call (Execute fuel) addr method_ values context2 =
            .ok value context3 →
          ∀ fuel2, fuel < fuel2 →
            Execute fuel2 (.MethodCall object_ method_ args_) closure context =
              .ok value closure2 context3) ∧
    (inst.HasMethod method_ args_.length = false →
      ∀ fuel2, fuel < fuel2 →
        Execute fuel2 (.MethodCall object_ method_ args_) closure context =
          .ok ObjectHolder.None closure1 context1) := by
  constructor
  · intro hhas values closure2 context2 hargs
    have h1 : Execute (fuel + 1) (.MethodCall object_ method_ args_) closure context =
        (ClassInstance.Call (Execute fuel) addr method_ values context2).within closure2
          (fun value context3 => .ok value closure2 context3) := by
      simp only [Execute_succ, ExecuteNode, hobj, ExecResult.andThen, hinst, hhas, if_true,
        ExecuteArgs_of_EvalArgs hargs, List.nil_append]
    refine ⟨h1, ?_⟩
    intro value context3 hcall fuel2 hlt
    have h2 : Execute (fuel + 1) (.MethodCall object_ method_ args_) closure context =
        .ok value closure2 context3 := by
      rw [h1, hcall]
      rfl
    rw [Execute_mono hlt _ _ _ (by simp [h2, ExecResult.cut]), h2]
  · intro hhas fuel2 hlt
    have h1 : Execute (fuel + 1) (.MethodCall object_ method_ args_) closure context =
        .ok ObjectHolder.None closure1 context1 := by
      simp [Execute_succ, ExecuteNode, hobj, ExecResult.andThen, hinst, hhas]
    rw [Execute_mono hlt _ _ _ (by simp [h1, ExecResult.cut]), h1]

/-- C16 at the instance of `F`: `f.make()` returns what `make` returns, the
instance of `P`; `f.absent(1)` returns the empty handle without an error. -/
theorem C16_MethodCall_on_instance_witness :
    Execute 5 (.MethodCall (.VariableValue ["f"]) "make" [])
        [("f", ObjectHolder.ClassInstance 1)] fresh_new_F.2 =
      .ok (ObjectHolder.ClassInstance 0) [("f", ObjectHolder.ClassInstance 1)] fresh_new_F.2 ∧
    Execute 5 (.MethodCall (.VariableValue ["f"]) "absent" [.NumericConst 1])
        [("f", ObjectHolder.ClassInstance 1)] fresh_new_F.2 =
      .ok ObjectHolder.None [("f", ObjectHolder.ClassInstance 1)] fresh_new_F.2 :=
  ⟨((C16_MethodCall_on_instance 4 (.VariableValue ["f"]) "make" []
      [("f", ObjectHolder.ClassInstance 1)] fresh_new_F.2 1
      [("f", ObjectHolder.ClassInstance 1)] fresh_new_F.2
      { cls_ := fresh_F, fields_ := [] } rfl rfl).1 rfl [] _ _ EvalArgs.nil).2
      (ObjectHolder.ClassInstance 0) fresh_new_F.2 rfl 5 (by decide),
   (C16_MethodCall_on_instance 4 (.VariableValue ["f"]) "absent" [.NumericConst 1]
      [("f", ObjectHolder.ClassInstance 1)] fresh_new_F.2 1
      [("f", ObjectHolder.ClassInstance 1)] fresh_new_F.2
      { cls_ := fresh_F, fields_ := [] } rfl rfl).2 rfl 5 (by decide)⟩

end ast

namespace runtime

/-! ## `ClassInstance::Call` -/

theorem Closure_find_assign_same (key : String) (value : ObjectHolder) :
    ∀ closure : Closure, (closure.assign key value).find key = some value := by
  intro closure
  induction closure with
  | nil => simp [Closure.assign, Closure.find]
  | cons p rest ih =>
    obtain ⟨k, v⟩ := p
    by_cases h : k = key
    · simp [Closure.assign, Closure.find, h]
    · simp [Closure.assign, Closure.find, h, ih]

theorem Closure_find_assign_ne {key other : String} (value : ObjectHolder) (h : other ≠ key) :
    ∀ closure : Closure, (closure.assign key value).find other = closure.find other := by
  intro closure
  induction closure with
  | nil => simp [Closure.assign, Closure.find, Ne.symm h]
  | cons p rest ih =>
    obtain ⟨k, v⟩ := p
    by_cases hk : k = key
    · subst hk
      simp [Closure.assign, Closure.find, Ne.symm h]
    · by_cases ho : k = other
      · subst ho
        simp [Closure.assign, Closure.find, hk]
      · simp [Closure.assign, Closure.find, hk, ho, ih]

theorem bindArgs_find_other (name : String) :
    ∀ (formal_params : List String) (actual_args : List ObjectHolder) (closure : Closure),
      name ∉ formal_params →
      (bindArgs closure formal_params actual_args).find name = closure.find name := by
  intro formal_params
  induction formal_params with
  | nil => intro actual_args closure _; cases actual_args <;> rfl
  | cons param rest ih =>
    intro actual_args closure hnot
    cases actual_args with
    | nil => rfl
    | cons i args =>
      have hne : name ≠ param := fun h => hnot (h ▸ List.mem_cons_self _ _)
      rw [bindArgs, ih args _ (fun h => hnot (List.mem_cons_of_mem _ h)),
        Closure_find_assign_ne i hne]

theorem bindArgs_find_param :
    ∀ (formal_params : List String) (actual_args : List ObjectHolder) (closure : Closure),
      formal_params.Nodup →
      ∀ (n : Nat) (param : String) (arg : ObjectHolder),
        formal_params[n]? = some param → actual_args[n]? = some arg →
        (bindArgs closure formal_params actual_args).find param = some arg := by
  intro formal_params
  induction formal_params with
  | nil => intro actual_args closure _ n param arg hp _; simp at hp
  | cons p rest ih =>
    intro actual_args closure hnodup n param arg hp ha
    cases actual_args with
    | nil => simp at ha
    | cons i args =>
      rw [List.nodup_cons] at hnodup
      cases n with
      | zero =>
        simp only [List.getElem?_cons_zero, Option.some.injEq] at hp ha
        subst hp ha
        rw [bindArgs, bindArgs_find_other _ rest args _ hnodup.1, Closure_find_assign_same]
      | succ n =>
        simp only [List.getElem?_cons_succ] at hp ha
        rw [bindArgs]
        exact ih args _ hnodup.2 n param arg hp ha

/-- C15, as stated, fails for a method with two parameters of the same name:
`f(a, a)` called with the arguments 1 and 2 runs its body in a scope that binds
`a` to 2, so the first formal parameter is not bound to the first argument, and
the body `a` returns 2. -/
theorem C15_duplicate_parameter_counterexample :
    ¬ (∀ (n : Nat) (param : String) (arg : ObjectHolder),
        ["a", "a"][n]? = some param →
        [ObjectHolder.Number 1, ObjectHolder.Number 2][n]? = some arg →
        (bindArgs (Closure.assign [] "self" (ObjectHolder.ClassInstance 0)) ["a", "a"]
          [ObjectHolder.Number 1, ObjectHolder.Number 2]).find param = some arg) ∧
    ClassInstance.Call (ast.Execute 1) 0 "f" [ObjectHolder.Number 1, ObjectHolder.Number 2]
      dup_context = .ok (ObjectHolder.Number 2) dup_context := by
  refine ⟨?_, rfl⟩
  intro h
  have h0 := h 0 "a" (ObjectHolder.Number 1) rfl rfl
  have h2 : (bindArgs (Closure.assign [] "self" (ObjectHolder.ClassInstance 0)) ["a", "a"]
      [ObjectHolder.Number 1, ObjectHolder.Number 2]).find "a" =
        some (ObjectHolder.Number 2) := rfl
  rw [h2] at h0
  simp at h0

/-- C15, amended: `Call(name, args)` on an instance fails with "Cannot call
method" whatever the executor of bodies does - before anything is executed,
the context unchanged - if and only if `HasMethod(name, number of args)` is
false.  Otherwise it executes the body of the method the class chain resolves
`name` to in a newly created scope and returns what that execution returns; and
for a method whose formal parameters are pairwise distinct and none of which is
named `self`, that scope binds exactly `self` to this instance and the i-th
formal parameter to the i-th argument. -/
theorem C15_Call_contract (context : Context) (self : Nat) (inst : ClassInstance)
    (method : String) (actual_args : List ObjectHolder)
    (hinst : context.instanceAt self = some inst) :
    (inst.HasMethod method actual_args.length = false ↔
      ∀ exec : Exec, ClassInstance.Call exec self method actual_args context =
        .fail (Failure.runtime_error "Cannot call method") context) ∧
    (inst.HasMethod method actual_args.length = true →
      ∃ (meth : Method) (scope : Closure),
        resolve method inst.cls_.chain = some meth ∧
        meth.formal_params.length = actual_args.length ∧
        (∀ exec : Exec, ClassInstance.Call exec self method actual_args context =
          (exec meth.body scope context).toOutcome) ∧
        ("self" ∉ meth.formal_params → meth.formal_params.Nodup →
          scope.find "self" = some (ObjectHolder.ClassInstance self) ∧
          (∀ (n : Nat) (param : String) (arg : ObjectHolder),
            meth.formal_params[n]? = some param → actual_args[n]? = some arg →
            scope.find param = some arg) ∧
          (∀ name : String, name ≠ "self" → name ∉ meth.formal_params →
            scope.find name = none))) := by
  have hyes : inst.HasMethod method actual_args.length = true →
      ∃ meth : Method, inst.cls_.GetMethod method = some meth ∧
        meth.formal_params.length = actual_args.length := by
    intro hhas
    unfold ClassInstance.HasMethod at hhas
    cases hg : inst.cls_.GetMethod method with
    | none => simp [hg] at hhas
    | some meth => exact ⟨meth, rfl, by simpa [hg] using hhas⟩
  have hcall : ∀ (exec : Exec) (meth : Method), inst.cls_.GetMethod method = some meth →
      inst.HasMethod method actual_args.length = true →
      ClassInstance.Call exec self method actual_args context =
        (exec meth.body (bindArgs (Closure.assign [] "self" (ObjectHolder.ClassInstance self))
          meth.formal_params actual_args) context).toOutcome := by
    intro exec meth hg hhas
    simp only [ClassInstance.Call, hinst, hhas, hg, Bool.not_true, Bool.false_eq_true, if_false]
    cases exec meth.body (bindArgs (Closure.assign [] "self" (ObjectHolder.ClassInstance self))
      meth.formal_params actual_args) context <;> rfl
  constructor
  · constructor
    · intro hno exec
      simp [ClassInstance.Call, hinst, hno]
    · intro hall
      by_contra hne
      have hhas : inst.HasMethod method actual_args.length = true := by
        simpa using hne
      obtain ⟨meth, hg, _⟩ := hyes hhas
      have h1 := hall idle_exec
      rw [hcall idle_exec meth hg hhas] at h1
      simp [idle_exec, ExecResult.toOutcome] at h1
  · intro hhas
    obtain ⟨meth, hg, hlen⟩ := hyes hhas
    refine ⟨meth, _, ?_, hlen, fun exec => hcall exec meth hg hhas, ?_⟩
    · rw [← GetMethod_eq_resolve]; exact hg
    · intro hself hnodup
      refine ⟨?_, ?_, ?_⟩
      · rw [bindArgs_find_other "self" _ _ _ hself, Closure_find_assign_same]
      · exact bindArgs_find_param _ _ _ hnodup
      · intro name hne hnot
        rw [bindArgs_find_other name _ _ _ hnot, Closure_find_assign_ne _ hne]
        rfl

/-- C15 at the inherited `__eq__` of scenario S6: the call with one argument
runs the body in the scope that binds `self` and `other`; with no argument it
fails before anything is executed. -/
theorem C15_Call_contract_witness :
    ClassInstance.Call (ast.Execute 4) 0 "__eq__" [ObjectHolder.ClassInstance 2] eq_context =
      .ok (ObjectHolder.Bool false) eq_context ∧
    ClassInstance.Call (ast.Execute 4) 0 "__eq__" [] eq_context =
      .fail (Failure.runtime_error "Cannot call method") eq_context :=
  ⟨rfl,
   (C15_Call_contract eq_context 0
      { cls_ := eq_B, fields_ := [("v", ObjectHolder.Number 1)] } "__eq__" [] rfl).1.1 rfl
      (ast.Execute 4)⟩

end runtime

namespace ast

open runtime

/-! ## `Div` -/

/-- The quotient of two `int`s with a divisor other than zero is an `int`
except for `INT_MIN / -1`. -/
theorem tdiv_fits_int (a b : Int) (ha : fits_int a = true) (hb : fits_int b = true)
    (hb0 : b ≠ 0) : fits_int (Int.tdiv a b) = false ↔ a = INT_MIN ∧ b = -1 := by
  simp only [fits_int, INT_MIN, INT_MAX, Bool.and_eq_true, decide_eq_true_eq,
    Bool.and_eq_false_iff, decide_eq_false_iff_not] at *
  have hq : (Int.tdiv a b).natAbs = a.natAbs / b.natAbs := Int.natAbs_tdiv a b
  constructor
  · intro h
    by_cases h2 : 2 ≤ b.natAbs
    · have : a.natAbs / b.natAbs ≤ a.natAbs / 2 := Nat.div_le_div_left h2 (by decide)
      omega
    · have hb1 : b = 1 ∨ b = -1 := by omega
      rcases hb1 with hb1 | hb1
      · subst hb1
        rw [Int.tdiv_one] at h
        omega
      · subst hb1
        rw [Int.tdiv_neg, Int.tdiv_one] at h
        omega
  · rintro ⟨rfl, rfl⟩
    decide

/-- Truncation toward zero: the quotient has the signs of the operands and the
magnitude of the quotient of the magnitudes, rounded down. -/
theorem tdiv_truncates (a b : Int) :
    Int.tdiv a b = Int.sign a * Int.sign b * ((a.natAbs / b.natAbs : Nat) : Int) := by
  rcases Int.natAbs_eq a with ha | ha <;> rcases Int.natAbs_eq b with hb | hb
  all_goals
    generalize a.natAbs = m at ha
    generalize b.natAbs = n at hb
    subst ha hb
    rcases Nat.eq_zero_or_pos m with rfl | hm <;> rcases Nat.eq_zero_or_pos n with rfl | hn
    all_goals
      simp [Int.tdiv_neg, Int.neg_tdiv, ← Int.ofNat_tdiv, Int.sign_eq_one_of_pos, Int.sign_neg, *]

/-- C21, amended: let the operand expressions evaluate without error.  `Div`
succeeds if and only if both values are Numbers, the divisor is non-zero and
the quotient is an `int`, and then it returns `Number(a / b)` with the quotient
truncated toward zero; for two `int`s with a non-zero divisor the quotient is an
`int` unless the operands are `INT_MIN` and `-1`, whose division is a signed
overflow.  With two Numbers and a zero
divisor it fails with the runtime error "Error. Division by zero"; with any
non-Number operand it fails with the runtime error "Division error". -/
theorem C21_Div_contract (fuel fuel2 : Nat) (hfuel : fuel < fuel2) (lhs_ rhs_ : Statement)
    (closure : Closure) (context : Context) (lhs rhs : ObjectHolder)
    (closure1 closure2 : Closure) (context1 context2 : Context)
    (hl : Execute fuel lhs_ closure context = .ok lhs closure1 context1)
    (hr : Execute fuel rhs_ closure1 context1 = .ok rhs closure2 context2) :
    ((∃ value closure3 context3,
        Execute fuel2 (.Div lhs_ rhs_) closure context = .ok value closure3 context3) ↔
      ∃ a b, lhs = ObjectHolder.Number a ∧ rhs = ObjectHolder.Number b ∧ b ≠ 0 ∧
        fits_int (Int.tdiv a b) = true) ∧
    (∀ a b, lhs = ObjectHolder.Number a → rhs = ObjectHolder.Number b → b ≠ 0 →
      fits_int (Int.tdiv a b) = true →
      Execute fuel2 (.Div lhs_ rhs_) closure context =
        .ok (ObjectHolder.Number (Int.tdiv a b)) closure2 context2) ∧
    (∀ a b : Int, Int.tdiv a b = Int.sign a * Int.sign b * ((a.natAbs / b.natAbs : Nat) : Int)) ∧
    (∀ a b : Int, fits_int a = true → fits_int b = true → b ≠ 0 →
      (fits_int (Int.tdiv a b) = true ↔ ¬ (a = INT_MIN ∧ b = -1))) ∧
    (∀ a b, lhs = ObjectHolder.Number a → rhs = ObjectHolder.Number b → b ≠ 0 →
      fits_int (Int.tdiv a b) = false →
      Execute fuel2 (.Div lhs_ rhs_) closure context =
        .fail Failure.signed_overflow closure2 context2) ∧
    (∀ a, lhs = ObjectHolder.Number a → rhs = ObjectHolder.Number 0 →
      Execute fuel2 (.Div lhs_ rhs_) closure context =
        .fail (Failure.runtime_error "Error. Division by zero") closure2 context2) ∧
    ((∀ a, lhs ≠ ObjectHolder.Number a) ∨ (∀ b, rhs ≠ ObjectHolder.Number b) →
      Execute fuel2 (.Div lhs_ rhs_) closure context =
        .fail (Failure.runtime_error "Division error") closure2 context2) := by
  have hstep : ∀ r : ExecResult, ¬ r.cut →
      Execute (fuel + 1) (.Div lhs_ rhs_) closure context = r →
      Execute fuel2 (.Div lhs_ rhs_) closure context = r := by
    intro r hcut h
    rw [Execute_mono hfuel _ _ _ (by rw [h]; exact hcut), h]
  have hok : ∀ a b, lhs = ObjectHolder.Number a → rhs = ObjectHolder.Number b → b ≠ 0 →
      fits_int (Int.tdiv a b) = true →
      Execute fuel2 (.Div lhs_ rhs_) closure context =
        .ok (ObjectHolder.Number (Int.tdiv a b)) closure2 context2 := by
    intro a b ha hb hb0 hfit
    subst ha hb
    apply hstep _ (by simp [ExecResult.cut])
    simp [Execute_succ, ExecuteNode, hl, hr, ExecResult.andThen, hb0, OwnNumber, hfit]
  have hzero : ∀ a, lhs = ObjectHolder.Number a → rhs = ObjectHolder.Number 0 →
      Execute fuel2 (.Div lhs_ rhs_) closure context =
        .fail (Failure.runtime_error "Error. Division by zero") closure2 context2 := by
    intro a ha hb
    subst ha hb
    apply hstep _ (by simp [ExecResult.cut])
    simp [Execute_succ, ExecuteNode, hl, hr, ExecResult.andThen]
  have hother : (∀ a, lhs ≠ ObjectHolder.Number a) ∨ (∀ b, rhs ≠ ObjectHolder.Number b) →
      Execute fuel2 (.Div lhs_ rhs_) closure context =
        .fail (Failure.runtime_error "Division error") closure2 context2 := by
    intro h
    apply hstep _ (by simp [ExecResult.cut])
    simp only [Execute_succ, ExecuteNode, hl, hr, ExecResult.andThen]
    split
    · rename_i l r
      rcases h with h | h
      · exact absurd rfl (h l)
      · exact absurd rfl (h r)
    · rfl
  have hover : ∀ a b, lhs = ObjectHolder.Number a → rhs = ObjectHolder.Number b → b ≠ 0 →
      fits_int (Int.tdiv a b) = false →
      Execute fuel2 (.Div lhs_ rhs_) closure context =
        .fail Failure.signed_overflow closure2 context2 := by
    intro a b ha hb hb0 hfit
    subst ha hb
    apply hstep _ (by simp [ExecResult.cut])
    simp [Execute_succ, ExecuteNode, hl, hr, ExecResult.andThen, hb0, OwnNumber, hfit]
  refine ⟨⟨?_, ?_⟩, hok, tdiv_truncates, ?_, hover, hzero, hother⟩
  · rintro ⟨value, closure3, context3, h⟩
    by_cases hnum : ∃ a b, lhs = ObjectHolder.Number a ∧ rhs = ObjectHolder.Number b
    · obtain ⟨a, b, ha, hb⟩ := hnum
      refine ⟨a, b, ha, hb, ?_⟩
      by_cases hb0 : b = 0
      · subst hb0
        rw [hzero a ha hb] at h
        cases h
      · refine ⟨hb0, ?_⟩
        by_cases hfit : fits_int (Int.tdiv a b) = true
        · exact hfit
        · rw [hover a b ha hb hb0 (by simpa using hfit)] at h
          cases h
    · have h2 := hother (by
        by_contra hcon
        push_neg at hcon
        obtain ⟨⟨a, ha⟩, ⟨b, hb⟩⟩ := hcon
        exact hnum ⟨a, b, ha, hb⟩)
      rw [h2] at h
      cases h
  · rintro ⟨a, b, ha, hb, hb0, hfit⟩
    exact ⟨_, _, _, hok a b ha hb hb0 hfit⟩
  · intro a b ha hb hb0
    have := tdiv_fits_int a b ha hb hb0
    constructor
    · intro hfit hab
      rw [this.2 hab] at hfit
      cases hfit
    · intro hab
      by_contra hfit
      exact hab (this.1 (by simpa using hfit))

/-- C21 at `7 / 2`, `-7 / 2`, `7 / 0` and `"a" / 2`: the quotients 3 and -3,
the runtime error "Error. Division by zero" and the runtime error "Division
error". -/
theorem C21_Div_contract_witness :
    Execute 2 (.Div (.NumericConst 7) (.NumericConst 2)) [] empty_context =
      .ok (ObjectHolder.Number 3) [] empty_context ∧
    Execute 2 (.Div (.NumericConst (-7)) (.NumericConst 2)) [] empty_context =
      .ok (ObjectHolder.Number (-3)) [] empty_context ∧
    Execute 2 (.Div (.NumericConst 7) (.NumericConst 0)) [] empty_context =
      .fail (Failure.runtime_error "Error. Division by zero") [] empty_context ∧
    Execute 2 (.Div (.StringConst "a") (.NumericConst 2)) [] empty_context =
      .fail (Failure.runtime_error "Division error") [] empty_context :=
  ⟨(C21_Div_contract 1 2 (by decide) (.NumericConst 7) (.NumericConst 2) [] empty_context
      (ObjectHolder.Number 7) (ObjectHolder.Number 2) [] [] empty_context empty_context
      rfl rfl).2.1 7 2 rfl rfl (by decide) (by decide),
   (C21_Div_contract 1 2 (by decide) (.NumericConst (-7)) (.NumericConst 2) [] empty_context
      (ObjectHolder.Number (-7)) (ObjectHolder.Number 2) [] [] empty_context empty_context
      rfl rfl).2.1 (-7) 2 rfl rfl (by decide) (by decide),
   (C21_Div_contract 1 2 (by decide) (.NumericConst 7) (.NumericConst 0) [] empty_context
      (ObjectHolder.Number 7) (ObjectHolder.Number 0) [] [] empty_context empty_context
      rfl rfl).2.2.2.2.2.1 7 rfl rfl,
   (C21_Div_contract 1 2 (by decide) (.StringConst "a") (.NumericConst 2) [] empty_context
      (ObjectHolder.String "a") (ObjectHolder.Number 2) [] [] empty_context empty_context
      rfl rfl).2.2.2.2.2.2 (Or.inl (fun _ h => by cases h))⟩

/-- C21, counterexample: the operands of `(0 - 2147483647 - 1) / (0 - 1)`
evaluate without error to the Numbers `INT_MIN` and `-1`, the divisor is not
zero, yet `Div` does not succeed, whatever the bound on the nesting: the
quotient 2147483648 is not an `int` (a signed overflow, undefined in the
source). -/
theorem C21_Div_overflow_counterexample :
    Execute 3 overflow_lhs [] empty_context =
      .ok (ObjectHolder.Number (-2147483648)) [] empty_context ∧
    Execute 3 overflow_rhs [] empty_context =
      .ok (ObjectHolder.Number (-1)) [] empty_context ∧
    (-1 : Int) ≠ 0 ∧
    Execute 4 overflow_div [] empty_context =
      .fail Failure.signed_overflow [] empty_context ∧
    ∀ fuel, ¬ ∃ value closure context,
      Execute fuel overflow_div [] empty_context = .ok value closure context := by
  refine ⟨rfl, rfl, by decide, rfl, ?_⟩
  intro fuel
  rintro ⟨value, closure, context, h⟩
  rcases Nat.lt_or_ge fuel 4 with hlt | hge
  · interval_cases fuel <;> cases h
  · have h4 : Execute 4 overflow_div [] empty_context =
        .fail Failure.signed_overflow [] empty_context := rfl
    rw [Execute_mono hge _ _ _ (by rw [h4]; simp [ExecResult.cut]), h4] at h
    cases h

end ast

namespace parse

/-! ## Lines that close or open more than one level -/

theorem ParseToken_far_shallower (lx : Lexer) (d t : Nat) (c : Char) (rest : List Char)
    (hflag : lx.new_line_flag_ = true) (hdepth : lx.current_indent_ = d)
    (hin : lx.input_ = List.replicate (2 * t) ' ' ++ c :: rest)
    (ht : 1 ≤ t) (hd : t + 2 ≤ d) (hsp : c ≠ ' ') (hnl : c ≠ '\n') :
    ParseToken lx = .ok (Token.Dedent,
      { lx with input_ := ' ' :: ' ' :: c :: rest, current_indent_ := d - 1,
                new_line_flag_ := true }) := by
  obtain ⟨t, rfl⟩ : ∃ t2, t = t2 + 1 := ⟨t - 1, by omega⟩
  have hin2 : lx.input_ = ' ' :: (List.replicate (2 * t + 1) ' ' ++ c :: rest) := by
    rw [hin, show 2 * (t + 1) = (2 * t + 1) + 1 by ring, List.replicate_succ, List.cons_append]
  unfold ParseToken
  rw [ParseTokenLoop_space_at_line_start _ lx _ hflag hin2, ParseIndentLoop_spaces,
    ParseIndentLoop]
  simp only [if_neg hnl, if_neg hsp, hdepth]
  have h1 : (1 + (2 * t + 1)) % 2 = 0 := by omega
  have h2 : ¬ (1 + (2 * t + 1)) / 2 > d := by omega
  have h3 : (1 + (2 * t + 1)) / 2 < d := by omega
  have hs : size_dec d = d - 1 := by simp [size_dec]; omega
  have h4 : (1 + (2 * t + 1)) / 2 < d - 1 := by omega
  simp only [h1, h2, h3, hs, h4, if_true, if_false, ParseDedent]
  simp

theorem NextTokens_dedent_run (k : Nat) :
    ∀ (lx : Lexer) (c : Char) (rest : List Char),
      lx.new_line_flag_ = true → lx.current_indent_ = k + 2 →
      lx.input_ = ' ' :: ' ' :: c :: rest → c ≠ ' ' → c ≠ '\n' →
      NextTokens (k + 1) lx = .ok (List.replicate (k + 1) Token.Dedent,
        { current_token_ := Token.Dedent, input_ := c :: rest, current_indent_ := 1,
          new_line_flag_ := false }) := by
  induction k with
  | zero =>
    intro lx c rest hflag hdepth hin hsp hnl
    have h := ParseToken_shallower lx 0 c rest hflag hdepth (by simpa using hin) hsp hnl
    simp [NextTokens, NextToken, h]
  | succ k ih =>
    intro lx c rest hflag hdepth hin hsp hnl
    have h := ParseToken_far_shallower lx (k + 3) 1 c rest hflag hdepth (by simpa using hin)
      (by omega) (by omega) hsp hnl
    rw [NextTokens]
    simp only [NextToken, h]
    rw [ih _ c rest rfl (by simp) rfl hsp hnl]
    simp [List.replicate_succ]

/-- C23 (the code on a line that closes more than one level): from the start of
a line at open depth `d`, a line with `2 * t` leading spaces, `1 ≤ t` and
`t + 2 ≤ d`, gives `d - 1` consecutive `Dedent` tokens, one per request, and
leaves the open depth at 1 with the line's first character next in the input;
the request after them returns the line's first real token at depth 1.  The
re-read of the two spaces pushed back tells every later request that the target
is depth 1, whatever `t` was: for `t = 1` these are the `d - t` tokens and the
depth `t` of the claim, for `t ≥ 2` there are more `Dedent`s than levels closed
and the depth is 1 instead of `t`. -/
theorem C23_dedent_run_ends_at_depth_one (lx : Lexer) (d t : Nat) (c : Char)
    (rest : List Char)
    (hflag : lx.new_line_flag_ = true) (hdepth : lx.current_indent_ = d)
    (hin : lx.input_ = List.replicate (2 * t) ' ' ++ c :: rest)
    (ht : 1 ≤ t) (hd : t + 2 ≤ d) (hc : startsToken c = true) :
    NextTokens (d - 1) lx = .ok (List.replicate (d - 1) Token.Dedent,
      { current_token_ := Token.Dedent, input_ := c :: rest, current_indent_ := 1,
        new_line_flag_ := false }) ∧
    ∀ token lx2,
      NextToken
        { current_token_ := Token.Dedent, input_ := c :: rest, current_indent_ := 1,
          new_line_flag_ := false } = .ok (token, lx2) →
      token ≠ Token.Dedent ∧ token ≠ Token.Indent ∧ token ≠ Token.Eof ∧
        lx2.current_indent_ = 1 := by
  obtain ⟨hnl, hsp, _⟩ := startsToken_ne hc
  constructor
  · obtain ⟨k, rfl⟩ : ∃ k, d = k + 3 := ⟨d - 3, by omega⟩
    have h := ParseToken_far_shallower lx (k + 3) t c rest hflag hdepth hin ht hd hsp hnl
    rw [(show k + 3 - 1 = (k + 1) + 1 by omega), NextTokens]
    simp only [NextToken, h]
    rw [NextTokens_dedent_run k _ c rest rfl (by simp) rfl hsp hnl]
    simp [List.replicate_succ]
  · intro token lx2 h
    simp only [NextToken] at h
    split at h
    · rename_i tok lx3 hparse
      simp only [Except.ok.injEq, Prod.mk.injEq] at h
      obtain ⟨rfl, rfl⟩ := h
      have hp := ParseTokenLoop_token_start _ _ c rest rfl hc (Or.inl rfl) tok lx3 hparse
      exact ⟨hp.2.1, hp.1, hp.2.2.1, hp.2.2.2⟩
    · cases h

/-- C23 at a line with four leading spaces after a block of depth 4: three
`Dedent` tokens and depth 1, where two `Dedent`s and depth 2 are due; and the
token sequence of a whole program with such a line. -/
theorem C23_dedent_run_ends_at_depth_one_witness :
    NextTokens 3 depth4_line = .ok ([Token.Dedent, Token.Dedent, Token.Dedent],
      { current_token_ := Token.Dedent, input_ := ['f', '\n'], current_indent_ := 1,
        new_line_flag_ := false }) ∧
    NextTokens 4 depth4_line = .ok ([Token.Dedent, Token.Dedent, Token.Dedent, Token.Id "f"],
      { current_token_ := Token.Id "f", input_ := ['\n'], current_indent_ := 1,
        new_line_flag_ := false }) ∧
    Lexer.tokens 21 deep_block_input =
      .ok ([Token.Id "a", Token.Newline, Token.Indent, Token.Id "b", Token.Newline,
        Token.Indent, Token.Id "c", Token.Newline, Token.Indent, Token.Id "d", Token.Newline,
        Token.Indent, Token.Id "e", Token.Newline, Token.Dedent, Token.Dedent, Token.Dedent,
        Token.Id "f", Token.Newline, Token.Dedent, Token.Eof], S1_final) :=
  ⟨(C23_dedent_run_ends_at_depth_one depth4_line 4 2 'f' ['\n'] rfl rfl rfl (by decide)
      (by decide) (by decide)).1, rfl, rfl⟩

theorem ParseToken_far_deeper (lx : Lexer) (d t : Nat) (c : Char) (rest : List Char)
    (hflag : lx.new_line_flag_ = true) (hdepth : lx.current_indent_ = d)
    (hin : lx.input_ = List.replicate (2 * t) ' ' ++ c :: rest)
    (ht : d < t) (hsp : c ≠ ' ') (hnl : c ≠ '\n') :
    ParseToken lx = .ok (Token.Indent,
      { lx with input_ := c :: rest, current_indent_ := d + 1, new_line_flag_ := false }) := by
  obtain ⟨t, rfl⟩ : ∃ t2, t = t2 + 1 := ⟨t - 1, by omega⟩
  have hin2 : lx.input_ = ' ' :: (List.replicate (2 * t + 1) ' ' ++ c :: rest) := by
    rw [hin, show 2 * (t + 1) = (2 * t + 1) + 1 by ring, List.replicate_succ, List.cons_append]
  unfold ParseToken
  rw [ParseTokenLoop_space_at_line_start _ lx _ hflag hin2, ParseIndentLoop_spaces,
    ParseIndentLoop]
  simp only [if_neg hnl, if_neg hsp, hdepth]
  have h1 : (1 + (2 * t + 1)) % 2 = 0 := by omega
  have h2 : (1 + (2 * t + 1)) / 2 > d := by omega
  simp only [h1, h2, if_true]
  simp

/-- C24 (the code on a line that opens more than one level): from the start of
a line at open depth `d`, a line with `2 * t` leading spaces and `t > d` gives
one `Indent` and leaves the open depth at `d + 1`, whatever `t` is, and the
request after it returns the line's first real token, not a further `Indent`.
For `t ≥ d + 2` that is one `Indent` where `t - d` are due, and depth `d + 1`
instead of `t`. -/
theorem C24_one_indent_per_line (lx : Lexer) (d t : Nat) (c : Char) (rest : List Char)
    (hflag : lx.new_line_flag_ = true) (hdepth : lx.current_indent_ = d)
    (hin : lx.input_ = List.replicate (2 * t) ' ' ++ c :: rest)
    (ht : d < t) (hc : startsToken c = true) :
    NextToken lx = .ok (Token.Indent,
      { current_token_ := Token.Indent, input_ := c :: rest, current_indent_ := d + 1,
        new_line_flag_ := false }) ∧
    ∀ token lx2,
      NextToken
        { current_token_ := Token.Indent, input_ := c :: rest, current_indent_ := d + 1,
          new_line_flag_ := false } = .ok (token, lx2) →
      token ≠ Token.Indent ∧ token ≠ Token.Dedent ∧ token ≠ Token.Eof ∧
        lx2.current_indent_ = d + 1 := by
  obtain ⟨hnl, hsp, _⟩ := startsToken_ne hc
  constructor
  · simp [NextToken, ParseToken_far_deeper lx d t c rest hflag hdepth hin ht hsp hnl]
  · intro token lx2 h
    simp only [NextToken] at h
    split at h
    · rename_i tok lx3 hparse
      simp only [Except.ok.injEq, Prod.mk.injEq] at h
      obtain ⟨rfl, rfl⟩ := h
      have hp := ParseTokenLoop_token_start _ _ c rest rfl hc (Or.inl rfl) tok lx3 hparse
      exact ⟨hp.1, hp.2.1, hp.2.2.1, hp.2.2.2⟩
    · cases h

/-- C24 at a line with four leading spaces at depth 0: one `Indent` before
`Id{b}` and depth 1; the next line, with the same indentation, gets another
`Indent`. -/
theorem C24_one_indent_per_line_witness :
    NextToken jump_line = .ok (Token.Indent,
      { current_token_ := Token.Indent, input_ := "b\n    c\n".toList, current_indent_ := 1,
        new_line_flag_ := false }) ∧
    NextTokens 2 jump_line = .ok ([Token.Indent, Token.Id "b"],
      { current_token_ := Token.Id "b", input_ := "\n    c\n".toList, current_indent_ := 1,
        new_line_flag_ := false }) ∧
    Lexer.tokens 6 two_level_jump_line =
      .ok ([Token.Id "a", Token.Newline, Token.Indent, Token.Id "b", Token.Newline,
        Token.Dedent], { S1_final with current_token_ := Token.Dedent }) ∧
    Lexer.tokens 11 two_level_jump_input =
      .ok ([Token.Id "a", Token.Newline, Token.Indent, Token.Id "b", Token.Newline,
        Token.Indent, Token.Id "c", Token.Newline, Token.Dedent, Token.Dedent, Token.Eof],
        S1_final) :=
  ⟨(C24_one_indent_per_line jump_line 0 2 'b' "\n    c\n".toList rfl rfl rfl (by decide)
      (by decide)).1, rfl, rfl, rfl⟩

/-! ## Blank lines -/

/-- A bound above the length of the input is as good as any larger one. -/
theorem ParseTokenLoop_succ_fuel (fuel : Nat) :
    ∀ lx : Lexer, lx.input_.length < fuel →
      ParseTokenLoop (fuel + 1) lx = ParseTokenLoop fuel lx := by
  induction fuel with
  | zero => intro lx h; omega
  | succ fuel ih =>
    intro lx hlen
    obtain ⟨tok, input, depth, flag⟩ := lx
    conv_lhs => rw [ParseTokenLoop]
    conv_rhs => rw [ParseTokenLoop]
    rcases input with _ | ⟨c, rest⟩
    · rfl
    · have hrest : rest.length < fuel := by simp at hlen; omega
      have hcont : ∀ flag2, ParseTokenLoop (fuel + 1) ⟨tok, rest, depth, flag2⟩ =
          ParseTokenLoop fuel ⟨tok, rest, depth, flag2⟩ := fun _ => ih _ hrest
      simp only [hcont]
      by_cases hsp : c = ' '
      · subst hsp
        simp only [show (' ' : Char) ≠ '\n' by decide, if_false, if_true]
        cases flag
        · simp
        · simp only [if_true]
          split
          · rename_i token lx3 hind
            by_cases htok : token = Token.None
            · simp only [htok, if_true]
              subst htok
              apply ih
              unfold ParseIndent at hind
              rw [ParseIndentLoop] at hind
              simp at hind
              have := ParseIndentLoop_none_length _ _ _ hind
              omega
            · simp only [htok, if_false]
          · rfl
      · by_cases hcom : c = '#'
        · subst hcom
          simp only [show ('#' : Char) ≠ '\n' by decide, show ('#' : Char) ≠ ' ' by decide,
            if_false]
          have hc : ∀ flag2, ParseTokenLoop (fuel + 1) ⟨tok, ParseCommentLoop rest, depth, flag2⟩ =
              ParseTokenLoop fuel ⟨tok, ParseCommentLoop rest, depth, flag2⟩ :=
            fun _ => ih _ (by have := ParseCommentLoop_length rest; simp; omega)
          simp only [ParseComment, ParseNewLine]
          cases flag
          · simp
          · simp [hc]
        · simp only [hsp, hcom, if_false]

theorem ParseTokenLoop_more_fuel (fuel k : Nat) (lx : Lexer) (h : lx.input_.length < fuel) :
    ParseTokenLoop (fuel + k) lx = ParseTokenLoop fuel lx := by
  induction k with
  | zero => rfl
  | succ k ih =>
    rw [← Nat.add_assoc, ParseTokenLoop_succ_fuel (fuel + k) lx (by omega), ih]

/-- An empty line at the start of a line is skipped. -/
theorem ParseToken_empty_line (tok : Token) (rest : List Char) (depth : Nat) :
    ParseToken ⟨tok, '\n' :: rest, depth, true⟩ = ParseToken ⟨tok, rest, depth, true⟩ := by
  unfold ParseToken
  rw [ParseTokenLoop]
  simp

/-- After a line of spaces the lexer goes on in the middle of a line: the flag
cleared in line 109 stays cleared. -/
theorem ParseToken_spaces_line (tok : Token) (rest : List Char) (depth k : Nat) :
    ParseToken ⟨tok, List.replicate (k + 1) ' ' ++ '\n' :: rest, depth, true⟩ =
      ParseToken ⟨tok, rest, depth, false⟩ := by
  unfold ParseToken
  have hlen : (List.replicate (k + 1) ' ' ++ '\n' :: rest).length + 1 =
      (rest.length + 1 + (k + 1)) + 1 := by
    simp
    omega
  simp only [hlen]
  rw [ParseTokenLoop_space_at_line_start _ _ (List.replicate k ' ' ++ '\n' :: rest) rfl
    (by simp [List.replicate_succ]), ParseIndentLoop_spaces, ParseIndentLoop]
  simp only [if_true]
  exact ParseTokenLoop_more_fuel _ _ _ (by simp)

/-- C25 (the code on blank lines): an empty line at the start of a line is
invisible, but after a line of spaces the lexer goes on as in the middle of a
line, so the indentation of the next line is not looked at and an empty line
that follows gives a `Newline`.  On the input of the claim the `Dedent` comes
after `Id{z}` and its `Newline` instead of before `Id{z}`. -/
theorem C25_spaces_line_is_not_invisible :
    (∀ (tok : Token) (rest : List Char) (depth : Nat),
      NextToken ⟨tok, '\n' :: rest, depth, true⟩ = NextToken ⟨tok, rest, depth, true⟩) ∧
    (∀ (tok : Token) (rest : List Char) (depth k : Nat),
      NextToken ⟨tok, List.replicate (k + 1) ' ' ++ '\n' :: rest, depth, true⟩ =
        NextToken ⟨tok, rest, depth, false⟩) ∧
    Lexer.tokens 11 no_blank_line_input =
      .ok ([Token.If, Token.Id "x", Token.Char ':', Token.Newline, Token.Indent, Token.Id "y",
        Token.Newline, Token.Dedent, Token.Id "z", Token.Newline, Token.Eof], S1_final) ∧
    Lexer.tokens 11 empty_line_input =
      .ok ([Token.If, Token.Id "x", Token.Char ':', Token.Newline, Token.Indent, Token.Id "y",
        Token.Newline, Token.Dedent, Token.Id "z", Token.Newline, Token.Eof], S1_final) ∧
    Lexer.tokens 11 spaces_line_input =
      .ok ([Token.If, Token.Id "x", Token.Char ':', Token.Newline, Token.Indent, Token.Id "y",
        Token.Newline, Token.Id "z", Token.Newline, Token.Dedent, Token.Eof], S1_final) ∧
    Lexer.tokens 6 spaces_then_empty_input =
      .ok ([Token.Id "x", Token.Newline, Token.Newline, Token.Id "y", Token.Newline,
        Token.Eof], S1_final) := by
  refine ⟨?_, ?_, rfl, rfl, rfl, rfl⟩
  · intro tok rest depth
    simp only [NextToken, ParseToken_empty_line]
  · intro tok rest depth k
    simp only [NextToken, ParseToken_spaces_line]

end parse

namespace ast

open runtime

/-! ## `VariableValue` on bound segments -/

theorem walk_of_descend (context : Context) (value : ObjectHolder) :
    ∀ (ids : List String) (closure : Closure) (last_id : String),
      VariableValue.descend context ids closure = some value →
      ∃ curr_closure last_id2,
        VariableValue.walk context ids closure last_id = some (curr_closure, last_id2) ∧
        curr_closure.find last_id2 = some value
  | [], _, _, h => by simp [VariableValue.descend] at h
  | [id], closure, last_id, h => by
    simp only [VariableValue.descend] at h
    refine ⟨closure, id, ?_, h⟩
    simp only [VariableValue.walk, h]
    cases value <;> simp
  | id :: id2 :: rest, closure, last_id, h => by
    simp only [VariableValue.descend] at h
    split at h
    · rename_i addr hfind
      split at h
      · rename_i inst hinst
        obtain ⟨curr, last2, hw, hf⟩ := walk_of_descend context value (id2 :: rest) inst.fields_ id h
        refine ⟨curr, last2, ?_, hf⟩
        rw [VariableValue.walk]
        simp only [hfind, hinst]
        simpa using hw
      · cases h
    · cases h

/-- C26: when every segment of `a1.a2...an` is bound in the mapping current at
its step and every segment but the last is bound to a `ClassInstance`, so that
the lookup the specification describes yields `value`, the node returns
`value`: the handle bound to `an` in the field table of the instance reached
through the segments before it (for `n = 1`, the handle bound to `a1` in the
scope), with the scope and the context, field tables included, as they were.
A last segment bound to a `ClassInstance` is returned as that instance. -/
theorem C26_VariableValue_bound_path (fuel : Nat) (ids_ : List String) (closure : Closure)
    (context : Context) (value : ObjectHolder)
    (hpath : VariableValue.descend context ids_ closure = some value) :
    Execute (fuel + 1) (.VariableValue ids_) closure context = .ok value closure context ∧
    (∀ id addr, ids_ = [id] → closure.find id = some (ObjectHolder.ClassInstance addr) →
      value = ObjectHolder.ClassInstance addr) ∧
    (∀ id id2 addr inst, ids_ = [id, id2] →
      closure.find id = some (ObjectHolder.ClassInstance addr) →
      context.instanceAt addr = some inst → inst.fields_.find id2 = some value) := by
  refine ⟨?_, ?_, ?_⟩
  · obtain ⟨curr, last2, hw, hf⟩ := walk_of_descend context value ids_ closure "" hpath
    simp [Execute_succ, ExecuteNode, VariableValue.Execute, hw, hf]
  · intro id addr hids hfind
    subst hids
    simp only [VariableValue.descend, hfind, Option.some.injEq] at hpath
    exact hpath.symm
  · intro id id2 addr inst hids hfind hinst
    subst hids
    simpa only [VariableValue.descend, hfind, hinst] using hpath

/-- C26 at `o.inner.v`, `o.inner`, `o` and `n`: the field `v` of the instance
reached, the instance `o.inner` itself, the instance `o` itself, the number. -/
theorem C26_VariableValue_bound_path_witness :
    Execute 1 (.VariableValue ["o", "inner", "v"]) path_scope path_context =
      .ok (ObjectHolder.Number 5) path_scope path_context ∧
    Execute 1 (.VariableValue ["o", "inner"]) path_scope path_context =
      .ok (ObjectHolder.ClassInstance 0) path_scope path_context ∧
    Execute 1 (.VariableValue ["o"]) path_scope path_context =
      .ok (ObjectHolder.ClassInstance 1) path_scope path_context ∧
    Execute 1 (.VariableValue ["n"]) path_scope path_context =
      .ok (ObjectHolder.Number 3) path_scope path_context :=
  ⟨(C26_VariableValue_bound_path 0 ["o", "inner", "v"] path_scope path_context
      (ObjectHolder.Number 5) rfl).1,
   (C26_VariableValue_bound_path 0 ["o", "inner"] path_scope path_context
      (ObjectHolder.ClassInstance 0) rfl).1,
   (C26_VariableValue_bound_path 0 ["o"] path_scope path_context
      (ObjectHolder.ClassInstance 1) rfl).1,
   (C26_VariableValue_bound_path 0 ["n"] path_scope path_context
      (ObjectHolder.Number 3) rfl).1⟩

/-! ## The arguments of a `MethodCall` -/

/-- Once an argument raises, the loop over the arguments ends with what it
raised. -/
theorem ExecuteArgs_raise {exec : Exec} {pre : List Statement} {closure : Closure}
    {context : Context} {values : List ObjectHolder} {closure2 : Closure} {context2 : Context}
    (h : EvalArgs exec pre closure context values closure2 context2) (arg : Statement)
    (post : List Statement)
    (hraise : ∀ value closure3 context3, exec arg closure2 context2 ≠ .ok value closure3 context3) :
    ∀ (fields : List ObjectHolder) (k : List ObjectHolder → Closure → Context → ExecResult),
      ExecuteArgs exec (pre ++ arg :: post) fields closure context k =
        exec arg closure2 context2 := by
  induction h with
  | nil =>
    intro fields k
    simp only [List.nil_append, ExecuteArgs]
    rename_i c x
    cases hres : exec arg c x with
    | ok value closure3 context3 => exact absurd hres (hraise _ _ _)
    | thrown value closure3 context3 => rfl
    | fail error closure3 context3 => rfl
  | cons harg _ ih =>
    intro fields k
    simp only [List.cons_append, ExecuteArgs, harg, ExecResult.andThen]
    exact ih hraise _ _

/-- C27, amended: `MethodCall` evaluates its object expression and then decides
whether the instance has the method with as many parameters as there are
arguments.  If it has not, no argument expression is evaluated: the empty handle
is returned with scope and context as the object expression left them.  If it
has, the argument expressions are evaluated left to right, each once, in the
scope and context the one before left, and the method is called with their
values in the context the last one left; an argument that raises ends the node
with what it raised, without the call. -/
theorem C27_MethodCall_arguments (fuel : Nat) (object_ : Statement) (method_ : String)
    (args_ : List Statement) (closure : Closure) (context : Context) (addr : Nat)
    (closure1 : Closure) (context1 : Context) (inst : ClassInstance)
    (hobj : Execute fuel object_ closure context =
      .ok (ObjectHolder.ClassInstance addr) closure1 context1)
    (hinst : context1.instanceAt addr = some inst) :
    (inst.HasMethod method_ args_.length = false →
      ∀ fuel2, fuel < fuel2 →
        Execute fuel2 (.MethodCall object_ method_ args_) closure context =
          .ok ObjectHolder.None closure1 context1) ∧
    (inst.HasMethod method_ args_.length = true →
      (∀ values closure2 context2,
        EvalArgs (Execute fuel) args_ closure1 context1 values closure2 context2 →
        Execute (fuel + 1) (.MethodCall object_ method_ args_) closure context =
          (ClassInstance.Call (Execute fuel) addr method_ values context2).within closure2
            (fun value context3 => .ok value closure2 context3)) ∧
      (∀ pre arg post values closure2 context2, args_ = pre ++ arg :: post →
        EvalArgs (Execute fuel) pre closure1 context1 values closure2 context2 →
        (∀ value closure3 context3,
          Execute fuel arg closure2 context2 ≠ .ok value closure3 context3) →
        Execute (fuel + 1) (.MethodCall object_ method_ args_) closure context =
          Execute fuel arg closure2 context2)) := by
  refine ⟨?_, ?_⟩
  · intro hhas fuel2 hlt
    have h1 : Execute (fuel + 1) (.MethodCall object_ method_ args_) closure context =
        .ok ObjectHolder.None closure1 context1 := by
      simp [Execute_succ, ExecuteNode, hobj, ExecResult.andThen, hinst, hhas]
    rw [Execute_mono hlt _ _ _ (by simp [h1, ExecResult.cut]), h1]
  · intro hhas
    refine ⟨?_, ?_⟩
    · intro values closure2 context2 hargs
      simp only [Execute_succ, ExecuteNode, hobj, ExecResult.andThen, hinst, hhas, if_true,
        ExecuteArgs_of_EvalArgs hargs, List.nil_append]
    · intro pre arg post values closure2 context2 hsplit hpre hraise
      subst hsplit
      simp only [Execute_succ, ExecuteNode, hobj, ExecResult.andThen, hinst, hhas, if_true,
        ExecuteArgs_raise hpre arg post hraise]

/-- C27 at the instance of `K`: `k.second(<print>, y = 2)` runs both arguments
(the text is written, `y` is bound) and returns 2; `k.absent(<print>, y = 2)`
returns the empty handle and runs neither. -/
theorem C27_MethodCall_arguments_witness :
    Execute 5 (.MethodCall (.VariableValue ["k"]) "second" call_args) call_scope call_context =
      .ok (ObjectHolder.Number 2)
        [("k", ObjectHolder.ClassInstance 0), ("x", ObjectHolder.Number 1),
         ("y", ObjectHolder.Number 2)]
        { output := "side effect\n", objects := [{ cls_ := call_K, fields_ := [] }] } ∧
    Execute 5 (.MethodCall (.VariableValue ["k"]) "absent" call_args) call_scope call_context =
      .ok ObjectHolder.None call_scope call_context :=
  ⟨((C27_MethodCall_arguments 4 (.VariableValue ["k"]) "second" call_args call_scope
      call_context 0 call_scope call_context { cls_ := call_K, fields_ := [] } rfl rfl).2 rfl).1
      [ObjectHolder.None, ObjectHolder.Number 2]
      [("k", ObjectHolder.ClassInstance 0), ("x", ObjectHolder.Number 1),
       ("y", ObjectHolder.Number 2)]
      { output := "side effect\n", objects := [{ cls_ := call_K, fields_ := [] }] }
      (EvalArgs.cons rfl (EvalArgs.cons rfl EvalArgs.nil)),
   (C27_MethodCall_arguments 4 (.VariableValue ["k"]) "absent" call_args call_scope
      call_context 0 call_scope call_context { cls_ := call_K, fields_ := [] } rfl rfl).1 rfl 5
      (by decide)⟩

/-- C27, counterexample: the instance of `K` has no method `absent`, and
`k.absent(<print>, y = 2)` returns the empty handle with the output and the
scope untouched, whatever the bound on the nesting, although its arguments,
evaluated, write `side effect` and bind `y`. -/
theorem C27_absent_method_skips_arguments_counterexample :
    ClassInstance.HasMethod { cls_ := call_K, fields_ := [] } "absent" call_args.length = false ∧
    (∀ fuel, Execute (fuel + 2) (.MethodCall (.VariableValue ["k"]) "absent" call_args)
        call_scope call_context = .ok ObjectHolder.None call_scope call_context) ∧
    EvalArgs (Execute 3) call_args call_scope call_context
      [ObjectHolder.None, ObjectHolder.Number 2]
      [("k", ObjectHolder.ClassInstance 0), ("x", ObjectHolder.Number 1),
       ("y", ObjectHolder.Number 2)]
      { output := "side effect\n", objects := [{ cls_ := call_K, fields_ := [] }] } := by
  refine ⟨rfl, ?_, EvalArgs.cons rfl (EvalArgs.cons rfl EvalArgs.nil)⟩
  intro fuel
  have h2 : Execute 2 (.MethodCall (.VariableValue ["k"]) "absent" call_args)
      call_scope call_context = .ok ObjectHolder.None call_scope call_context := rfl
  rw [Execute_mono (Nat.le_add_left 2 fuel) _ _ _ (by simp [h2, ExecResult.cut]), h2]

/-! ## The scope of a method call -/

/-- C28 (what holds of the claim, and the code at the failing input).  The
scope `ClassInstance::Call` builds binds no name other than `self` and the
formal parameters; a `VariableValue` on another name fails in it (for a method
without a parameter of empty name); and whatever the call does, the
`MethodCall` node leaves the caller's scope as the evaluation of the arguments
left it: an assignment to `x` inside the body is not visible to the caller.
But the field tables changed by a call are not only those of instances
reachable through `self` or the arguments: the call `f.make(2)`, with `f` an
instance without fields, runs the `NewInstance` node of `P(v)` in the body of
`make` a second time, which initialises the instance the node holds once more,
the instance the caller already has as `a`; the program prints `a.v` as 1 before
the call and as 2 after it. -/
theorem C28_call_changes_unreachable_instance :
    (∀ (self : Nat) (formal_params : List String) (actual_args : List ObjectHolder)
      (name : String), name ≠ "self" → name ∉ formal_params →
      (bindArgs (Closure.assign [] "self" (ObjectHolder.ClassInstance self)) formal_params
        actual_args).find name = none) ∧
    (∀ (fuel self : Nat) (formal_params : List String) (actual_args : List ObjectHolder)
      (name : String) (context : Context), name ≠ "self" → name ∉ formal_params →
      "" ∉ formal_params →
      Execute (fuel + 1) (.VariableValue [name])
        (bindArgs (Closure.assign [] "self" (ObjectHolder.ClassInstance self)) formal_params
          actual_args) context =
        .fail (Failure.runtime_error "Wrong variable!")
          (bindArgs (Closure.assign [] "self" (ObjectHolder.ClassInstance self)) formal_params
            actual_args) context) ∧
    (∀ (fuel : Nat) (object_ : Statement) (method_ : String) (args_ : List Statement)
      (closure : Closure) (context : Context) (addr : Nat) (closure1 : Closure)
      (context1 : Context) (inst : ClassInstance) (values : List ObjectHolder)
      (closure2 : Closure) (context2 : Context),
      Execute fuel object_ closure context =
        .ok (ObjectHolder.ClassInstance addr) closure1 context1 →
      context1.instanceAt addr = some inst →
      EvalArgs (Execute fuel) args_ closure1 context1 values closure2 context2 →
      (Execute (fuel + 1) (.MethodCall object_ method_ args_) closure context).closure =
        if inst.HasMethod method_ args_.length then closure2 else closure1) ∧
    Execute 5 (.MethodCall (.VariableValue ["k"]) "local" [.NumericConst 5]) call_scope
      scope_context = .ok (ObjectHolder.Number 5) call_scope scope_context ∧
    Execute 5 (.MethodCall (.VariableValue ["k"]) "peek" []) call_scope scope_context =
      .fail (Failure.runtime_error "Wrong variable!") call_scope scope_context ∧
    frame_context.instanceAt 1 = some { cls_ := frame_F, fields_ := [] } ∧
    Execute 7 (.MethodCall (.VariableValue ["f"]) "make" [.NumericConst 2]) frame_scope
      frame_context =
      .ok (ObjectHolder.ClassInstance 0) frame_scope
        { output := "1\n",
          objects := [{ cls_ := frame_P, fields_ := [("v", ObjectHolder.Number 2)] },
                      { cls_ := frame_F, fields_ := [] }] } ∧
    (∀ fuel, Execute (fuel + 9) frame_program [] frame_new_F.2 =
      .ok ObjectHolder.None
        [("f", ObjectHolder.ClassInstance 1), ("a", ObjectHolder.ClassInstance 0),
         ("b", ObjectHolder.ClassInstance 0)]
        { output := "1\n2\n",
          objects := [{ cls_ := frame_P, fields_ := [("v", ObjectHolder.Number 2)] },
                      { cls_ := frame_F, fields_ := [] }] }) := by
  have hfind : ∀ (self : Nat) (formal_params : List String) (actual_args : List ObjectHolder)
      (name : String), name ≠ "self" → name ∉ formal_params →
      (bindArgs (Closure.assign [] "self" (ObjectHolder.ClassInstance self)) formal_params
        actual_args).find name = none := by
    intro self formal_params actual_args name hne hnot
    rw [bindArgs_find_other name _ _ _ hnot, Closure_find_assign_ne _ hne]
    rfl
  refine ⟨hfind, ?_, ?_, rfl, rfl, rfl, rfl, ?_⟩
  · intro fuel self formal_params actual_args name context hne hnot hempty
    have h1 := hfind self formal_params actual_args name hne hnot
    have h2 := hfind self formal_params actual_args "" (by decide) hempty
    simp [Execute_succ, ExecuteNode, VariableValue.Execute, VariableValue.walk, h1, h2]
  · intro fuel object_ method_ args_ closure context addr closure1 context1 inst values
      closure2 context2 hobj hinst hargs
    by_cases hhas : inst.HasMethod method_ args_.length = true
    · simp only [Execute_succ, ExecuteNode, hobj, ExecResult.andThen, hinst, hhas, if_true,
        ExecuteArgs_of_EvalArgs hargs, List.nil_append]
      cases ClassInstance.Call (Execute fuel) addr method_ values context2 <;> rfl
    · simp [Execute_succ, ExecuteNode, hobj, ExecResult.andThen, hinst, hhas,
        ExecResult.closure]
  · intro fuel
    have h9 : Execute 9 frame_program [] frame_new_F.2 =
        .ok ObjectHolder.None
          [("f", ObjectHolder.ClassInstance 1), ("a", ObjectHolder.ClassInstance 0),
           ("b", ObjectHolder.ClassInstance 0)]
          { output := "1\n2\n",
            objects := [{ cls_ := frame_P, fields_ := [("v", ObjectHolder.Number 2)] },
                        { cls_ := frame_F, fields_ := [] }] } := rfl
    rw [Execute_mono (Nat.le_add_left 9 fuel) _ _ _ (by simp [h9, ExecResult.cut]), h9]

end ast

namespace ast

open runtime

/-! ## `Print` -/

theorem Print_loop_of_PrintedArgs {exec : Exec} {depth : Nat} {first : Bool}
    {args : List Statement} {closure : Closure} {context : Context}
    {pieces : List (String × String × String)} {closure2 : Closure} {context3 : Context}
    (h : PrintedArgs exec depth first args closure context pieces closure2 context3) :
    Print.loop exec depth args first closure context =
      .ok ObjectHolder.None closure2 (context3.write "\n") ∧
    context3.output = context.output ++ printedOutput first pieces := by
  induction h with
  | nil => exact ⟨rfl, by simp [printedOutput]⟩
  | @cons first arg rest closure context value closure1 context1 written text context2 written2
      pieces closure2 context3 harg hout hform hout2 _ ih =>
    constructor
    · rw [← ih.1]
      simp only [Print.loop, harg, ExecResult.andThen]
      cases value <;> cases first <;>
        simp_all [printedForm, Outcome.within]
    · rw [ih.2]
      cases first <;>
        simp [printedOutput, Context.write, hout2, hout, String.append_assoc]

theorem printedOutput_quiet :
    ∀ (pieces : List (String × String × String)) (text : String),
      (∀ p ∈ pieces, p.1 = "" ∧ p.2.1 = "") →
      text ++ printedOutput false pieces = joinedBySpaces (text :: pieces.map fun p => p.2.2) := by
  intro pieces
  induction pieces with
  | nil => intro text _; simp [printedOutput, joinedBySpaces]
  | cons p rest ih =>
    intro text hquiet
    obtain ⟨written, written2, text2⟩ := p
    have hp := hquiet (written, written2, text2) (List.mem_cons_self _ _)
    simp only at hp
    obtain ⟨rfl, rfl⟩ := hp
    have hrest := ih text2 (fun q hq => hquiet q (List.mem_cons_of_mem _ hq))
    simp only [printedOutput, List.map_cons, joinedBySpaces, ← hrest]
    simp [String.append_assoc]

/-- C22, amended: let the arguments of a `Print` node evaluate without error,
from left to right, each in the scope and context left by what came before, and
let their values have printed forms (`None` for the empty handle; the printed
form of a `ClassInstance` with `__str__` is computed by a call of `__str__`).
The node returns the empty handle and leaves the scope as the evaluation of the
last argument left it.  Each value is printed right after its evaluation: for
each argument in turn the stream receives what the evaluation of the argument
wrote, a single space unless the argument is the first, what the computation of
the printed form wrote, and the printed form; at the end it receives one
newline.  When the evaluations and the computations of the printed forms write
nothing, the stream grows by exactly the printed forms joined by single spaces
and followed by one newline.  A `Print` without arguments appends just a
newline, and every value that is not a `ClassInstance` has a printed form,
computed without a change of the context. -/
theorem C22_Print_output (fuel : Nat) (args_ : List Statement) (closure : Closure)
    (context : Context) (pieces : List (String × String × String)) (closure2 : Closure)
    (context3 : Context)
    (hargs : PrintedArgs (Execute fuel) fuel true args_ closure context pieces closure2
      context3) :
    (∀ fuel2, fuel < fuel2 →
      Execute fuel2 (.Print args_) closure context =
        .ok ObjectHolder.None closure2 (context3.write "\n")) ∧
    (context3.write "\n").objects = context3.objects ∧
    (context3.write "\n").output = context.output ++ printedOutput true pieces ++ "\n" ∧
    ((∀ p ∈ pieces, p.1 = "" ∧ p.2.1 = "") →
      (context3.write "\n").output =
        context.output ++ joinedBySpaces (pieces.map fun p => p.2.2) ++ "\n") ∧
    (∀ fuel2 (closure4 : Closure) (context4 : Context),
      Execute (fuel2 + 1) (.Print []) closure4 context4 =
        .ok ObjectHolder.None closure4 (context4.write "\n")) ∧
    (∀ (exec : Exec) (depth : Nat) (value : ObjectHolder) (context4 : Context),
      (∀ addr, value ≠ ObjectHolder.ClassInstance addr) →
      ∃ text, printedForm exec depth value context4 = .ok text context4) := by
  obtain ⟨hloop, hout⟩ := Print_loop_of_PrintedArgs hargs
  have hall : (context3.write "\n").output =
      context.output ++ printedOutput true pieces ++ "\n" := by
    simp [Context.write, hout]
  refine ⟨?_, rfl, hall, ?_, fun _ _ _ => rfl, ?_⟩
  · intro fuel2 hlt
    have h1 : Execute (fuel + 1) (.Print args_) closure context =
        .ok ObjectHolder.None closure2 (context3.write "\n") := by
      simp only [Execute_succ, ExecuteNode, hloop]
    rw [Execute_mono hlt _ _ _ (by simp [h1, ExecResult.cut]), h1]
  · intro hquiet
    rw [hall]
    cases pieces with
    | nil => simp [printedOutput, joinedBySpaces]
    | cons p rest =>
      obtain ⟨written, written2, text⟩ := p
      have hp := hquiet (written, written2, text) (List.mem_cons_self _ _)
      simp only at hp
      obtain ⟨rfl, rfl⟩ := hp
      have hrest := printedOutput_quiet rest text
        (fun q hq => hquiet q (List.mem_cons_of_mem _ hq))
      simp only [printedOutput, List.map_cons, ← hrest]
      simp [String.append_assoc]
  · intro exec depth value context4 hne
    cases value with
    | ClassInstance addr => exact absurd rfl (hne addr)
    | None => exact ⟨_, rfl⟩
    | Number _ => exact ⟨_, by cases depth <;> rfl⟩
    | String _ => exact ⟨_, by cases depth <;> rfl⟩
    | Bool _ => exact ⟨_, by cases depth <;> rfl⟩
    | Class _ => exact ⟨_, by cases depth <;> rfl⟩

/-- C22 at `print 1, "a", None, True`, with `>` in the stream before: the
stream becomes `>1 a None True` and a newline; and at `print 1, t`, where the
`__str__` of `t` prints `hello` and returns `"x"`: the stream receives `1`, the
space, the line `hello` and then the printed form `x` with the newline. -/
theorem C22_Print_output_witness :
    Execute 2 (.Print [.NumericConst 1, .StringConst "a", .None, .BoolConst true])
        unbound_scope { output := ">", objects := [] } =
      .ok ObjectHolder.None unbound_scope { output := ">1 a None True\n", objects := [] } ∧
    Execute 5 (.Print [.NumericConst 1, .VariableValue ["t"]]) str_scope str_context =
      .ok ObjectHolder.None str_scope
        { output := "1 hello\nx\n", objects := str_context.objects } :=
  ⟨(C22_Print_output 1 [.NumericConst 1, .StringConst "a", .None, .BoolConst true]
      unbound_scope { output := ">", objects := [] }
      [("", "", "1"), ("", "", "a"), ("", "", "None"), ("", "", "True")] unbound_scope
      { output := ">1 a None True", objects := [] }
      (PrintedArgs.cons rfl rfl rfl rfl (PrintedArgs.cons rfl rfl rfl rfl
        (PrintedArgs.cons rfl rfl rfl rfl (PrintedArgs.cons rfl rfl rfl rfl
          PrintedArgs.nil))))).1 2 (by decide),
   (C22_Print_output 4 [.NumericConst 1, .VariableValue ["t"]] str_scope str_context
      [("", "", "1"), ("", "hello\n", "x")] str_scope
      { output := "1 hello\nx", objects := str_context.objects }
      (PrintedArgs.cons rfl rfl rfl rfl (PrintedArgs.cons rfl rfl rfl rfl
        PrintedArgs.nil))).1 5 (by decide)⟩

/-- C22, counterexample.  In `print s` the argument evaluates without error to
an instance whose `__str__` returns nothing, and the node fails (in the source
`res->Print` is called on the empty handle), whatever the bound on the nesting.
In `print 1, t` both arguments evaluate without error and their printed forms
are `1` and `x`, yet the stream does not grow by `1 x` and a newline: the
`__str__` of `t` writes the line `hello` after the space and before the printed
form. -/
theorem C22_printed_form_counterexample :
    (∀ fuel, Execute (fuel + 1) (.VariableValue ["s"]) str_scope str_context =
      .ok (ObjectHolder.ClassInstance 0) str_scope str_context) ∧
    Execute 5 (.Print [.VariableValue ["s"]]) str_scope str_context =
      .fail Failure.null_dereference str_scope str_context ∧
    (∀ fuel, ¬ ∃ value closure context,
      Execute fuel (.Print [.VariableValue ["s"]]) str_scope str_context =
        .ok value closure context) ∧
    (∀ fuel, Execute (fuel + 1) (.NumericConst 1) str_scope str_context =
      .ok (ObjectHolder.Number 1) str_scope str_context) ∧
    (∀ fuel, Execute (fuel + 1) (.VariableValue ["t"]) str_scope str_context =
      .ok (ObjectHolder.ClassInstance 1) str_scope str_context) ∧
    printedForm (Execute 4) 4 (ObjectHolder.Number 1) str_context = .ok "1" str_context ∧
    printedForm (Execute 4) 4 (ObjectHolder.ClassInstance 1) str_context =
      .ok "x" { output := "hello\n", objects := str_context.objects } ∧
    joinedBySpaces ["1", "x"] ++ "\n" = "1 x\n" ∧
    (∀ fuel, Execute (fuel + 5) (.Print [.NumericConst 1, .VariableValue ["t"]]) str_scope
        str_context =
      .ok ObjectHolder.None str_scope
        { output := "1 hello\nx\n", objects := str_context.objects }) ∧
    "1 hello\nx\n" ≠ str_context.output ++ "1 x\n" := by
  have h5 : Execute 5 (.Print [.VariableValue ["s"]]) str_scope str_context =
      .fail Failure.null_dereference str_scope str_context := rfl
  refine ⟨fun _ => rfl, h5, ?_, fun _ => rfl, fun _ => rfl, rfl, rfl, by decide, ?_, by decide⟩
  · intro fuel
    rintro ⟨value, closure, context, h⟩
    rcases Nat.lt_or_ge fuel 5 with hlt | hge
    · interval_cases fuel <;> cases h
    · rw [Execute_mono hge _ _ _ (by rw [h5]; simp [ExecResult.cut]), h5] at h
      cases h
  · intro fuel
    have h : Execute 5 (.Print [.NumericConst 1, .VariableValue ["t"]]) str_scope str_context =
        .ok ObjectHolder.None str_scope
          { output := "1 hello\nx\n", objects := str_context.objects } := rfl
    rw [Execute_mono (Nat.le_add_left 5 fuel) _ _ _ (by simp [h, ExecResult.cut]), h]

end ast
